import Mathlib

/-!
# SorachanCoin storage layer (`src/db.cpp`)

A shallow embedding of the Berkeley DB ("B-tree") and LevelDB ("LSM") storage
classes of `src/db.cpp`: `CDBEnv`, `CDB`, `CLevelDBEnv` and `CLevelDB`.

* C++ objects become structures, member functions become functions that take the
  object and the process state and return the new ones.
* The Berkeley DB / LevelDB libraries are outside the repository.  Every return
  code the code inspects is supplied by a `Backend` record, so that each branch
  of the code can be driven; the calls made are appended to a call log.
* A failed `assert` and a thrown `std::runtime_error` are results of their own
  (`Outcome.abort`, `Outcome.throw`), never silently dropped.
-/

namespace SorachanCoin

/-- Byte strings (`CDataStream` contents, C strings without their terminator). -/
abbrev Bytes := List Nat

/-- How a C++ call ends: it returns, throws `std::runtime_error`, dies on a failed `assert`
    (`abort`), or dereferences a null pointer (`crash`). -/
inductive Outcome (α : Type) where
  | ret (a : α)
  | throw (what : String)
  | abort
  | crash
  deriving DecidableEq, Repr

/-! ## `std::map<std::string, T>` -/

/-- A `std::map<std::string, T>`: association list, kept in key order by `mapSet`. -/
abbrev StdMap (β : Type) := List (String × β)

/-- Lookup, as `m.find(k)`. -/
def mapFind {β : Type} : StdMap β → String → Option β
  | [], _ => none
  | (k', v) :: m, k => if k' = k then some v else mapFind m k

/-- Byte-wise lexicographic order, the key order of a B-tree file. -/
def bytesLt : Bytes → Bytes → Bool
  | [], [] => false
  | [], _ :: _ => true
  | _ :: _, [] => false
  | a :: s, c :: t => if a < c then true else if c < a then false else bytesLt s t

/-- The order of `std::string`: lexicographic by character code. -/
def strLt (s t : String) : Bool :=
  bytesLt (s.toList.map Char.toNat) (t.toList.map Char.toNat)

/-- Assignment `m[k] = v`; a new key is inserted at its place in key order. -/
def mapSet {β : Type} : StdMap β → String → β → StdMap β
  | [], k, v => [(k, v)]
  | (k', v') :: m, k, v =>
    if k' = k then (k, v) :: m
    else if strLt k k' then (k, v) :: (k', v') :: m
    else (k', v') :: mapSet m k v

/-- Insertion `m.insert(std::make_pair(k, v))`: an entry already under the key is kept. -/
def mapInsert {β : Type} (m : StdMap β) (k : String) (v : β) : StdMap β :=
  if (mapFind m k).isSome then m else mapSet m k v

/-- Removal, as `m.erase(k)`. -/
def mapErase {β : Type} (m : StdMap β) (k : String) : StdMap β :=
  m.filter (fun e => e.1 ≠ k)

/-- The keys of a map, in iteration order. -/
def mapKeys {β : Type} (m : StdMap β) : List String := m.map Prod.fst

/-- The number of entries under a key, as `m.count(k)`. -/
def mapCount {β : Type} (m : StdMap β) (k : String) : Nat :=
  (m.filter (fun e => e.1 = k)).length

/-! ## Berkeley DB objects, as far as `db.cpp` drives them -/

/-- An allocated `Db` handle: the file it was opened on and the open flags. -/
structure Db where
  strFile : String
  nFlags : Nat
  deriving DecidableEq, Repr

/-- A `DbTxn *` handed out by `DbEnv::txn_begin`. -/
abbrev DbTxn := Nat

/-- One record of a database file. -/
abbrev Record := Bytes × Bytes

/-- The records of one database file, in cursor order. -/
abbrev DbFile := List Record

/-- Berkeley DB calls issued by the code, with the return code where the code receives one
    (`db_new` is `new(std::nothrow) Db`, with whether it yielded an object). -/
inductive DbCall where
  | env_open (ret : Int)
  | env_close (ret : Int)
  | env_remove (ret : Int)
  | txn_checkpoint (kbyte min : Nat)
  | lsn_reset (strFile : String)
  | log_archive
  | db_new (strFile : String) (ok : Bool)
  | db_open (strFile : Option String) (nFlags : Nat) (ret : Int)
  | db_close (strFile : String)
  | copy_close (strFile : String) (ret : Int)
  | db_cursor (strFile : String) (ret : Int)
  | cursor_get (strFile : String) (ret : Int)
  | db_put (strFile : String) (key value : Bytes) (ret : Int)
  | db_remove (strFile : String) (ret : Int)
  | db_rename (strFileRes strFile : String) (ret : Int)
  | txn_begin (ret : Int)
  | txn_commit (txn : DbTxn) (ret : Int)
  | txn_abort (txn : DbTxn) (ret : Int)
  | env_dbremove (strFile : String) (ret : Int)
  | db_verify (strFile : String) (flags : Nat) (ret : Int)
  deriving DecidableEq, Repr

/-- Return codes of the library calls made during one operation (the code's only
    view of the backend).  `0` is success throughout, as in Berkeley DB. -/
structure Backend where
  /-- result of `fsbridge::dir_create` -/
  dir_create : Bool := true
  /-- return code of `dbenv.open` -/
  env_open : Int := 0
  /-- return code of `dbenv.close` -/
  env_close : Int := 0
  /-- return code of `DbEnv(0).remove` -/
  env_remove : Int := 0
  /-- whether `new(std::nothrow) Db` in `CDBEnv::Create` yields an object -/
  db_alloc : Bool := true
  /-- return code of the `cc`-th `pdb->open` attempt in `CDBEnv::Create` -/
  db_open : Nat → Int := fun _ => 0
  /-- the `DbTxn *` stored by `dbenv.txn_begin` -/
  txn_begin_ptxn : Option DbTxn := some 0
  /-- return code of `dbenv.txn_begin` -/
  txn_begin : Int := 0
  /-- return code of `activeTxn->commit` -/
  txn_commit : Int := 0
  /-- return code of `activeTxn->abort` -/
  txn_abort : Int := 0
  /-- whether `new(std::nothrow) Db` in `CDBEnv::TempCreate` yields an object -/
  temp_alloc : Bool := true
  /-- return code of `pdb->open` in `CDBEnv::TempCreate` -/
  temp_open : Int := 0
  /-- return code of `pdb->cursor` in `CDB::GetIteCursor` -/
  db_cursor : Int := 0
  /-- error injected into the `i`-th cursor read (`0`: the read takes its normal course) -/
  cursor_get : Nat → Int := fun _ => 0
  /-- error injected into the put of the `i`-th record read (`0`: the put takes its normal course) -/
  db_put : Nat → Int := fun _ => 0
  /-- return code of `pdbCopy->close` -/
  copy_close : Int := 0
  /-- return code of `Db::remove` -/
  db_remove : Int := 0
  /-- return code of `Db::rename` -/
  db_rename : Int := 0
  /-- whether `new(std::nothrow) leveldb::WriteBatch` yields an object -/
  batch_alloc : Bool := true
  /-- `status.ok()` of `pdb->Write(leveldb::WriteOptions(), activeBatch)` -/
  write_ok : Bool := true
  /-- `status.ok()` of `activeBatch->Iterate(&scanner)` -/
  iterate_ok : Bool := true
  /-- return code of `dbenv.dbremove` -/
  env_dbremove : Int := 0
  /-- return code of `Db::verify` -/
  db_verify : Int := 0
  /-- the text `Db::verify` writes into the dump stream of `CDBEnv::Salvage` -/
  verify_dump : String := ""
  /-- result of `fsbridge::dir_create` for the `i`-th instance in `CLevelDBEnv::Open` -/
  ldb_dir_create : Nat → Bool := fun _ => true
  /-- whether `new (std::nothrow) leveldb_object` for the `i`-th instance yields an object -/
  ldb_alloc : Nat → Bool := fun _ => true
  /-- `status.ok()` of `leveldb::DB::Open` for the `i`-th instance -/
  ldb_open : Nat → Bool := fun _ => true
  /-- whether `pdb->NewIterator` in `CLevelDB::GetIteCursor` yields an iterator -/
  ldb_iter_alloc : Bool := true
  /-- `status.ok()` of `leveldb::DB::Open` in `CLevelDBEnv::Flush(strDb)`, by instance name -/
  ldb_flush_open : String → Bool := fun _ => true
  /-- whether `new(std::nothrow) sqlite_object` for the `i`-th instance yields an object -/
  sql_alloc : Nat → Bool := fun _ => true
  /-- whether `sqlite3_open` for the `i`-th instance returns `SQLITE_OK` -/
  sql_open : Nat → Bool := fun _ => true
  /-- result of `is_table_exists(ite, "key_value")` for the `i`-th instance -/
  sql_table_exists : Nat → Bool := fun _ => false
  /-- result of `sql(ite, "create table key_value ...")` for the `i`-th instance -/
  sql_create : Nat → Bool := fun _ => true
  /-- what `CDB::Write` does on a handle whose `fReadOnly` is set (`db.h` is not among the
      sources, and the spec leaves it open) -/
  write_read_only : Outcome Bool := .abort

/-- The `CDBEnv` singleton (`CDBEnv::get_instance()`). -/
structure CDBEnv where
  fDetachDB : Bool
  fDbEnvInit : Bool
  fMockDb : Bool
  mapFileUseCount : StdMap Int
  mapDb : StdMap (Option Db)
  /-- the environment directory; empty until `Open` stores its argument -/
  pathEnv : String := ""
  deriving DecidableEq, Repr

/-- Process state seen by the B-tree classes. -/
structure World where
  /-- `args_bool::fShutdown` -/
  fShutdown : Bool
  /-- `map_arg::GetArgUInt("-dblogsize", 100)` -/
  dblogsize : Nat
  /-- the `CDBEnv` singleton -/
  bitdb : CDBEnv
  /-- database files on disk, by name -/
  files : StdMap DbFile
  /-- Berkeley DB calls made so far, oldest first -/
  calls : List DbCall
  /-- `iofs::GetDataDir()` -/
  dataDir : String := ""
  deriving DecidableEq, Repr

/-- Append a call to the call log. -/
def World.log (w : World) (c : DbCall) : World := { w with calls := w.calls ++ [c] }

/-! ## Constants -/

/-- Berkeley DB 4.8 `DB_NOTFOUND`. -/
def DB_NOTFOUND : Int := -30988

/-- Berkeley DB 4.8 `DB_KEYEXIST`. -/
def DB_KEYEXIST : Int := -30995

/-- Berkeley DB `DB_CREATE` open flag. -/
def DB_CREATE : Nat := 1

/-- Berkeley DB `DB_THREAD` open flag (a bit other than `DB_CREATE`). -/
def DB_THREAD : Nat := 32

/-- Berkeley DB 4.8 `DB_SALVAGE` flag of `Db::verify`. -/
def DB_SALVAGE : Nat := 64

/-- Berkeley DB 4.8 `DB_AGGRESSIVE` flag of `Db::verify` (a bit other than `DB_SALVAGE`). -/
def DB_AGGRESSIVE : Nat := 1

/-- Whether the open flags contain `DB_CREATE` (the lowest bit). -/
def hasCreate (nFlags : Nat) : Bool := nFlags % 2 = 1

/-- The serialized `std::string("version")`: length byte 7, then the characters. -/
def versionKey : Bytes := [7, 118, 101, 114, 115, 105, 111, 110]

/-- Modelled from the spec: `CDataStream << int` (`serialize.h`, not among the sources);
    spec 6: the version record is "a little-endian integer record" (4 bytes). -/
def serializeInt (n : Nat) : Bytes :=
  [n % 256, n / 256 % 256, n / 65536 % 256, n / 16777216 % 256]

/-- C `strlen`: the number of bytes before the first NUL; the end of the list is the terminator. -/
def strlen : Bytes → Nat
  | [] => 0
  | c :: s => if c = 0 then 0 else strlen s + 1

/-- C `strncmp(s1, s2, n)`: compares at most `n` bytes and stops after a NUL; the result is the
    difference of the first two bytes that differ, `0` if none do.  A read at the end of a list
    yields the terminating NUL. -/
def strncmp : Bytes → Bytes → Nat → Int
  | _, _, 0 => 0
  | s1, s2, n + 1 =>
    if s1.headD 0 ≠ s2.headD 0 then (s1.headD 0 : Int) - (s2.headD 0 : Int)
    else if s1.headD 0 = 0 then 0
    else strncmp s1.tail s2.tail n

/-- Insert a record with a new key at its place in key order. -/
def insertRecord : DbFile → Bytes → Bytes → DbFile
  | [], k, v => [(k, v)]
  | (k', v') :: f, k, v =>
    if bytesLt k k' then (k, v) :: (k', v') :: f else (k', v') :: insertRecord f k v

/-- Replace the value stored under an existing key. -/
def replaceRecord : DbFile → Bytes → Bytes → DbFile
  | [], _, _ => []
  | (k', v') :: f, k, v => if k' = k then (k, v) :: f else (k', v') :: replaceRecord f k v

/-- The records of a file on disk; a missing file has none. -/
def World.records (w : World) (strFile : String) : DbFile :=
  (mapFind w.files strFile).getD []

/-! ## `dbparam` -/

/-- `dbparam::IsChainFile`: `assert(strFile != "blkindex.dat"); return (strFile == "blkindex.dat");` -/
def IsChainFile (strFile : String) : Outcome Bool :=
  if strFile ≠ "blkindex.dat" then .ret (strFile == "blkindex.dat") else .abort

/-! ## `CDBEnv` -/

/-- Modelled from the spec: `CDBEnv::IncUseCount` is declared in `db.h`, which is not among the
    sources.  Spec 3/4.2: the use-count table maps a file name to an integer, "incremented on
    handle acquisition"; a file without an entry counts as zero. -/
def CDBEnv.IncUseCount (env : CDBEnv) (strFile : String) : CDBEnv :=
  let n := (mapFind env.mapFileUseCount strFile).getD 0
  { env with mapFileUseCount := mapSet env.mapFileUseCount strFile (n + 1) }

/-- Modelled from the spec: `CDBEnv::DecUseCount` is declared in `db.h`, which is not among the
    sources.  Spec 4.2/7: "decremented on release"; "decrementing below zero is a programming
    error" that aborts the process. -/
def CDBEnv.DecUseCount (env : CDBEnv) (strFile : String) : Outcome CDBEnv :=
  let n := (mapFind env.mapFileUseCount strFile).getD 0
  if n ≤ 0 then .abort
  else .ret { env with mapFileUseCount := mapSet env.mapFileUseCount strFile (n - 1) }

/-- Modelled from the spec: `CDBEnv::ExistsFileCount` (`db.h`, not among the sources),
    spec 4.2 `exists(name)`: whether the use-count table has an entry for the file. -/
def CDBEnv.ExistsFileCount (env : CDBEnv) (strFile : String) : Bool :=
  (mapFind env.mapFileUseCount strFile).isSome

/-- Modelled from the spec: `CDBEnv::GetFileCount` (`db.h`, not among the sources),
    spec 4.2 `getUseCount(name)`: the file's use count. -/
def CDBEnv.GetFileCount (env : CDBEnv) (strFile : String) : Int :=
  (mapFind env.mapFileUseCount strFile).getD 0

/-- Modelled from the spec: `CDBEnv::EraseFileCount` (`db.h`, not among the sources),
    spec 4.2 `eraseUseCount(name)`: drops the file's entry from the use-count table. -/
def CDBEnv.EraseFileCount (env : CDBEnv) (strFile : String) : CDBEnv :=
  { env with mapFileUseCount := mapErase env.mapFileUseCount strFile }

/-- Modelled from the spec: `Db *&CDBEnv::getDb(strFile)` (`db.h`, not among the sources) hands out
    the handle-cache slot of the file, `mapDb[strFile]`; a missing slot is created holding `nullptr`. -/
def CDBEnv.getDb (env : CDBEnv) (strFile : String) : Option Db × CDBEnv :=
  match mapFind env.mapDb strFile with
  | some pdb => (pdb, env)
  | none => (none, { env with mapDb := mapSet env.mapDb strFile none })

/-- Store through the reference handed out by `getDb`: `pdb = value`. -/
def World.setDb (w : World) (strFile : String) (pdb : Option Db) : World :=
  { w with bitdb := { w.bitdb with mapDb := mapSet w.bitdb.mapDb strFile pdb } }

/-- `CDBEnv::Open(pathEnv_)`. -/
def CDBEnv.Open (b : Backend) (pathEnv_ : String) (w : World) : Bool × World :=
  if w.bitdb.fDbEnvInit then (true, w)
  else if w.fShutdown then (false, w)
  else
    let w0 := { w with bitdb := { w.bitdb with pathEnv := pathEnv_ } }
    if !b.dir_create then (false, w0)
    else
      let w1 := w0.log (.env_open b.env_open)
      if b.env_open ≠ 0 then (false, w1)
      else (true, { w1 with bitdb := { w1.bitdb with fDbEnvInit := true } })

/-- `CDBEnv::EnvShutdown`. -/
def CDBEnv.EnvShutdown (b : Backend) (w : World) : Outcome Unit × World :=
  if !w.bitdb.fDbEnvInit then (.ret (), w)
  else
    let w1 := ({ w with bitdb := { w.bitdb with fDbEnvInit := false } }).log (.env_close b.env_close)
    if !w1.bitdb.fMockDb then
      let w2 := w1.log (.env_remove b.env_remove)
      if b.env_remove > 0 then (.throw "EnvShutdown database remove failure", w2)
      else (.ret (), w2)
    else (.ret (), w1)

/-- `CDBEnv::Close`. -/
def CDBEnv.Close (b : Backend) (w : World) : Outcome Unit × World :=
  CDBEnv.EnvShutdown b w

/-- `CDBEnv::TxnCheckPoint` (the callers in `db.cpp` drop its result). -/
def CDBEnv.TxnCheckPoint (kbyte min : Nat) (w : World) : World :=
  w.log (.txn_checkpoint kbyte min)

/-- `CDBEnv::CloseDb`: closes and forgets the cached handle; `mapDb[strFile]` creates the slot. -/
def CDBEnv.CloseDb (strFile : String) (w : World) : World :=
  match mapFind w.bitdb.mapDb strFile with
  | some (some _) => (w.log (.db_close strFile)).setDb strFile none
  | some none => w
  | none => w.setDb strFile none

/-- `CDBEnv::RemoveDb`: `CloseDb(strFile)`, then `dbenv.dbremove(...) == 0`; a successful
    `dbremove` deletes the file. -/
def CDBEnv.RemoveDb (b : Backend) (strFile : String) (w : World) : Bool × World :=
  let w1 := (CDBEnv.CloseDb strFile w).log (.env_dbremove strFile b.env_dbremove)
  if b.env_dbremove = 0 then (true, { w1 with files := mapErase w1.files strFile })
  else (false, w1)

/-- `CDBEnv::VerifyResult`. -/
inductive VerifyResult where
  | VERIFY_OK
  | RECOVER_OK
  | RECOVER_FAIL
  deriving DecidableEq, Repr

/-- `CDBEnv::Verify(strFile, recoverFunc)`.  The callback is code of the caller: it is given
    the process state and hands back its result with the state it leaves. -/
def CDBEnv.Verify (b : Backend) (strFile : String)
    (recoverFunc : Option (String → Bool → World → Bool × World)) (w : World) :
    Outcome VerifyResult × World :=
  if mapCount w.bitdb.mapFileUseCount strFile ≠ 0 then (.abort, w)
  else
    let w1 := w.log (.db_verify strFile 0 b.db_verify)
    if b.db_verify = 0 then (.ret .VERIFY_OK, w1)
    else
      match recoverFunc with
      | none => (.ret .RECOVER_FAIL, w1)
      | some fn =>
        let fRecovered := fn strFile false w1
        (.ret (if fRecovered.1 then .RECOVER_OK else .RECOVER_FAIL), fRecovered.2)

/-- A `std::stringstream` being read: the characters not yet extracted and the state bits. -/
structure IStream where
  buf : List Char
  eofbit : Bool
  failbit : Bool
  deriving DecidableEq, Repr

/-- The characters before the first newline, and what follows that newline (`none` when the
    text holds no newline). -/
def splitLine : List Char → List Char × Option (List Char)
  | [] => ([], none)
  | c :: cs => if c = '\n' then ([], some cs) else (c :: (splitLine cs).1, (splitLine cs).2)

/-- `std::getline(is, str)`: on a stream that is not good the sentry fails, `failbit` is set
    and `str` is left alone.  Otherwise `str` is erased and receives the characters up to the
    next newline, which is extracted and dropped; reaching the end of the text sets `eofbit`,
    and `failbit` as well when nothing was extracted. -/
def IStream.getline (is : IStream) (str : String) : IStream × String :=
  if is.eofbit || is.failbit then ({ is with failbit := true }, str)
  else
    match splitLine is.buf with
    | (line, some rest) => ({ buf := rest, eofbit := false, failbit := false }, String.mk line)
    | (line, none) => ({ buf := [], eofbit := true, failbit := line.isEmpty }, String.mk line)

/-- `CDBEnv::KeyValPair`. -/
abbrev KeyValPair := Bytes × Bytes

/-- The first loop of `CDBEnv::Salvage`:
    `while (!strDump.eof() && strLine != "HEADER=END") std::getline(strDump, strLine);`.
    Every round extracts a character or sets `eofbit`; `none` is a run that used up `fuel`. -/
def CDBEnv.Salvage.header : Nat → IStream → String → Option IStream
  | 0, _, _ => none
  | fuel + 1, strDump, strLine =>
    if !strDump.eofbit && strLine != "HEADER=END" then
      CDBEnv.Salvage.header fuel (strDump.getline strLine).1 (strDump.getline strLine).2
    else some strDump

/-- The second loop of `CDBEnv::Salvage`, `while (!strDump.eof() && keyHex != "DATA=END")`,
    with `strenc::ParseHex` (not among the sources) as a parameter; the result is `vResult`. -/
def CDBEnv.Salvage.data (ParseHex : String → Bytes) :
    Nat → IStream → String → String → List KeyValPair → Option (List KeyValPair)
  | 0, _, _, _, _ => none
  | fuel + 1, strDump, keyHex, valueHex, vResult =>
    if !strDump.eofbit && keyHex != "DATA=END" then
      let k := strDump.getline keyHex
      if k.2 != "DATA=END" then
        let v := k.1.getline valueHex
        CDBEnv.Salvage.data ParseHex fuel v.1 k.2 v.2 (vResult ++ [(ParseHex k.2, ParseHex v.2)])
      else CDBEnv.Salvage.data ParseHex fuel k.1 k.2 valueHex vResult
    else some vResult

/-- `CDBEnv::Salvage(strFile, fAggressive, vResult)`: the returned flag with `vResult`.
    `none` stands for a parsing loop that has used up its fuel. -/
def CDBEnv.Salvage (b : Backend) (ParseHex : String → Bytes) (strFile : String)
    (fAggressive : Bool) (vResult : List KeyValPair) (w : World) :
    Option (Outcome (Bool × List KeyValPair) × World) :=
  if mapCount w.bitdb.mapFileUseCount strFile ≠ 0 then some (.abort, w)
  else
    let flags := if fAggressive then DB_SALVAGE + DB_AGGRESSIVE else DB_SALVAGE
    let w1 := w.log (.db_verify strFile flags b.db_verify)
    if b.db_verify ≠ 0 then some (.ret (false, vResult), w1)
    else
      let strDump : IStream := { buf := b.verify_dump.data, eofbit := false, failbit := false }
      match CDBEnv.Salvage.header (b.verify_dump.data.length + 2) strDump "" with
      | none => none
      | some strDump1 =>
        match CDBEnv.Salvage.data ParseHex (b.verify_dump.data.length + 2) strDump1 "" "" vResult with
        | none => none
        | some vResult1 => some (.ret (true, vResult1), w1)

/-- `CDBEnv::CheckpointLSN`. -/
def CDBEnv.CheckpointLSN (strFile : String) (w : World) : World :=
  let w1 := w.log (.txn_checkpoint 0 0)
  if w1.bitdb.fMockDb then w1 else w1.log (.lsn_reset strFile)

/-- The retry loop of `CDBEnv::Create`:
    `for (int cc = 0; cc < retry_counter; ++cc)`; `some ret` is the error of the last attempt
    when the retry budget is used up, `none` is `break` (or a loop that never ran). -/
def CDBEnv.Create.retry (b : Backend) (retry_counter : Int) (strFile : Option String)
    (nFlags : Nat) : Nat → Nat → World → Option Int × World
  | _, 0, w => (none, w)
  | cc, fuel + 1, w =>
    if (cc : Int) < retry_counter then
      let ret := b.db_open cc
      let w1 := w.log (.db_open strFile nFlags ret)
      if ret ≠ 0 then
        if (cc : Int) < retry_counter - 1 then CDBEnv.Create.retry b retry_counter strFile nFlags (cc + 1) fuel w1
        else (some ret, w1)
      else (none, w1)
    else (none, w)

/-- `CDBEnv::Create`.  `retry_counter` is a constant of `db.h` (not among the sources) and is
    taken as a parameter. -/
def CDBEnv.Create (b : Backend) (retry_counter : Int) (strFile : String) (nFlags : Nat)
    (w : World) : Outcome (Option Db) × World :=
  match CDBEnv.Open b w.dataDir w with
  | (false, w1) =>
    if w1.fShutdown then (.ret none, w1)
    else (.throw "CDBEnv::bitdb : failed to open file", w1)
  | (true, w1) =>
    let w2 := { w1 with bitdb := w1.bitdb.IncUseCount strFile }
    let w3 := { w2 with bitdb := (w2.bitdb.getDb strFile).2 }
    match (w2.bitdb.getDb strFile).1 with
    | some pdb => (.ret (some pdb), w3)
    | none =>
      if !b.db_alloc then (.throw "CDB() : failed to allocate memory", w3.log (.db_new strFile false))
      else
        let pdb : Db := { strFile := strFile, nFlags := nFlags }
        let w4 := (w3.log (.db_new strFile true)).setDb strFile (some pdb)
        match CDBEnv.Create.retry b retry_counter (if w4.bitdb.fMockDb then none else some strFile)
            nFlags 0 retry_counter.toNat w4 with
        | (some _, w5) =>
          let w6 := w5.setDb strFile none
          match w6.bitdb.DecUseCount strFile with
          | .ret env => (.throw "CDB() : can't open database file", { w6 with bitdb := env })
          | _ => (.abort, w6)
        | (none, w5) => (.ret (some pdb), w5)

/-- The `while (mi != mapFileUseCount.end())` loop of `CDBEnv::Flush`, over the entries of
    `mapFileUseCount` in iteration order. -/
def CDBEnv.Flush.loop : List (String × Int) → World → Outcome Unit × World
  | [], w => (.ret (), w)
  | (strFile, nRefCount) :: rest, w =>
    if nRefCount = 0 then
      let w1 := CDBEnv.CloseDb strFile w
      let w2 := w1.log (.txn_checkpoint 0 0)
      match IsChainFile strFile with
      | .ret fChain =>
        let w3 := if !fChain || w2.bitdb.fDetachDB then
                    (if !w2.bitdb.fMockDb then w2.log (.lsn_reset strFile) else w2)
                  else w2
        let m := mapErase w3.bitdb.mapFileUseCount strFile
        let w4 := { w3 with bitdb := { w3.bitdb with mapFileUseCount := m } }
        CDBEnv.Flush.loop rest w4
      | .throw e => (.throw e, w2)
      | .abort => (.abort, w2)
      | .crash => (.crash, w2)
    else CDBEnv.Flush.loop rest w

/-- `CDBEnv::Flush(bool fShutdown)`.  The body tests `args_bool::fShutdown`, not its parameter. -/
def CDBEnv.Flush (b : Backend) (_fShutdown : Bool) (w : World) : Outcome Unit × World :=
  if !w.bitdb.fDbEnvInit then (.ret (), w)
  else
    match CDBEnv.Flush.loop w.bitdb.mapFileUseCount w with
    | (.ret (), w1) =>
      if w1.fShutdown then
        if w1.bitdb.mapFileUseCount.isEmpty then CDBEnv.Close b (w1.log .log_archive)
        else (.ret (), w1)
      else (.ret (), w1)
    | r => r

/-- `CDBEnv::TempCreate`: a handle of its own on `strFile`, `nullptr` when the allocation fails
    or `open` returns a positive code.  A successful open with `DB_CREATE` creates a missing file. -/
def CDBEnv.TempCreate (b : Backend) (strFile : String) (nFlags : Nat) (w : World) :
    Option Db × World :=
  if !b.temp_alloc then (none, w.log (.db_new strFile false))
  else
    let w1 := (w.log (.db_new strFile true)).log (.db_open (some strFile) nFlags b.temp_open)
    if b.temp_open > 0 then (none, w1)
    else if b.temp_open = 0 ∧ hasCreate nFlags = true ∧ mapFind w1.files strFile = none then
      (some { strFile := strFile, nFlags := nFlags }, { w1 with files := mapSet w1.files strFile [] })
    else (some { strFile := strFile, nFlags := nFlags }, w1)

/-- `CDBEnv::Remove`: `db.remove(strFile) == 0`; a successful remove deletes the file. -/
def CDBEnv.Remove (b : Backend) (strFile : String) (w : World) : Bool × World :=
  let w1 := w.log (.db_remove strFile b.db_remove)
  if b.db_remove = 0 then (true, { w1 with files := mapErase w1.files strFile })
  else (false, w1)

/-- `CDBEnv::Rename`: `db.rename(strFileRes, strFile) == 0`; a successful rename moves the
    records of `strFileRes` under the name `strFile`. -/
def CDBEnv.Rename (b : Backend) (strFileRes strFile : String) (w : World) : Bool × World :=
  let w1 := w.log (.db_rename strFileRes strFile b.db_rename)
  if b.db_rename = 0 then
    match mapFind w1.files strFileRes with
    | some recs => (true, { w1 with files := mapSet (mapErase w1.files strFileRes) strFile recs })
    | none => (true, w1)
  else (false, w1)

/-- `CDBEnv::TxnBegin`: `nullptr` unless `txn_begin` stored a transaction and returned `0`. -/
def CDBEnv.TxnBegin (b : Backend) (w : World) : Option DbTxn × World :=
  let w1 := w.log (.txn_begin b.txn_begin)
  match b.txn_begin_ptxn with
  | none => (none, w1)
  | some ptxn => if b.txn_begin ≠ 0 then (none, w1) else (some ptxn, w1)

/-- `pdb->put(nullptr, &datKey, &datValue, DB_NOOVERWRITE)` on the file of the handle: an injected
    error leaves the file alone, an existing key yields `DB_KEYEXIST`, otherwise the record is
    stored and `0` returned. -/
def Db.put_NOOVERWRITE (inject : Int) (pdb : Db) (key value : Bytes) (w : World) : Int × World :=
  if inject ≠ 0 then (inject, w.log (.db_put pdb.strFile key value inject))
  else if key ∈ (w.records pdb.strFile).map Prod.fst then
    (DB_KEYEXIST, w.log (.db_put pdb.strFile key value DB_KEYEXIST))
  else
    let recs := insertRecord (w.records pdb.strFile) key value
    (0, { w with files := mapSet w.files pdb.strFile recs,
                 calls := w.calls ++ [.db_put pdb.strFile key value 0] })

/-! ## Iterators -/

/-- A Berkeley DB cursor (`Dbc`): the file it walks and the number of records already passed. -/
structure Dbc where
  strFile : String
  pos : Nat
  deriving DecidableEq, Repr

/-- A `leveldb::Iterator`: the records from its position on; it is `Valid()` while some remain. -/
structure LevelIterator where
  rest : List Record
  deriving DecidableEq, Repr

/-- `IDB::DbIterator`: a B-tree cursor, a LevelDB iterator, or the default-constructed
    iterator holding no pointer. -/
inductive DbIterator where
  | null
  | cdb (pcursor : Dbc)
  | ldb (ite : LevelIterator)
  deriving DecidableEq, Repr

/-- Modelled from the spec: `DbIterator::is_ok` (`db.h`, not among the sources): the iterator
    holds a position (spec 3, "validity flag"). -/
def DbIterator.is_ok : DbIterator → Bool
  | .null => false
  | _ => true

/-- The `ldb` branch of `IDB::ReadAtCursor`. -/
def IDB.ReadAtCursor.ldb (ite : LevelIterator) (ssKey ssValue : Bytes) :
    Int × LevelIterator × Bytes × Bytes :=
  match ite.rest with
  | [] => (DB_NOTFOUND, ite, ssKey, ssValue)
  | (k, v) :: rest => (if rest ≠ [] then 0 else DB_NOTFOUND, { rest := rest }, k, v)

/-- The `cdb` branch of `IDB::ReadAtCursor` with `fFlags = DB_NEXT` (the default, and the flag
    `CDB::Rewrite` passes): a non-zero code of `Dbc::get` is returned as it is, otherwise the
    record is copied into the caller's streams.  `Dbc::get` yields the next record of the file,
    `DB_NOTFOUND` past the last one, or the injected error. -/
def IDB.ReadAtCursor.cdb (b : Backend) (pcursor : Dbc) (ssKey ssValue : Bytes) (w : World) :
    (Int × Dbc × Bytes × Bytes) × World :=
  if b.cursor_get pcursor.pos ≠ 0 then
    ((b.cursor_get pcursor.pos, pcursor, ssKey, ssValue),
      w.log (.cursor_get pcursor.strFile (b.cursor_get pcursor.pos)))
  else
    match (w.records pcursor.strFile)[pcursor.pos]? with
    | none => ((DB_NOTFOUND, pcursor, ssKey, ssValue), w.log (.cursor_get pcursor.strFile DB_NOTFOUND))
    | some (k, v) =>
      ((0, { pcursor with pos := pcursor.pos + 1 }, k, v), w.log (.cursor_get pcursor.strFile 0))

/-- `IDB::ReadAtCursor` (`fFlags = DB_NEXT`): `pcursor.is_leveldb() ? ldb() : cdb()`; an iterator
    holding no pointer is dereferenced by `cdb()`. -/
def IDB.ReadAtCursor (b : Backend) (pcursor : DbIterator) (ssKey ssValue : Bytes) (w : World) :
    Outcome (Int × DbIterator × Bytes × Bytes) × World :=
  match pcursor with
  | .ldb ite =>
    let r := IDB.ReadAtCursor.ldb ite ssKey ssValue
    (.ret (r.1, .ldb r.2.1, r.2.2.1, r.2.2.2), w)
  | .cdb c =>
    let r := IDB.ReadAtCursor.cdb b c ssKey ssValue w
    (.ret (r.1.1, .cdb r.1.2.1, r.1.2.2.1, r.1.2.2.2), r.2)
  | .null => (.crash, w)

/-- Successive `IDB::ReadAtCursor` calls on one iterator, one per pair of caller buffers
    `(ssKey, ssValue)`: the return code and the buffers after each call.  The run ends at a
    call that does not return. -/
def IDB.ReadAtCursor.calls (b : Backend) :
    DbIterator → List (Bytes × Bytes) → World → List (Int × Bytes × Bytes)
  | _, [], _ => []
  | ite, (ssKey, ssValue) :: bufs, w =>
    match IDB.ReadAtCursor b ite ssKey ssValue w with
    | (.ret (ret, ite1, ssKey1, ssValue1), w1) =>
      (ret, ssKey1, ssValue1) :: IDB.ReadAtCursor.calls b ite1 bufs w1
    | _ => []

/-! ## `CDB` -/

/-- A `CDB` object. -/
structure CDB where
  pdb : Option Db
  strFile : String
  activeTxn : Option DbTxn
  fReadOnly : Bool
  deriving DecidableEq, Repr

/-- Modelled from the spec: `CDB::Exists` (template of `db.h`, not among the sources): whether
    the open file holds a record under the key; `false` on a closed handle. -/
def CDB.Exists (db : CDB) (key : Bytes) (w : World) : Bool :=
  db.pdb.isSome && decide (key ∈ (w.records db.strFile).map Prod.fst)

/-- Modelled from the spec: `CDB::Write` (template of `db.h`, not among the sources), spec 8 P1:
    a write stores the value under the key, replacing an earlier value; it fails on a closed
    handle.  What it does on a read-only handle is left to `Backend.write_read_only`. -/
def CDB.Write (b : Backend) (db : CDB) (key value : Bytes) (w : World) : Outcome Bool × World :=
  match db.pdb with
  | none => (.ret false, w)
  | some _ =>
    if db.fReadOnly then (b.write_read_only, w)
    else
      let recs := w.records db.strFile
      let recs1 := if key ∈ recs.map Prod.fst then replaceRecord recs key value
                   else insertRecord recs key value
      (.ret true, { w with files := mapSet w.files db.strFile recs1,
                           calls := w.calls ++ [.db_put db.strFile key value 0] })

/-- Modelled from the spec: `CDB::Read` (template of `db.h`, not among the sources), spec 8 P1:
    a read yields the value stored under the key; it fails on a closed handle and when the
    file holds no record under the key. -/
def CDB.Read (db : CDB) (key : Bytes) (w : World) : Option Bytes :=
  match db.pdb with
  | none => none
  | some _ => (w.records db.strFile).lookup key

/-- Modelled from the spec: `CDataStream >> int` (`serialize.h`, not among the sources);
    spec 6: "a little-endian integer record", here a 4-byte two's complement `int`. -/
def unserializeInt : Bytes → Option Int
  | [b0, b1, b2, b3] =>
    let n := b0 + 256 * b1 + 65536 * b2 + 16777216 * b3
    some (if n < 2 ^ 31 then (n : Int) else (n : Int) - 2 ^ 32)
  | _ => none

/-- `CDB::WriteVersion`: `Write(std::string("version"), nVersion)`. -/
def CDB.WriteVersion (b : Backend) (db : CDB) (nVersion : Nat) (w : World) : Outcome Bool × World :=
  CDB.Write b db versionKey (serializeInt nVersion) w

/-- `CDB::ReadVersion`: `nVersion = 0; return Read(std::string("version"), nVersion);`, the
    result with `nVersion`. -/
def CDB.ReadVersion (db : CDB) (w : World) : Bool × Int :=
  match (CDB.Read db versionKey w).bind unserializeInt with
  | some nVersion => (true, nVersion)
  | none => (false, 0)

/-- `CDB::CDB(pszFile, pszMode)` for a non-null `pszFile`.  `CLIENT_VERSION` is
    `version::CLIENT_VERSION` (not among the sources), taken as a parameter. -/
def CDB.construct (b : Backend) (retry_counter : Int) (CLIENT_VERSION : Nat) (pszFile pszMode : String)
    (w : World) : Outcome CDB × World :=
  let fReadOnly := !pszMode.toList.contains '+' && !pszMode.toList.contains 'w'
  let fCreate := pszMode.toList.contains 'c'
  let nFlags := if fCreate then DB_THREAD + DB_CREATE else DB_THREAD
  match CDBEnv.Create b retry_counter pszFile nFlags w with
  | (.ret pdb, w1) =>
    let db : CDB := { pdb := pdb, strFile := pszFile, activeTxn := none, fReadOnly := fReadOnly }
    if fCreate && !CDB.Exists db versionKey w1 then
      -- bool fTmp = fReadOnly; fReadOnly = false; WriteVersion(CLIENT_VERSION); fReadOnly = fTmp;
      match CDB.WriteVersion b { db with fReadOnly := false } CLIENT_VERSION w1 with
      | (.ret _, w2) => (.ret db, w2)
      | (.throw e, w2) => (.throw e, w2)
      | (.abort, w2) => (.abort, w2)
      | (.crash, w2) => (.crash, w2)
    else (.ret db, w1)
  | (.throw e, w1) => (.throw e, w1)
  | (.abort, w1) => (.abort, w1)
  | (.crash, w1) => (.crash, w1)

/-- `CDB::Close`. -/
def CDB.Close (b : Backend) (db : CDB) (w : World) : Outcome Unit × CDB × World :=
  match db.pdb with
  | none => (.ret (), db, w)
  | some _ =>
    let w1 := match db.activeTxn with
      | some txn => w.log (.txn_abort txn b.txn_abort)
      | none => w
    let db1 := { db with activeTxn := none, pdb := none }
    let nMinutes := if db.fReadOnly then 1 else 0
    let w2 := CDBEnv.TxnCheckPoint (if nMinutes ≠ 0 then w.dblogsize * 1024 % 2 ^ 32 else 0) nMinutes w1
    match w2.bitdb.DecUseCount db.strFile with
    | .ret env => (.ret (), db1, { w2 with bitdb := env })
    | .throw e => (.throw e, db1, w2)
    | .abort => (.abort, db1, w2)
    | .crash => (.crash, db1, w2)

/-- `CDB::TxnBegin`. -/
def CDB.TxnBegin (b : Backend) (db : CDB) (w : World) : Bool × CDB × World :=
  if db.pdb.isNone || db.activeTxn.isSome then (false, db, w)
  else
    match CDBEnv.TxnBegin b w with
    | (none, w1) => (false, db, w1)
    | (some ptxn, w1) => (true, { db with activeTxn := some ptxn }, w1)

/-- `CDB::TxnCommit`. -/
def CDB.TxnCommit (b : Backend) (db : CDB) (w : World) : Bool × CDB × World :=
  match db.pdb, db.activeTxn with
  | some _, some txn =>
    (decide (b.txn_commit = 0), { db with activeTxn := none }, w.log (.txn_commit txn b.txn_commit))
  | _, _ => (false, db, w)

/-- `CDB::TxnAbort`. -/
def CDB.TxnAbort (b : Backend) (db : CDB) (w : World) : Bool × CDB × World :=
  match db.pdb, db.activeTxn with
  | some _, some txn =>
    (decide (b.txn_abort = 0), { db with activeTxn := none }, w.log (.txn_abort txn b.txn_abort))
  | _, _ => (false, db, w)

/-- `CDB::GetIteCursor`: no iterator on a closed handle or when `pdb->cursor` fails. -/
def CDB.GetIteCursor (b : Backend) (db : CDB) (w : World) : DbIterator × World :=
  match db.pdb with
  | none => (.null, w)
  | some _ =>
    let w1 := w.log (.db_cursor db.strFile b.db_cursor)
    if b.db_cursor ≠ 0 then (.null, w1) else (.cdb { strFile := db.strFile, pos := 0 }, w1)

/-- The skip test of `CDB::Rewrite`:
    `pszSkip != nullptr && strncmp(&ssKey[0], pszSkip, std::min(ssKey.size(), strlen(pszSkip))) == 0`. -/
def CDB.Rewrite.skip (pszSkip : Option Bytes) (ssKey : Bytes) : Bool :=
  match pszSkip with
  | none => false
  | some psz => decide (strncmp ssKey psz (min ssKey.length (strlen psz)) = 0)

/-- The version test of `CDB::Rewrite`: `strncmp(&ssKey[0], "\x07version", 8) == 0`. -/
def CDB.Rewrite.isVersion (ssKey : Bytes) : Bool :=
  decide (strncmp ssKey versionKey 8 = 0)

/-- A call of `CDB::Rewrite` on the replacement file `strFileRes` or on the cursor that failed in
    the way the code checks for: the replacement could not be created (`TempCreate` yields
    `nullptr`), a cursor read returned an error other than `DB_NOTFOUND`, a put returned a
    positive code, or closing the copy returned non-zero. -/
def DbCall.failedStep (strFileRes : String) : DbCall → Bool
  | .db_new f ok => f = strFileRes && !ok
  | .db_open f _ ret => f = some strFileRes && decide (ret > 0)
  | .cursor_get _ ret => decide (ret ≠ 0) && decide (ret ≠ DB_NOTFOUND)
  | .db_put f _ _ ret => f = strFileRes && decide (ret > 0)
  | .copy_close _ ret => decide (ret ≠ 0)
  | _ => false

/-- The backend never fails in a way `CDB::Rewrite` overlooks: opening the replacement does not
    return a negative code, the cursor opens, no read reports `DB_NOTFOUND` before the end of
    the file, and no put returns a negative code. -/
def Backend.noOverlookedFailure (b : Backend) : Prop :=
  0 ≤ b.temp_open ∧ b.db_cursor = 0 ∧ (∀ i, b.cursor_get i ≠ DB_NOTFOUND) ∧ ∀ i, 0 ≤ b.db_put i

/-- The `while (fSuccess)` loop of `CDB::Rewrite`; the result is `fSuccess` at loop exit.
    `i` counts the records read so far.  Every round but the last moves the cursor on, so the
    loop ends; `none` stands for a run that has used up `fuel`. -/
def CDB.Rewrite.loop (b : Backend) (CLIENT_VERSION : Nat) (pszSkip : Option Bytes) (pdbCopy : Db) :
    Nat → Nat → DbIterator → World → Option (Outcome Bool × World)
  | 0, _, _, _ => none
  | fuel + 1, i, ite, w =>
    match IDB.ReadAtCursor b ite [] [] w with
    | (.ret (ret, ite1, ssKey, ssValue), w1) =>
      if ret = DB_NOTFOUND then some (.ret true, w1)
      else if ret ≠ 0 then some (.ret false, w1)
      else if CDB.Rewrite.skip pszSkip ssKey then
        CDB.Rewrite.loop b CLIENT_VERSION pszSkip pdbCopy fuel (i + 1) ite1 w1
      else
        let ssValue1 := if CDB.Rewrite.isVersion ssKey then serializeInt CLIENT_VERSION else ssValue
        let r := Db.put_NOOVERWRITE (b.db_put i) pdbCopy ssKey ssValue1 w1
        if r.1 > 0 then some (.ret false, r.2)
        else CDB.Rewrite.loop b CLIENT_VERSION pszSkip pdbCopy fuel (i + 1) ite1 r.2
    | (.throw e, w1) => some (.throw e, w1)
    | (.abort, w1) => some (.abort, w1)
    | (.crash, w1) => some (.crash, w1)

/-- The last part of `CDB::Rewrite`, from `if (fSuccess) { db.Close(); ... }` to
    `return fSuccess;`, entered with the value of `fSuccess` after the copy loop. -/
def CDB.Rewrite.finish (b : Backend) (strFile : String) (pdbCopy : Option Db) (db : CDB)
    (fSuccess : Bool) (w : World) : Outcome Bool × World :=
  if fSuccess then
    -- db.Close(); CloseDb(strFile); if (pdbCopy->close(0)) fSuccess = false;
    match CDB.Close b db w with
    | (.ret (), _, w1) =>
      let w2 := CDBEnv.CloseDb strFile w1
      match pdbCopy with
      | none => (.crash, w2)
      | some copy =>
        let w3 := w2.log (.copy_close copy.strFile b.copy_close)
        if b.copy_close ≠ 0 then (.ret false, w3)
        else
          -- fSuccess = Remove(strFile); fSuccess = Rename(strFileRes, strFile);
          let r1 := CDBEnv.Remove b strFile w3
          let r2 := CDBEnv.Rename b (strFile ++ ".rewrite") strFile r1.2
          (.ret r2.1, r2.2)
    | (.throw e, _, w1) => (.throw e, w1)
    | (.abort, _, w1) => (.abort, w1)
    | (.crash, _, w1) => (.crash, w1)
  else
    -- end of scope: the destructor of `db` runs `Close()`
    match CDB.Close b db w with
    | (.ret (), _, w1) => (.ret false, w1)
    | (.throw e, _, w1) => (.throw e, w1)
    | (.abort, _, w1) => (.abort, w1)
    | (.crash, _, w1) => (.crash, w1)

/-- The block `{ CDB db(strFile.c_str(), "r"); ... }` of `CDB::Rewrite` after the construction
    of `db`, together with the `Remove`/`Rename` that follow it: the replacement is created, the
    cursor opened, the records copied, and the files swapped. -/
def CDB.Rewrite.copy (b : Backend) (CLIENT_VERSION : Nat) (strFile : String)
    (pszSkip : Option Bytes) (db : CDB) (w : World) : Option (Outcome Bool × World) :=
  let t := CDBEnv.TempCreate b (strFile ++ ".rewrite") DB_CREATE w
  let c := CDB.GetIteCursor b db t.2
  let looped : Option (Outcome Bool × World) :=
    match t.1 with
    | none => some (.ret false, c.2)
    | some pdbCopy =>
      if c.1.is_ok then
        CDB.Rewrite.loop b CLIENT_VERSION pszSkip pdbCopy ((c.2.records strFile).length + 1) 0 c.1 c.2
      else some (.ret true, c.2)
  match looped with
  | none => none
  | some (.ret fSuccess, w5) => some (CDB.Rewrite.finish b strFile t.1 db fSuccess w5)
  | some (.throw e, w5) => some (.throw e, (CDB.Close b db w5).2.2)
  | some (.abort, w5) => some (.abort, w5)
  | some (.crash, w5) => some (.crash, w5)

/-- The body of `CDB::Rewrite` once the file is found unused (the block under
    `if (!ExistsFileCount(strFile) || GetFileCount(strFile) == 0)`). -/
def CDB.Rewrite.compact (b : Backend) (retry_counter : Int) (CLIENT_VERSION : Nat)
    (strFile : String) (pszSkip : Option Bytes) (w : World) : Option (Outcome Bool × World) :=
  let w1 := CDBEnv.CloseDb strFile w
  let w2 := CDBEnv.CheckpointLSN strFile w1
  let w3 := { w2 with bitdb := w2.bitdb.EraseFileCount strFile }
  match CDB.construct b retry_counter CLIENT_VERSION strFile "r" w3 with
  | (.ret db, w4) => CDB.Rewrite.copy b CLIENT_VERSION strFile pszSkip db w4
  | (.throw e, w4) => some (.throw e, w4)
  | (.abort, w4) => some (.abort, w4)
  | (.crash, w4) => some (.crash, w4)

/-- `CDB::Rewrite(strFile, pszSkip)`.  The list holds the process state found at each poll of
    `while (!args_bool::fShutdown)` (other threads run during `util::Sleep(100)`); `none` is a
    run still polling when the list ends. -/
def CDB.Rewrite (b : Backend) (retry_counter : Int) (CLIENT_VERSION : Nat) (strFile : String)
    (pszSkip : Option Bytes) : List World → Option (Outcome Bool × World)
  | [] => none
  | w :: polls =>
    if w.fShutdown then some (.ret false, w)
    else if !w.bitdb.ExistsFileCount strFile || w.bitdb.GetFileCount strFile = 0 then
      CDB.Rewrite.compact b retry_counter CLIENT_VERSION strFile pszSkip w
    else CDB.Rewrite b retry_counter CLIENT_VERSION strFile pszSkip polls

/-! ## `CLevelDB` -/

/-- One operation recorded in a `leveldb::WriteBatch`. -/
inductive BatchOp where
  | Put (key value : Bytes)
  | Delete (key : Bytes)
  deriving DecidableEq, Repr

/-- A `leveldb::WriteBatch`: the recorded operations in program order. -/
abbrev WriteBatch := List BatchOp

/-- The committed content of a `leveldb::DB`, in key order. -/
abbrev LevelStore := List Record

/-- `leveldb::DB::Get`. -/
def LevelStore.Get : LevelStore → Bytes → Option Bytes
  | [], _ => none
  | (k', v) :: st, k => if k' = k then some v else LevelStore.Get st k

/-- `leveldb::DB::Delete`. -/
def LevelStore.Delete (st : LevelStore) (key : Bytes) : LevelStore :=
  st.filter (fun r => r.1 ≠ key)

/-- `leveldb::DB::Put`: the value replaces an earlier one. -/
def LevelStore.Put (st : LevelStore) (key value : Bytes) : LevelStore :=
  insertRecord (LevelStore.Delete st key) key value

/-- A successful `leveldb::DB::Write`: the operations of the batch applied in order. -/
def LevelStore.Write : LevelStore → WriteBatch → LevelStore
  | st, [] => st
  | st, .Put k v :: ops => LevelStore.Write (LevelStore.Put st k v) ops
  | st, .Delete k :: ops => LevelStore.Write (LevelStore.Delete st k) ops

/-- A `CLevelDB` object; `pdb` points to the store shared through `CLevelDBEnv`, which the
    functions below take and return next to the object. -/
structure CLevelDB where
  fReadOnly : Bool
  fSecure : Bool
  activeBatch : Option WriteBatch
  deriving DecidableEq, Repr

/-- `CLevelDB::CLevelDB(strDb, pszMode, fSecureIn)`. -/
def CLevelDB.construct (pszMode : String) (fSecureIn : Bool) : CLevelDB :=
  { fReadOnly := !pszMode.toList.contains '+' && !pszMode.toList.contains 'w',
    fSecure := fSecureIn, activeBatch := none }

/-- `CLevelDB::Close`. -/
def CLevelDB.Close (db : CLevelDB) : CLevelDB := { db with activeBatch := none }

/-- `CLevelDB::TxnBegin`. -/
def CLevelDB.TxnBegin (b : Backend) (db : CLevelDB) : Outcome Bool × CLevelDB :=
  if db.fSecure ≠ false then (.abort, db)
  else if db.activeBatch.isSome then (.abort, db)
  else if !b.batch_alloc then (.throw "LevelDB : WriteBatch failed to allocate memory", db)
  else (.ret true, { db with activeBatch := some [] })

/-- `CLevelDB::TxnCommit`. -/
def CLevelDB.TxnCommit (b : Backend) (db : CLevelDB) (pdb : LevelStore) :
    Outcome Bool × CLevelDB × LevelStore :=
  if db.fSecure ≠ false then (.abort, db, pdb)
  else
    match db.activeBatch with
    | none => (.abort, db, pdb)
    | some batch =>
      if !b.write_ok then (.ret false, { db with activeBatch := none }, pdb)
      else (.ret true, { db with activeBatch := none }, LevelStore.Write pdb batch)

/-- `CLevelDB::TxnAbort`. -/
def CLevelDB.TxnAbort (db : CLevelDB) (pdb : LevelStore) : Outcome Bool × CLevelDB × LevelStore :=
  if db.fSecure ≠ false then (.abort, db, pdb)
  else (.ret true, { db with activeBatch := none }, pdb)

/-- The state of a `CBatchScanner` while `WriteBatch::Iterate` replays the batch:
    `foundEntry`, `*foundValue`, `*deleted`. -/
def CBatchScanner.Iterate (needle : Bytes) : WriteBatch → Bool × Bytes × Bool → Bool × Bytes × Bool
  | [], st => st
  | .Put key value :: ops, st =>
    CBatchScanner.Iterate needle ops (if key = needle then (true, value, false) else st)
  | .Delete key :: ops, st =>
    CBatchScanner.Iterate needle ops (if key = needle then (true, st.2.1, true) else st)

/-- `CLevelDB::ScanBatch(key, value, deleted)`: the result is the returned `foundEntry` with the
    final `*value` and `*deleted`. -/
def CLevelDB.ScanBatch (b : Backend) (db : CLevelDB) (key value : Bytes) (_deleted : Bool) :
    Outcome (Bool × Bytes × Bool) :=
  match db.activeBatch with
  | none => .abort
  | some batch =>
    if !b.iterate_ok then .throw "status"
    else .ret (CBatchScanner.Iterate key batch (false, value, false))

/-- The key an operation of a batch acts on. -/
def BatchOp.key : BatchOp → Bytes
  | .Put key _ => key
  | .Delete key => key

/-- Claim side of `ScanBatch` (spec 4.4, `scanPending`): the last operation recorded for `key`
    in the batch, in program order. -/
def WriteBatch.lastOpOn (batch : WriteBatch) (key : Bytes) : Option BatchOp :=
  (batch.filter (fun op => op.key = key)).getLast?

/-- `CLevelDB::GetIteCursor`: a new iterator on the store, moved to the first record. -/
def CLevelDB.GetIteCursor (b : Backend) (pdb : LevelStore) : Outcome DbIterator :=
  if !b.ldb_iter_alloc then .throw "CLevelDB::GetIteCursor memory allocate failure"
  else .ret (.ldb { rest := pdb })

/-- `CSqliteDB::GetIteCursor`: `return std::move(IDB::DbIterator());`. -/
def CSqliteDB.GetIteCursor : DbIterator := .null

/-- Modelled from the spec: `CLevelDB::Write` (template of `db.h`, not among the sources),
    spec 4.4: inside an Active batch a write is recorded in the batch, otherwise it goes to
    the store. -/
def CLevelDB.Write (db : CLevelDB) (pdb : LevelStore) (key value : Bytes) :
    Bool × CLevelDB × LevelStore :=
  match db.activeBatch with
  | some batch => (true, { db with activeBatch := some (batch ++ [.Put key value]) }, pdb)
  | none => (true, db, LevelStore.Put pdb key value)

/-- Modelled from the spec: `CLevelDB::Read` (template of `db.h`, not among the sources),
    spec 4.4: a read inside an open transaction observes the pending put or delete of the key
    (`ScanBatch`) "before falling through to the committed store". -/
def CLevelDB.Read (b : Backend) (db : CLevelDB) (pdb : LevelStore) (key : Bytes) :
    Outcome (Option Bytes) :=
  match db.activeBatch with
  | none => .ret (LevelStore.Get pdb key)
  | some _ =>
    match CLevelDB.ScanBatch b db key [] false with
    | .ret (true, value, deleted) => .ret (if deleted then none else some value)
    | .ret (false, _, _) => .ret (LevelStore.Get pdb key)
    | .throw e => .throw e
    | .abort => .abort
    | .crash => .crash

/-! ## `CLevelDBEnv` -/

/-- A `leveldb_object` of `CLevelDBEnv::lobj`: `ptxdb` is the directory the `leveldb::DB` was
    opened on, `none` for `nullptr`. -/
structure leveldb_object where
  ptxdb : Option String
  deriving DecidableEq, Repr

/-- The `CLevelDBEnv` singleton; `instances` is the member `instance` of the source. -/
structure CLevelDBEnv where
  fLevelDbEnvInit : Bool
  instances : List String
  lobj : StdMap leveldb_object
  pathEnv : String
  /-- whether `options.block_cache` is non-null -/
  block_cache : Bool := true
  /-- whether `options.filter_policy` is non-null -/
  filter_policy : Bool := true
  deriving DecidableEq, Repr

/-- The loop `for(size_t i=0; i<instance.size(); ++i)` of `CLevelDBEnv::Open`, from index `i`
    on. -/
def CLevelDBEnv.Open.loop (b : Backend) (pathEnv_ : String) :
    List String → Nat → CLevelDBEnv → Outcome Unit × CLevelDBEnv
  | [], _, env => (.ret (), env)
  | name :: rest, i, env =>
    if !b.ldb_dir_create i then (.throw "CLevelDBEnv::Open(): dir create failure", env)
    else if !b.ldb_alloc i then (.throw "CLevelDBEnv::Open(): out of memory", env)
    else if !b.ldb_open i then
      (.throw "CLevelDBEnv::Open(): error opening database environment", env)
    else
      CLevelDBEnv.Open.loop b pathEnv_ rest (i + 1)
        { env with lobj := mapInsert env.lobj name { ptxdb := some (pathEnv_ ++ "/" ++ name) } }

/-- `CLevelDBEnv::Open(pathEnv_)`; `fShutdown` is `args_bool::fShutdown`. -/
def CLevelDBEnv.Open (b : Backend) (pathEnv_ : String) (fShutdown : Bool) (env : CLevelDBEnv) :
    Outcome Bool × CLevelDBEnv :=
  if env.fLevelDbEnvInit then (.ret true, env)
  else if fShutdown then (.ret false, env)
  else
    match CLevelDBEnv.Open.loop b pathEnv_ env.instances 0 { env with pathEnv := pathEnv_ } with
    | (.ret (), env1) => (.ret true, { env1 with fLevelDbEnvInit := true })
    | (.throw e, env1) => (.throw e, env1)
    | (.abort, env1) => (.abort, env1)
    | (.crash, env1) => (.crash, env1)

/-- `CLevelDBEnv::EnvShutdown`: the objects of `lobj` are deleted, the table is cleared and
    the block cache and filter policy are deleted; `fLevelDbEnvInit` is not assigned. -/
def CLevelDBEnv.EnvShutdown (env : CLevelDBEnv) : CLevelDBEnv :=
  if !env.fLevelDbEnvInit then env
  else { env with lobj := [], block_cache := false, filter_policy := false }

/-- `CLevelDBEnv::CloseDb(strDb)`: `delete lobj[strDb]->ptxdb; lobj[strDb]->ptxdb = nullptr;`.
    For a name without entry `lobj[strDb]` creates a null entry, which is then dereferenced. -/
def CLevelDBEnv.CloseDb (strDb : String) (env : CLevelDBEnv) : Outcome Unit × CLevelDBEnv :=
  match mapFind env.lobj strDb with
  | some _ => (.ret (), { env with lobj := mapSet env.lobj strDb { ptxdb := none } })
  | none => (.crash, env)

/-- `CLevelDBEnv::Flush(const std::string &strDb)`: the database is closed and opened again;
    a failed `leveldb::DB::Open` leaves the handle null and throws. -/
def CLevelDBEnv.FlushDb (b : Backend) (strDb : String) (env : CLevelDBEnv) :
    Outcome Bool × CLevelDBEnv :=
  match CLevelDBEnv.CloseDb strDb env with
  | (.ret (), env1) =>
    if !b.ldb_flush_open strDb then
      (.throw "CLevelDBEnv::Flush(): error opening database environment", env1)
    else
      (.ret true,
        { env1 with
          lobj := mapSet env1.lobj strDb { ptxdb := some (env1.pathEnv ++ "/" ++ strDb) } })
  | (.throw e, env1) => (.throw e, env1)
  | (.abort, env1) => (.abort, env1)
  | (.crash, env1) => (.crash, env1)

/-- The loop `for(auto &ite: lobj) if(! Flush(ite.first)) return;` of
    `CLevelDBEnv::Flush(bool)`, over the names of `lobj`. -/
def CLevelDBEnv.Flush.loop (b : Backend) : List String → CLevelDBEnv → Outcome Unit × CLevelDBEnv
  | [], env => (.ret (), env)
  | strDb :: rest, env =>
    match CLevelDBEnv.FlushDb b strDb env with
    | (.ret true, env1) => CLevelDBEnv.Flush.loop b rest env1
    | (.ret false, env1) => (.ret (), env1)
    | (.throw e, env1) => (.throw e, env1)
    | (.abort, env1) => (.abort, env1)
    | (.crash, env1) => (.crash, env1)

/-- `CLevelDBEnv::Flush(bool fShutdown)`; the argument is not used. -/
def CLevelDBEnv.Flush (b : Backend) (_fShutdown : Bool) (env : CLevelDBEnv) :
    Outcome Unit × CLevelDBEnv :=
  CLevelDBEnv.Flush.loop b (mapKeys env.lobj) env

/-- `CLevelDBEnv::Close`: `Flush(args_bool::fShutdown); EnvShutdown();`. -/
def CLevelDBEnv.Close (b : Backend) (fShutdown : Bool) (env : CLevelDBEnv) :
    Outcome Unit × CLevelDBEnv :=
  match CLevelDBEnv.Flush b fShutdown env with
  | (.ret (), env1) => (.ret (), env1.EnvShutdown)
  | (.throw e, env1) => (.throw e, env1)
  | (.abort, env1) => (.abort, env1)
  | (.crash, env1) => (.crash, env1)

/-! ## `CSqliteDBEnv` -/

/-- SQLite calls issued by `CSqliteDBEnv`. -/
inductive SqlCall where
  | sqlite3_open (path : String)
  | sqlite3_close (strFile : String)
  | table_exists (strFile : String)
  | create_table (strFile : String)
  deriving DecidableEq, Repr

/-- A `sqlite_object` of `CSqliteDBEnv::sqlobj`: `psql` is the path the connection was opened
    on, `none` for `nullptr`. -/
structure sqlite_object where
  psql : Option String
  deriving DecidableEq, Repr

/-- The `CSqliteDBEnv` singleton; `instances` is the member `instance` of the source, `calls`
    the SQLite calls made so far, oldest first. -/
structure CSqliteDBEnv where
  instances : List String
  sqlobj : StdMap sqlite_object
  pathEnv : String
  calls : List SqlCall
  deriving DecidableEq, Repr

/-- `CSqliteDBEnv::EnvShutdown`: every connection that is open is closed, the objects are
    deleted and the table is cleared. -/
def CSqliteDBEnv.EnvShutdown (env : CSqliteDBEnv) : CSqliteDBEnv :=
  { env with
    calls := env.calls ++ (env.sqlobj.filter (fun e => e.2.psql.isSome)).map
      (fun e => SqlCall.sqlite3_close e.1)
    sqlobj := [] }

/-- The loop `for(const auto &ite: instance)` of `CSqliteDBEnv::Open`, from the `i`-th
    instance on. -/
def CSqliteDBEnv.Open.loop (b : Backend) (pathEnv_ : String) :
    List String → Nat → CSqliteDBEnv → Outcome Unit × CSqliteDBEnv
  | [], _, env => (.ret (), env)
  | ite :: rest, i, env =>
    if !b.sql_alloc i then
      (.throw "CSqliteDBEnv::Open memory allocate failure", env.EnvShutdown)
    else
      let env1 := { env with calls := env.calls ++ [SqlCall.sqlite3_open (pathEnv_ ++ "/" ++ ite)] }
      if !b.sql_open i then
        (.throw "CSqliteDBEnv::Open Sqlite Object open failure", env1.EnvShutdown)
      else
        let env2 := { env1 with
          sqlobj := mapInsert env1.sqlobj ite { psql := some (pathEnv_ ++ "/" ++ ite) } }
        let env3 := { env2 with calls := env2.calls ++ [SqlCall.table_exists ite] }
        if b.sql_table_exists i = false then
          let env4 := { env3 with calls := env3.calls ++ [SqlCall.create_table ite] }
          if !b.sql_create i then
            (.throw "CSqliteDBEnv::Open Sqlite key_value table create failure", env4.EnvShutdown)
          else CSqliteDBEnv.Open.loop b pathEnv_ rest (i + 1) env4
        else CSqliteDBEnv.Open.loop b pathEnv_ rest (i + 1) env3

/-- `CSqliteDBEnv::Open(pathEnv_)`.  The state of `args_bool::fShutdown` is passed along for
    comparison with the other environment managers; the body does not read it. -/
def CSqliteDBEnv.Open (b : Backend) (pathEnv_ : String) (_fShutdown : Bool)
    (env : CSqliteDBEnv) : Outcome Bool × CSqliteDBEnv :=
  match CSqliteDBEnv.Open.loop b pathEnv_ env.instances 0 { env with pathEnv := pathEnv_ } with
  | (.ret (), env1) => (.ret true, env1)
  | (.throw e, env1) => (.throw e, env1)
  | (.abort, env1) => (.abort, env1)
  | (.crash, env1) => (.crash, env1)

/-! ## `bitkernel` (`kernel.cpp`) -/

/-- The constant of that name in `bitkernel` (`kernel.h`): ratio of group interval length
    between the last group and the first group. -/
def MODIFIER_INTERVAL_RATIO : Int := 3

/-- `bitkernel<T>::GetStakeModifierSelectionIntervalSection(nSection)`.  The variable
    `block_check::nModifierInterval` is declared outside the sources and taken as a parameter,
    an `unsigned int` of 32 bits.  The product `nModifierInterval * 63` is formed in that type
    and wraps modulo `2 ^ 32`; the `int` divisor is converted to `unsigned int` for the
    division, and the quotient is returned as `int64_t`.  C++ `/` on unsigned operands is the
    division of `Nat`. -/
def GetStakeModifierSelectionIntervalSection (nModifierInterval : Nat) (nSection : Int) :
    Outcome Int :=
  if nSection ≥ 0 ∧ nSection < 64 then
    .ret (((nModifierInterval * 63 % 2 ^ 32)
      / ((63 + ((63 - nSection) * ( MODIFIER_INTERVAL_RATIO - 1))) % 2 ^ 32).toNat : Nat) : Int)
  else .abort

/-- The loop `for (int nSection=0; nSection<64; ++nSection)` of
    `GetStakeModifierSelectionInterval`, entered at `nSection` with the sum so far; `fuel`
    bounds the rounds left.  The sum is an `int64_t`; 64 sections below `2 ^ 32` stay below
    `2 ^ 38`, so it is exact. -/
def GetStakeModifierSelectionInterval.loop (nModifierInterval : Nat) :
    Nat → Int → Int → Option (Outcome Int)
  | 0, _, _ => none
  | fuel + 1, nSection, nSelectionInterval =>
    if nSection < 64 then
      match GetStakeModifierSelectionIntervalSection nModifierInterval nSection with
      | .ret s =>
        GetStakeModifierSelectionInterval.loop nModifierInterval fuel (nSection + 1)
          (nSelectionInterval + s)
      | .throw e => some (.throw e)
      | .abort => some .abort
      | .crash => some .crash
    else some (.ret nSelectionInterval)

/-- `bitkernel<T>::GetStakeModifierSelectionInterval()`; 65 rounds end the loop. -/
def GetStakeModifierSelectionInterval (nModifierInterval : Nat) : Option (Outcome Int) :=
  GetStakeModifierSelectionInterval.loop nModifierInterval 65 0 0

/-! ## `base_uint` (`uint256.h`) -/

/-- The member `pn` of `base_uint<BITS>`: `WIDTH = BITS / 32` words of 32 bits, the least
    significant word first. -/
abbrev base_uint := List Nat

/-- The value a `base_uint` stands for. -/
def base_uint.value : base_uint → Nat
  | [] => 0
  | w :: pn => w + 2 ^ 32 * base_uint.value pn

/-- The bytes of `pn` as `(unsigned char *)pn` reads them (little-endian words, as on x86). -/
def base_uint.bytes : base_uint → List Nat
  | [] => []
  | w :: pn => w % 256 :: w / 256 % 256 :: w / 65536 % 256 :: w / 16777216 % 256
      :: base_uint.bytes pn

/-- The array `pn` whose memory holds the given bytes (four to a word). -/
def base_uint.ofBytes : List Nat → base_uint
  | b0 :: b1 :: b2 :: b3 :: rest =>
    (b0 + 256 * b1 + 65536 * b2 + 16777216 * b3) :: base_uint.ofBytes rest
  | _ => []

/-- One hexadecimal digit as `sprintf("%x")` prints it. -/
def hexChar (n : Nat) : Char := Char.ofNat (if n < 10 then 48 + n else 87 + n)

/-- `base_uint::GetHex`: `sprintf(psz + i * 2, "%02x", ((unsigned char *)pn)[sizeof(pn) - i - 1])`
    for `i` from `0` to `sizeof(pn) - 1`. -/
def base_uint.GetHex (pn : base_uint) : String :=
  String.mk ((List.range (4 * pn.length)).flatMap (fun i =>
    [hexChar ((base_uint.bytes pn).getD (4 * pn.length - i - 1) 0 / 16),
     hexChar ((base_uint.bytes pn).getD (4 * pn.length - i - 1) 0 % 16)]))

/-- The table `phexdigit` of `base_uint::SetHex`, as far as its initializer goes; the entries
    after it are `0`. -/
def phexdigitTable : List Nat :=
  [0, 0, 0, 0, 0, 0, 0, 0, 0, 0, 0, 0, 0, 0, 0, 0,
   0, 0, 0, 0, 0, 0, 0, 0, 0, 0, 0, 0, 0, 0, 0, 0,
   0, 0, 0, 0, 0, 0, 0, 0, 0, 0, 0, 0, 0, 0, 0, 0,
   0, 1, 2, 3, 4, 5, 6, 7, 8, 9, 0, 0, 0, 0, 0, 0,
   0, 10, 11, 12, 13, 14, 15, 0, 0, 0, 0, 0, 0, 0, 0, 0,
   0, 0, 0, 0, 0, 0, 0, 0, 0, 0, 0, 0, 0, 0, 0, 0,
   0, 10, 11, 12, 13, 14, 15, 0, 0, 0, 0, 0, 0, 0, 0, 0]

/-- The lookup `phexdigit[(unsigned char)c]`. -/
def phexdigit (c : Char) : Nat := phexdigitTable.getD c.toNat 0

/-- C `isspace` in the "C" locale: space, and the characters `\t \n \v \f \r`. -/
def isspace (c : Char) : Bool := c.toNat = 32 || (9 ≤ c.toNat && c.toNat ≤ 13)

/-- The last loop of `base_uint::SetHex`: the digits are consumed from the last one
    backwards, two to a byte, while bytes are left; the argument is the digit string reversed,
    the result the bytes written, from `pn`'s first byte on. -/
def base_uint.SetHex.fill : List Char → Nat → List Nat
  | _, 0 => []
  | [], _ => []
  | [c], _ + 1 => [phexdigit c]
  | c :: d :: rest, room + 1 =>
    (phexdigit c ||| (phexdigit d <<< 4)) % 256 :: base_uint.SetHex.fill rest room

/-- `base_uint::SetHex(psz)` on an object of `WIDTH` words: the new `pn`. -/
def base_uint.SetHex (WIDTH : Nat) (psz : String) : base_uint :=
  -- skip leading spaces
  let s1 := psz.data.dropWhile isspace
  -- skip 0x
  let s2 := match s1 with
    | c0 :: c1 :: rest => if c0 = '0' ∧ c1.toLower = 'x' then rest else s1
    | _ => s1
  -- hex string to uint
  let digits := s2.takeWhile (fun c => phexdigit c ≠ 0 || c = '0')
  let written := base_uint.SetHex.fill digits.reverse (WIDTH * 4)
  base_uint.ofBytes (written ++ List.replicate (WIDTH * 4 - written.length) 0)

/-- Claim side of `GetHex`: the number a digit string denotes when read most significant digit
    first. -/
def hexValue (s : String) : Nat := s.data.foldl (fun acc c => 16 * acc + phexdigit c) 0

/-! ## Salvage dumps -/

/-- Claim side of `Salvage`: the text of a dump made of the given lines, each ended by a
    newline. -/
def dumpText : List String → List Char
  | [] => []
  | l :: ls => l.data ++ '\n' :: dumpText ls

/-- Claim side of `Salvage`: the lines of the data section, a key line and a value line per pair. -/
def pairLines : List (String × String) → List String
  | [] => []
  | (k, v) :: ps => k :: v :: pairLines ps

/-! ## Sequences of registry calls -/

/-- One call on the B-tree registry: `CDBEnv::Create`, `CDB::Close`, `CDBEnv::CloseDb` or
    `CDBEnv::Flush`, with its arguments. -/
inductive RegistryCall where
  | Create (strFile : String) (nFlags : Nat)
  | Close (db : CDB)
  | CloseDb (strFile : String)
  | Flush (fShutdown : Bool)
  deriving DecidableEq, Repr

/-- The process state after one registry call, with how the call ended. -/
def RegistryCall.run (b : Backend) (retry_counter : Int) : RegistryCall → World → Outcome Unit × World
  | .Create strFile nFlags, w =>
    match CDBEnv.Create b retry_counter strFile nFlags w with
    | (.ret _, w1) => (.ret (), w1)
    | (.throw e, w1) => (.throw e, w1)
    | (.abort, w1) => (.abort, w1)
    | (.crash, w1) => (.crash, w1)
  | .Close db, w => ((CDB.Close b db w).1, (CDB.Close b db w).2.2)
  | .CloseDb strFile, w => (.ret (), CDBEnv.CloseDb strFile w)
  | .Flush fShutdown, w => CDBEnv.Flush b fShutdown w

/-- The process state after a sequence of registry calls, each with the return codes the
    backend gives during it.  A call that returns or throws is followed by the next one; a call
    that dies (failed `assert`, null dereference) ends the run. -/
def RegistryCall.runAll (retry_counter : Int) : List (Backend × RegistryCall) → World → World
  | [], w => w
  | (b, c) :: rest, w =>
    match c.run b retry_counter w with
    | (.ret _, w1) => RegistryCall.runAll retry_counter rest w1
    | (.throw _, w1) => RegistryCall.runAll retry_counter rest w1
    | (.abort, w1) => w1
    | (.crash, w1) => w1

/-- Registry invariant: no use count is negative, and every file with a cached (non-null)
    handle has an entry in the use-count table. -/
def CDBEnv.handlesTracked (env : CDBEnv) : Prop :=
  (∀ f n, mapFind env.mapFileUseCount f = some n → 0 ≤ n)
  ∧ ∀ f d, mapFind env.mapDb f = some (some d) → (mapFind env.mapFileUseCount f).isSome = true

/-! ## Sample states -/

/-- A running node: environment initialized, `wallet.dat` held once through a cached handle. -/
def sampleWorld : World :=
  { fShutdown := false
    dblogsize := 100
    bitdb :=
      { fDetachDB := false
        fDbEnvInit := true
        fMockDb := false
        mapFileUseCount := [("wallet.dat", 1)]
        mapDb := [("wallet.dat", some { strFile := "wallet.dat", nFlags := 32 })] }
    files := [("wallet.dat", [([97], [1]), ([98], [2])])]
    calls := [] }

/-- An open `CDB` on `wallet.dat` with transaction 7 Active. -/
def sampleCDB : CDB :=
  { pdb := some { strFile := "wallet.dat", nFlags := 32 }
    strFile := "wallet.dat"
    activeTxn := some 7
    fReadOnly := false }

/-- A `CLevelDB` whose Active batch holds one put. -/
def sampleLevelDB : CLevelDB :=
  { fReadOnly := false, fSecure := false, activeBatch := some [.Put [1] [2]] }

/-- A node with two tracked files: `addr.dat` is unused, `wallet.dat` is held once (as after
    acquire, acquire, release); both have a cached handle. -/
def flushWorld : World :=
  { sampleWorld with
    bitdb := { sampleWorld.bitdb with
      mapFileUseCount := [("addr.dat", 0), ("wallet.dat", 1)]
      mapDb := [("addr.dat", some { strFile := "addr.dat", nFlags := 32 }),
                ("wallet.dat", some { strFile := "wallet.dat", nFlags := 32 })] } }

/-- A node whose use-count table tracks `blkindex.dat` and `wallet.dat`, both unused. -/
def chainWorld : World :=
  { sampleWorld with
    bitdb := { sampleWorld.bitdb with
      mapFileUseCount := [("blkindex.dat", 0), ("wallet.dat", 0)] } }

/-- A node with the environment initialized and no file opened yet. -/
def freshWorld : World :=
  { sampleWorld with
    bitdb := { sampleWorld.bitdb with mapFileUseCount := [], mapDb := [] } }

/-- A node whose B-tree environment is not yet opened. -/
def closedWorld : World :=
  { freshWorld with bitdb := { freshWorld.bitdb with fDbEnvInit := false } }

/-- A node whose only tracked file, `wallet.dat`, is unused (its handle is still cached). -/
def idleWorld : World :=
  { sampleWorld with
    bitdb := { sampleWorld.bitdb with mapFileUseCount := [("wallet.dat", 0)] } }

/-- A `CSqliteDBEnv` for the instance `walletsql`, already opened under `/data`. -/
def sampleSqliteEnv : CSqliteDBEnv :=
  { instances := ["walletsql"]
    sqlobj := [("walletsql", { psql := some "/data/walletsql" })]
    pathEnv := "/data"
    calls := [] }

/-- A `CSqliteDBEnv` for the instance `walletsql`, not yet opened. -/
def freshSqliteEnv : CSqliteDBEnv :=
  { instances := ["walletsql"], sqlobj := [], pathEnv := "", calls := [] }

/-- A `CLevelDBEnv` for the instance `txdb`, not yet opened. -/
def sampleLevelEnv : CLevelDBEnv :=
  { fLevelDbEnvInit := false, instances := ["txdb"], lobj := [], pathEnv := "" }

/-- A node on which `wallet.dat` is unused: records `a`, `b`, `sk`, `skip-x`, the version
    record, and one record whose key goes on after the bytes of the version key. -/
def rewriteWorld : World :=
  { freshWorld with
    files := [("wallet.dat",
      [([97], [1]), ([98], [2]), ([115, 107], [9]), ([115, 107, 105, 112, 45, 120], [3]),
       (versionKey, [0, 0, 0, 0]), (versionKey ++ [1], [5])])] }

/-! # Theorems -/

/-! ## Maps -/

/-- Lookup after an assignment. -/
theorem mapFind_mapSet {β : Type} (m : StdMap β) (k : String) (v : β) (f : String) :
    mapFind (mapSet m k v) f = if f = k then some v else mapFind m f := by
  induction m with
  | nil =>
    by_cases h : f = k
    · simp [mapSet, mapFind, h]
    · have h' : ¬ k = f := fun e => h e.symm
      simp [mapSet, mapFind, h, h']
  | cons e m ih =>
    obtain ⟨k', v'⟩ := e
    by_cases h : f = k
    · subst h
      by_cases h1 : k' = f
      · simp [mapSet, mapFind, h1]
      · by_cases h2 : strLt f k' = true <;> simp [mapSet, mapFind, h1, h2, ih]
    · have h' : ¬ k = f := fun e => h e.symm
      by_cases h1 : k' = k
      · have h3 : ¬ k' = f := fun e => h (e.symm.trans h1)
        simp [mapSet, mapFind, h1, h, h', h3]
      · by_cases h2 : strLt k k' = true <;> simp [mapSet, mapFind, h1, h2, ih, h, h']

/-- Lookup after a removal. -/
theorem mapFind_mapErase {β : Type} (m : StdMap β) (k f : String) :
    mapFind (mapErase m k) f = if f = k then none else mapFind m f := by
  induction m with
  | nil => simp [mapErase, mapFind]
  | cons e m ih =>
    obtain ⟨k', v'⟩ := e
    unfold mapErase at ih ⊢
    by_cases h1 : k' = k
    · subst h1
      by_cases h : f = k'
      · subst h; simpa [List.filter, mapFind] using ih
      · have h' : ¬ k' = f := fun e => h e.symm
        simp [List.filter, mapFind, h, h'] at ih ⊢
        exact ih
    · by_cases h : f = k
      · subst h
        simp [List.filter, mapFind, h1] at ih ⊢
        exact ih
      · simp [List.filter, mapFind, h1, h] at ih ⊢
        rw [ih]

/-! ## Transactions (`TxnBegin`, `TxnCommit`, `TxnAbort`) -/

/-- `CLevelDB::TxnBegin` returns only on a handle with `fSecure == false`. -/
theorem CLevelDB.TxnBegin_ret_fSecure (b : Backend) (db : CLevelDB) (r : Bool)
    (h : (CLevelDB.TxnBegin b db).1 = .ret r) : db.fSecure = false := by
  unfold CLevelDB.TxnBegin at h
  by_contra hs
  simp [hs] at h

/-- C8: with transaction `txn` Active on an open `CDB`, `TxnCommit` calls `txn->commit`
    (the call is in the log, nothing else in the process state changes), leaves no transaction
    Active whatever the backend reports, and returns `true` exactly when the commit returned
    `0`.  With batch `batch` Active on a `CLevelDB` (whose `fSecure` is then `false`, see
    `CLevelDB.TxnBegin_ret_fSecure`), `TxnCommit` returns, leaves no batch Active whatever the
    write reports, returns `true` exactly when the batch write succeeded, and the store is then
    the old store with the operations of the batch applied in order; after a failed write the
    store is the old one. -/
theorem TxnCommit_active (b : Backend) (db : CDB) (w : World) (ldb : CLevelDB) (pdb : LevelStore)
    (txn : DbTxn) (batch : WriteBatch)
    (hopen : db.pdb ≠ none) (htxn : db.activeTxn = some txn)
    (hbatch : ldb.activeBatch = some batch) (hsec : ldb.fSecure = false) :
    CDB.TxnCommit b db w
      = (decide (b.txn_commit = 0), { db with activeTxn := none },
          { w with calls := w.calls ++ [.txn_commit txn b.txn_commit] })
    ∧ (CDB.TxnCommit b db w).2.1.activeTxn = none
    ∧ ((CDB.TxnCommit b db w).1 = true ↔ b.txn_commit = 0)
    ∧ CLevelDB.TxnCommit b ldb pdb
      = (.ret b.write_ok, { ldb with activeBatch := none },
          if b.write_ok = true then LevelStore.Write pdb batch else pdb)
    ∧ (CLevelDB.TxnCommit b ldb pdb).2.1.activeBatch = none
    ∧ (CLevelDB.TxnCommit b ldb pdb).1 = .ret b.write_ok := by
  obtain ⟨p, hp⟩ := Option.ne_none_iff_exists'.mp hopen
  have h1 : CDB.TxnCommit b db w
      = (decide (b.txn_commit = 0), { db with activeTxn := none },
          { w with calls := w.calls ++ [.txn_commit txn b.txn_commit] }) := by
    simp [CDB.TxnCommit, hp, htxn, World.log]
  have h2 : CLevelDB.TxnCommit b ldb pdb
      = (.ret b.write_ok, { ldb with activeBatch := none },
          if b.write_ok = true then LevelStore.Write pdb batch else pdb) := by
    unfold CLevelDB.TxnCommit
    cases hw : b.write_ok <;> simp [hsec, hbatch]
  refine ⟨h1, ?_, ?_, h2, ?_, ?_⟩
  · rw [h1]
  · rw [h1]; simp
  · rw [h2]
  · rw [h2]

/-- Witness of `TxnCommit_active`: the backend commit of transaction 7 fails with code 22 and
    is in the log; the batch write succeeds and the put of the batch replaces the value of key
    `[1]` in the store. -/
theorem TxnCommit_active_witness :
    sampleCDB.pdb ≠ none ∧ sampleCDB.activeTxn = some 7
    ∧ sampleLevelDB.activeBatch = some [.Put [1] [2]] ∧ sampleLevelDB.fSecure = false
    ∧ CDB.TxnCommit { txn_commit := 22 } sampleCDB sampleWorld
      = (false, { sampleCDB with activeTxn := none },
          { sampleWorld with calls := sampleWorld.calls ++ [.txn_commit 7 22] })
    ∧ CLevelDB.TxnCommit { txn_commit := 22 } sampleLevelDB [([1], [9])]
      = (.ret true, { sampleLevelDB with activeBatch := none }, [([1], [2])]) :=
  ⟨by decide, rfl, rfl, rfl,
    (TxnCommit_active { txn_commit := 22 } sampleCDB sampleWorld sampleLevelDB [([1], [9])]
      7 [.Put [1] [2]] (by decide) rfl rfl rfl).1,
    (TxnCommit_active { txn_commit := 22 } sampleCDB sampleWorld sampleLevelDB [([1], [9])]
      7 [.Put [1] [2]] (by decide) rfl rfl rfl).2.2.2.1⟩

/-- C9, as amended: with a transaction Active on an open `CDB`, `TxnAbort` leaves no transaction
    Active and returns `true` exactly when the backend abort returned `0`.  `CLevelDB::TxnAbort`
    always returns `true`, leaves no batch Active and does not touch the committed store, so that
    after begin, write, abort every key reads as it did before the transaction. -/
theorem TxnAbort_active (b : Backend) (db : CDB) (w : World) (ldb : CLevelDB) (pdb : LevelStore)
    (hopen : db.pdb ≠ none) (htxn : db.activeTxn ≠ none) (hsec : ldb.fSecure = false) :
    (CDB.TxnAbort b db w).2.1.activeTxn = none
    ∧ ((CDB.TxnAbort b db w).1 = true ↔ b.txn_abort = 0)
    ∧ CLevelDB.TxnAbort ldb pdb = (.ret true, { ldb with activeBatch := none }, pdb)
    ∧ ∀ key value key' : Bytes, b.batch_alloc = true →
        (CLevelDB.TxnBegin b (CLevelDB.Close ldb)).1 = .ret true
        ∧ (CLevelDB.TxnAbort
            (CLevelDB.Write (CLevelDB.TxnBegin b (CLevelDB.Close ldb)).2 pdb key value).2.1
            (CLevelDB.Write (CLevelDB.TxnBegin b (CLevelDB.Close ldb)).2 pdb key value).2.2).1
          = .ret true
        ∧ CLevelDB.Read b
            (CLevelDB.TxnAbort
              (CLevelDB.Write (CLevelDB.TxnBegin b (CLevelDB.Close ldb)).2 pdb key value).2.1
              (CLevelDB.Write (CLevelDB.TxnBegin b (CLevelDB.Close ldb)).2 pdb key value).2.2).2.1
            (CLevelDB.TxnAbort
              (CLevelDB.Write (CLevelDB.TxnBegin b (CLevelDB.Close ldb)).2 pdb key value).2.1
              (CLevelDB.Write (CLevelDB.TxnBegin b (CLevelDB.Close ldb)).2 pdb key value).2.2).2.2
            key'
          = CLevelDB.Read b (CLevelDB.Close ldb) pdb key' := by
  obtain ⟨p, hp⟩ := Option.ne_none_iff_exists'.mp hopen
  obtain ⟨t, ht⟩ := Option.ne_none_iff_exists'.mp htxn
  refine ⟨?_, ?_, ?_, ?_⟩
  · simp [CDB.TxnAbort, hp, ht]
  · simp [CDB.TxnAbort, hp, ht]
  · simp [CLevelDB.TxnAbort, hsec]
  · intro key value key' hb
    simp [CLevelDB.TxnBegin, CLevelDB.Close, CLevelDB.Write, CLevelDB.TxnAbort, CLevelDB.Read,
      hsec, hb]

/-- Witness of `TxnAbort_active`: the backend abort fails with code 22. -/
theorem TxnAbort_active_witness :
    (CDB.TxnAbort { txn_abort := 22 } sampleCDB sampleWorld).2.1.activeTxn = none
    ∧ ((CDB.TxnAbort { txn_abort := 22 } sampleCDB sampleWorld).1 = true ↔ (22 : Int) = 0)
    ∧ CLevelDB.TxnAbort sampleLevelDB [([1], [9])]
        = (.ret true, { sampleLevelDB with activeBatch := none }, [([1], [9])]) :=
  have h := TxnAbort_active { txn_abort := 22 } sampleCDB sampleWorld sampleLevelDB [([1], [9])]
    (by decide) (by decide) rfl
  ⟨h.1, h.2.1, h.2.2.1⟩

/-- C9 fails as stated: `CDB::TxnAbort` with a transaction Active returns `false` when the
    backend abort reports an error (`return (ret == 0)`). -/
theorem TxnAbort_cdb_counterexample :
    sampleCDB.pdb ≠ none ∧ sampleCDB.activeTxn = some 7
    ∧ (CDB.TxnAbort { txn_abort := 22 } sampleCDB sampleWorld).1 = false := by
  decide

/-- In a map without repeated keys, lookup and membership agree. -/
theorem mapFind_eq_some_iff {β : Type} (m : StdMap β) (h : (mapKeys m).Nodup) (f : String) (v : β) :
    mapFind m f = some v ↔ (f, v) ∈ m := by
  induction m with
  | nil => simp [mapFind]
  | cons e m ih =>
    obtain ⟨k', v'⟩ := e
    simp only [mapKeys, List.map_cons, List.nodup_cons] at h
    have ih' := ih h.2
    by_cases h1 : k' = f
    · subst h1
      have hn : (k', v) ∉ m := fun hm => h.1 (List.mem_map_of_mem Prod.fst hm)
      simp [mapFind, hn, eq_comm]
    · have h1' : ¬ f = k' := fun e => h1 e.symm
      simp [mapFind, h1, h1', ih']

/-- The slot of `f` in the handle cache after `CloseDb strFile`. -/
theorem mapFind_CloseDb (strFile : String) (w : World) (f : String) :
    mapFind (CDBEnv.CloseDb strFile w).bitdb.mapDb f
      = if f = strFile then some none else mapFind w.bitdb.mapDb f := by
  unfold CDBEnv.CloseDb
  split
  · simp [World.setDb, World.log, mapFind_mapSet]
  · rename_i h
    by_cases hf : f = strFile
    · subst hf; simp [h]
    · simp [hf]
  · simp [World.setDb, mapFind_mapSet]

/-- What `CloseDb` leaves alone, and the close call it logs for a cached handle. -/
theorem CloseDb_frame (strFile : String) (w : World) :
    (CDBEnv.CloseDb strFile w).fShutdown = w.fShutdown
    ∧ (CDBEnv.CloseDb strFile w).files = w.files
    ∧ (CDBEnv.CloseDb strFile w).bitdb.fDbEnvInit = w.bitdb.fDbEnvInit
    ∧ (CDBEnv.CloseDb strFile w).bitdb.fMockDb = w.bitdb.fMockDb
    ∧ (CDBEnv.CloseDb strFile w).bitdb.fDetachDB = w.bitdb.fDetachDB
    ∧ (CDBEnv.CloseDb strFile w).bitdb.mapFileUseCount = w.bitdb.mapFileUseCount
    ∧ (∀ c ∈ w.calls, c ∈ (CDBEnv.CloseDb strFile w).calls)
    ∧ (∀ d, mapFind w.bitdb.mapDb strFile = some (some d) →
        DbCall.db_close strFile ∈ (CDBEnv.CloseDb strFile w).calls) := by
  unfold CDBEnv.CloseDb
  split <;> simp_all [World.setDb, World.log]

/-- One round of the flush loop on an unused file other than the chain index. -/
theorem Flush_loop_zero (g : String) (l : List (String × Int)) (w : World)
    (hg : g ≠ "blkindex.dat") :
    ∃ w4, CDBEnv.Flush.loop ((g, 0) :: l) w = CDBEnv.Flush.loop l w4
      ∧ w4.fShutdown = w.fShutdown
      ∧ w4.bitdb.fMockDb = w.bitdb.fMockDb
      ∧ w4.bitdb.mapFileUseCount = mapErase w.bitdb.mapFileUseCount g
      ∧ w4.bitdb.mapDb = (CDBEnv.CloseDb g w).bitdb.mapDb
      ∧ (∀ c ∈ (CDBEnv.CloseDb g w).calls, c ∈ w4.calls) := by
  obtain ⟨c1, c2, c3, c4, c5, c6, c7, c8⟩ := CloseDb_frame g w
  simp only [CDBEnv.Flush.loop, if_true, IsChainFile, hg, ne_eq, not_false_eq_true]
  split_ifs <;> refine ⟨_, rfl, ?_⟩ <;> simp_all [World.log]

/-- The flush loop over entries without an unused chain index file: it returns, erases the
    entries with count zero, empties their cache slots and closes their handles. -/
theorem Flush_loop_spec (l : List (String × Int)) :
    ∀ w : World, ("blkindex.dat", (0 : Int)) ∉ l →
    ∃ w', CDBEnv.Flush.loop l w = (.ret (), w')
      ∧ w'.fShutdown = w.fShutdown
      ∧ w'.bitdb.fMockDb = w.bitdb.fMockDb
      ∧ (∀ f, mapFind w'.bitdb.mapFileUseCount f
          = if (f, (0 : Int)) ∈ l then none else mapFind w.bitdb.mapFileUseCount f)
      ∧ (∀ f, mapFind w'.bitdb.mapDb f
          = if (f, (0 : Int)) ∈ l then some none else mapFind w.bitdb.mapDb f)
      ∧ (∀ c ∈ w.calls, c ∈ w'.calls)
      ∧ (∀ f d, (f, (0 : Int)) ∈ l → mapFind w.bitdb.mapDb f = some (some d) →
          DbCall.db_close f ∈ w'.calls) := by
  induction l with
  | nil => intro w _; exact ⟨w, by simp [CDBEnv.Flush.loop]⟩
  | cons e l ih =>
    obtain ⟨g, n⟩ := e
    intro w hchain
    have hl : ("blkindex.dat", (0 : Int)) ∉ l := fun h => hchain (List.mem_cons_of_mem _ h)
    by_cases hn : n = 0
    · subst hn
      have hg : g ≠ "blkindex.dat" := fun h => hchain (by simp [h])
      obtain ⟨c1, c2, c3, c4, c5, c6, c7, c8⟩ := CloseDb_frame g w
      have hdb := mapFind_CloseDb g w
      obtain ⟨w4, k1, k2, k3, k4, k5, k6⟩ := Flush_loop_zero g l w hg
      obtain ⟨w', e1, e2, e3, e4, e5, e6, e7⟩ := ih w4 hl
      refine ⟨w', by rw [k1, e1], by rw [e2, k2], by rw [e3, k3], ?_, ?_, ?_, ?_⟩
      · intro f
        rw [e4 f, k4, mapFind_mapErase]
        by_cases hf : f = g
        · subst hf; simp
        · simp [hf]
      · intro f
        rw [e5 f, k5, hdb f]
        by_cases hf : f = g
        · subst hf; simp
        · simp [hf]
      · intro c hc
        exact e6 c (k6 c (c7 c hc))
      · intro f d hf hd
        by_cases hfg : f = g
        · subst hfg
          exact e6 _ (k6 _ (c8 d hd))
        · have hf' : (f, (0 : Int)) ∈ l := by
            rcases List.mem_cons.mp hf with h | h
            · exact absurd (congrArg Prod.fst h) hfg
            · exact h
          refine e7 f d hf' ?_
          rw [k5, hdb f]
          simp [hfg, hd]
    · obtain ⟨w', e1, e2, e3, e4, e5, e6, e7⟩ := ih w hl
      refine ⟨w', by simp [CDBEnv.Flush.loop, hn, e1], e2, e3, ?_, ?_, e6, ?_⟩
      · intro f
        rw [e4 f]
        have : (f, (0 : Int)) ∈ (g, n) :: l ↔ (f, (0 : Int)) ∈ l := by
          simp only [List.mem_cons, Prod.mk.injEq]
          constructor
          · rintro (⟨_, h⟩ | h)
            · exact absurd h.symm hn
            · exact h
          · exact Or.inr
        simp only [this]
      · intro f
        rw [e5 f]
        have : (f, (0 : Int)) ∈ (g, n) :: l ↔ (f, (0 : Int)) ∈ l := by
          simp only [List.mem_cons, Prod.mk.injEq]
          constructor
          · rintro (⟨_, h⟩ | h)
            · exact absurd h.symm hn
            · exact h
          · exact Or.inr
        simp only [this]
      · intro f d hf hd
        have hf' : (f, (0 : Int)) ∈ l := by
          rcases List.mem_cons.mp hf with h | h
          · exact absurd (congrArg Prod.snd h).symm hn
          · exact h
        exact e7 f d hf' hd

/-- `EnvShutdown` returns or throws, and touches neither the use counts nor the handle cache. -/
theorem EnvShutdown_frame (b : Backend) (w : World) :
    ((CDBEnv.EnvShutdown b w).1 = .ret () ∨
      (CDBEnv.EnvShutdown b w).1 = .throw "EnvShutdown database remove failure")
    ∧ (CDBEnv.EnvShutdown b w).2.bitdb.mapFileUseCount = w.bitdb.mapFileUseCount
    ∧ (CDBEnv.EnvShutdown b w).2.bitdb.mapDb = w.bitdb.mapDb
    ∧ (∀ c ∈ w.calls, c ∈ (CDBEnv.EnvShutdown b w).2.calls) := by
  by_cases h1 : w.bitdb.fDbEnvInit = true <;> by_cases h2 : w.bitdb.fMockDb = true <;>
    by_cases h3 : 0 < b.env_remove <;>
    simp [CDBEnv.EnvShutdown, World.log, h1, h2, h3] <;>
    exact fun c hc => Or.inl hc

/-- C4, as amended: for an initialized B-tree environment whose use-count table does not hold
    `blkindex.dat` with count zero, `CDBEnv::Flush` comes back (it returns, or throws out of the
    final `EnvShutdown`), and for every file: if its use count is zero, its use-count entry is
    erased, its cache slot is null and a cached handle was closed; otherwise (count not zero, or
    no entry) both its use-count entry and its cache slot are as before. -/
theorem Flush_use_count_gating (b : Backend) (fShutdown : Bool) (w : World)
    (hinit : w.bitdb.fDbEnvInit = true)
    (hmap : (mapKeys w.bitdb.mapFileUseCount).Nodup)
    (hchain : mapFind w.bitdb.mapFileUseCount "blkindex.dat" ≠ some 0) :
    ((CDBEnv.Flush b fShutdown w).1 = .ret () ∨
      (CDBEnv.Flush b fShutdown w).1 = .throw "EnvShutdown database remove failure")
    ∧ ∀ f : String,
      (mapFind w.bitdb.mapFileUseCount f = some 0 →
        mapFind (CDBEnv.Flush b fShutdown w).2.bitdb.mapFileUseCount f = none
        ∧ mapFind (CDBEnv.Flush b fShutdown w).2.bitdb.mapDb f = some none
        ∧ ∀ d, mapFind w.bitdb.mapDb f = some (some d) →
            DbCall.db_close f ∈ (CDBEnv.Flush b fShutdown w).2.calls)
      ∧ (mapFind w.bitdb.mapFileUseCount f ≠ some 0 →
        mapFind (CDBEnv.Flush b fShutdown w).2.bitdb.mapFileUseCount f
          = mapFind w.bitdb.mapFileUseCount f
        ∧ mapFind (CDBEnv.Flush b fShutdown w).2.bitdb.mapDb f = mapFind w.bitdb.mapDb f) := by
  have hnot : ("blkindex.dat", (0 : Int)) ∉ w.bitdb.mapFileUseCount :=
    fun h => hchain ((mapFind_eq_some_iff _ hmap _ _).mpr h)
  obtain ⟨w', e1, e2, e3, e4, e5, e6, e7⟩ := Flush_loop_spec w.bitdb.mapFileUseCount w hnot
  have hmem : ∀ f, (f, (0 : Int)) ∈ w.bitdb.mapFileUseCount ↔
      mapFind w.bitdb.mapFileUseCount f = some 0 :=
    fun f => (mapFind_eq_some_iff _ hmap f 0).symm
  obtain ⟨s1, s2, s3, s4⟩ := EnvShutdown_frame b (w'.log .log_archive)
  have hres : ((CDBEnv.Flush b fShutdown w).1 = .ret () ∨
      (CDBEnv.Flush b fShutdown w).1 = .throw "EnvShutdown database remove failure")
      ∧ (CDBEnv.Flush b fShutdown w).2.bitdb.mapFileUseCount = w'.bitdb.mapFileUseCount
      ∧ (CDBEnv.Flush b fShutdown w).2.bitdb.mapDb = w'.bitdb.mapDb
      ∧ (∀ c ∈ w'.calls, c ∈ (CDBEnv.Flush b fShutdown w).2.calls) := by
    unfold CDBEnv.Flush
    simp only [hinit, e1, Bool.not_true, Bool.false_eq_true, if_false, CDBEnv.Close]
    split_ifs
    · refine ⟨s1, s2, s3, fun c hc => s4 c ?_⟩
      simp [World.log, hc]
    · simp
    · simp
  obtain ⟨r1, r2, r3, r4⟩ := hres
  refine ⟨r1, fun f => ⟨fun h0 => ?_, fun h0 => ?_⟩⟩
  · have hm := (hmem f).mpr h0
    refine ⟨?_, ?_, fun d hd => r4 _ (e7 f d hm hd)⟩
    · rw [r2, e4 f]; simp [hm]
    · rw [r3, e5 f]; simp [hm]
  · have hm : (f, (0 : Int)) ∉ w.bitdb.mapFileUseCount := fun h => h0 ((hmem f).mp h)
    constructor
    · rw [r2, e4 f]; simp [hm]
    · rw [r3, e5 f]; simp [hm]

/-- Witness of `Flush_use_count_gating`: `addr.dat` (count 0) is closed and erased,
    `wallet.dat` (count 1) keeps its handle and its count. -/
theorem Flush_use_count_gating_witness :
    flushWorld.bitdb.fDbEnvInit = true
    ∧ mapFind flushWorld.bitdb.mapFileUseCount "addr.dat" = some 0
    ∧ mapFind flushWorld.bitdb.mapFileUseCount "wallet.dat" = some 1
    ∧ mapFind (CDBEnv.Flush {} false flushWorld).2.bitdb.mapFileUseCount "addr.dat" = none
    ∧ mapFind (CDBEnv.Flush {} false flushWorld).2.bitdb.mapDb "addr.dat" = some none
    ∧ mapFind (CDBEnv.Flush {} false flushWorld).2.bitdb.mapFileUseCount "wallet.dat" = some 1
    ∧ mapFind (CDBEnv.Flush {} false flushWorld).2.bitdb.mapDb "wallet.dat"
        = mapFind flushWorld.bitdb.mapDb "wallet.dat" :=
  have h := Flush_use_count_gating {} false flushWorld (by decide) (by decide) (by decide)
  ⟨by decide, by decide, by decide, ((h.2 "addr.dat").1 (by decide)).1,
    ((h.2 "addr.dat").1 (by decide)).2.1,
    (((h.2 "wallet.dat").2 (by decide)).1).trans (by decide),
    ((h.2 "wallet.dat").2 (by decide)).2⟩

/-- C4 fails as stated: with `blkindex.dat` tracked and unused, `Flush` dies on the assertion of
    `dbparam::IsChainFile`, and the unused `wallet.dat` behind it keeps its use-count entry. -/
theorem Flush_chain_file_counterexample :
    chainWorld.bitdb.fDbEnvInit = true
    ∧ mapFind chainWorld.bitdb.mapFileUseCount "wallet.dat" = some 0
    ∧ (CDBEnv.Flush {} false chainWorld).1 = .abort
    ∧ mapFind (CDBEnv.Flush {} false chainWorld).2.bitdb.mapFileUseCount "wallet.dat" = some 0 := by
  decide

/-! ## `CDBEnv::Create` and `CDB::Close` -/

/-- C5, the failing path: on an initialized environment with no cached handle for `wallet.dat`,
    a failed `new(std::nothrow) Db` makes `CDBEnv::Create` throw with the use count of the file
    raised from 0 to 1, while the sibling path (every open attempt fails) throws with the count
    back at 0. -/
theorem Create_alloc_failure_keeps_increment :
    freshWorld.bitdb.GetFileCount "wallet.dat" = 0
    ∧ (CDBEnv.Create { db_alloc := false } 10 "wallet.dat" DB_THREAD freshWorld).1
        = .throw "CDB() : failed to allocate memory"
    ∧ (CDBEnv.Create { db_alloc := false } 10 "wallet.dat" DB_THREAD freshWorld).2.bitdb.GetFileCount
        "wallet.dat" = 1
    ∧ (CDBEnv.Create { db_open := fun _ => 2 } 10 "wallet.dat" DB_THREAD freshWorld).1
        = .throw "CDB() : can't open database file"
    ∧ (CDBEnv.Create { db_open := fun _ => 2 } 10 "wallet.dat" DB_THREAD freshWorld).2.bitdb.GetFileCount
        "wallet.dat" = 0 := by
  decide

/-- C6: the first `Close` of an open `CDB` that holds an acquisition of its file (use count at
    least 1) returns, aborts the Active transaction if there is one, clears `activeTxn` and
    `pdb`, lowers the use count of the file by exactly one and leaves every other count alone;
    any later `Close` of the same object changes nothing at all. -/
theorem Close_releases_once (b b' : Backend) (db : CDB) (w : World)
    (hopen : db.pdb ≠ none) (hheld : 1 ≤ w.bitdb.GetFileCount db.strFile) :
    (CDB.Close b db w).1 = .ret ()
    ∧ (∀ txn, db.activeTxn = some txn →
        DbCall.txn_abort txn b.txn_abort ∈ (CDB.Close b db w).2.2.calls)
    ∧ (CDB.Close b db w).2.1.activeTxn = none
    ∧ (CDB.Close b db w).2.1.pdb = none
    ∧ (CDB.Close b db w).2.2.bitdb.GetFileCount db.strFile = w.bitdb.GetFileCount db.strFile - 1
    ∧ (∀ f, f ≠ db.strFile → mapFind (CDB.Close b db w).2.2.bitdb.mapFileUseCount f
        = mapFind w.bitdb.mapFileUseCount f)
    ∧ CDB.Close b' (CDB.Close b db w).2.1 (CDB.Close b db w).2.2
        = (.ret (), (CDB.Close b db w).2.1, (CDB.Close b db w).2.2) := by
  obtain ⟨p, hp⟩ := Option.ne_none_iff_exists'.mp hopen
  have hn : ¬ (mapFind w.bitdb.mapFileUseCount db.strFile).getD 0 ≤ 0 := by
    unfold CDBEnv.GetFileCount at hheld
    omega
  cases ht : db.activeTxn <;> cases hr : db.fReadOnly <;>
    simp [CDB.Close, hp, ht, hr, CDBEnv.DecUseCount, CDBEnv.TxnCheckPoint, World.log, hn,
      CDBEnv.GetFileCount, mapFind_mapSet] <;>
    exact fun f hf h => absurd h hf

/-- Witness of `Close_releases_once`: the sample handle on `wallet.dat`, held once. -/
theorem Close_releases_once_witness :
    sampleWorld.bitdb.GetFileCount "wallet.dat" = 1
    ∧ (CDB.Close {} sampleCDB sampleWorld).2.2.bitdb.GetFileCount "wallet.dat" = 1 - 1
    ∧ CDB.Close {} (CDB.Close {} sampleCDB sampleWorld).2.1 (CDB.Close {} sampleCDB sampleWorld).2.2
        = (.ret (), (CDB.Close {} sampleCDB sampleWorld).2.1,
            (CDB.Close {} sampleCDB sampleWorld).2.2) :=
  have h := Close_releases_once {} {} sampleCDB sampleWorld (by decide) (by decide)
  ⟨by decide, h.2.2.2.2.1, h.2.2.2.2.2.2⟩

/-! ## `CDB::Rewrite` -/

/-- A file and its replacement have different names. -/
theorem rewrite_name_ne (strFile : String) : strFile ++ ".rewrite" ≠ strFile := by
  intro h
  have := congrArg String.length h
  simp [String.length_append] at this
  revert this
  decide

/-- The retry loop of `Create` only appends `db_open` calls to the log. -/
theorem Create_retry_frame (b : Backend) (retry_counter : Int) (file : Option String) (nFlags : Nat) :
    ∀ (fuel cc : Nat) (w : World),
    ∃ l, (CDBEnv.Create.retry b retry_counter file nFlags cc fuel w).2
        = { w with calls := w.calls ++ l }
      ∧ ∀ c ∈ l, ∃ ret, c = DbCall.db_open file nFlags ret := by
  intro fuel
  induction fuel with
  | zero => intro cc w; exact ⟨[], by simp [CDBEnv.Create.retry]⟩
  | succ n ih =>
    intro cc w
    unfold CDBEnv.Create.retry
    by_cases h1 : (cc : Int) < retry_counter
    · by_cases h2 : b.db_open cc = 0
      · refine ⟨[.db_open file nFlags (b.db_open cc)], ?_, ?_⟩
        · simp [h1, h2, World.log]
        · simp
      · by_cases h3 : (cc : Int) < retry_counter - 1
        · obtain ⟨l, e1, e2⟩ := ih (cc + 1) (w.log (.db_open file nFlags (b.db_open cc)))
          refine ⟨.db_open file nFlags (b.db_open cc) :: l, ?_, ?_⟩
          · simp only [h1, h2, h3, if_true, ne_eq, not_false_eq_true, e1]
            simp [World.log]
          · intro c hc
            rcases List.mem_cons.mp hc with h | h
            · exact ⟨_, h⟩
            · exact e2 c h
        · refine ⟨[.db_open file nFlags (b.db_open cc)], ?_, ?_⟩
          · simp [h1, h2, h3, World.log]
          · simp
    · exact ⟨[], by simp [h1]⟩

/-- `CDBEnv::Open` touches only `fDbEnvInit`, `pathEnv` and the call log. -/
theorem Open_frame (b : Backend) (p : String) (w : World) :
    ∃ l, (CDBEnv.Open b p w).2.calls = w.calls ++ l
      ∧ (∀ c ∈ l, ∃ ret, c = DbCall.env_open ret)
      ∧ (CDBEnv.Open b p w).2.files = w.files
      ∧ (CDBEnv.Open b p w).2.fShutdown = w.fShutdown
      ∧ (CDBEnv.Open b p w).2.dblogsize = w.dblogsize
      ∧ (CDBEnv.Open b p w).2.bitdb.mapFileUseCount = w.bitdb.mapFileUseCount
      ∧ (CDBEnv.Open b p w).2.bitdb.mapDb = w.bitdb.mapDb
      ∧ (CDBEnv.Open b p w).2.bitdb.fMockDb = w.bitdb.fMockDb := by
  unfold CDBEnv.Open
  by_cases h1 : w.bitdb.fDbEnvInit = true
  · exact ⟨[], by simp [h1]⟩
  · by_cases h2 : w.fShutdown = true
    · exact ⟨[], by simp [h1, h2]⟩
    · by_cases h3 : b.dir_create = true
      · by_cases h4 : b.env_open = 0
        · exact ⟨[.env_open b.env_open], by simp [h1, h2, h3, h4, World.log]⟩
        · exact ⟨[.env_open b.env_open], by simp [h1, h2, h3, h4, World.log]⟩
      · exact ⟨[], by simp [h1, h2, h3]⟩

/-- `CDBEnv::Create` outside shutdown: it returns a handle with the use count of the file
    raised by one, or throws, or dies; it touches no file, and the calls it makes are on the
    environment or on `strFile`. -/
theorem Create_spec (b : Backend) (retry_counter : Int) (strFile : String) (nFlags : Nat)
    (w : World) (hs : w.fShutdown = false) :
    ∃ l, (CDBEnv.Create b retry_counter strFile nFlags w).2.calls = w.calls ++ l
      ∧ (∀ P : DbCall → Prop, (∀ ret, P (.env_open ret)) → (∀ ok, P (.db_new strFile ok)) →
          (∀ fl ret, P (.db_open none fl ret)) → (∀ fl ret, P (.db_open (some strFile) fl ret)) →
          ∀ c ∈ l, P c)
      ∧ (CDBEnv.Create b retry_counter strFile nFlags w).2.files = w.files
      ∧ (CDBEnv.Create b retry_counter strFile nFlags w).2.fShutdown = false
      ∧ (CDBEnv.Create b retry_counter strFile nFlags w).2.dblogsize = w.dblogsize
      ∧ ((∃ pdb, (CDBEnv.Create b retry_counter strFile nFlags w).1 = .ret (some pdb)
            ∧ (CDBEnv.Create b retry_counter strFile nFlags w).2.bitdb.GetFileCount strFile
                = w.bitdb.GetFileCount strFile + 1)
          ∨ (∃ e, (CDBEnv.Create b retry_counter strFile nFlags w).1 = .throw e)
          ∨ (CDBEnv.Create b retry_counter strFile nFlags w).1 = .abort) := by
  obtain ⟨l0, o1, o2, o3, o4, o5, o6, o7, o8⟩ := Open_frame b w.dataDir w
  unfold CDBEnv.Create
  generalize hop : CDBEnv.Open b w.dataDir w = op at o1 o3 o4 o5 o6 o7 o8
  obtain ⟨ok, w1⟩ := op
  simp only at o1 o3 o4 o5 o6 o7 o8
  have hl0 : ∀ P : DbCall → Prop, (∀ ret, P (.env_open ret)) → ∀ c ∈ l0, P c := by
    intro P h1 c hc
    obtain ⟨ret, rfl⟩ := o2 c hc
    exact h1 ret
  cases ok with
  | false =>
    refine ⟨l0, ?_⟩
    simp only [o4, hs, Bool.false_eq_true, if_false, o1, o3, o5, true_and]
    exact ⟨fun P h1 _ _ _ => hl0 P h1, Or.inr (Or.inl ⟨_, rfl⟩)⟩
  | true =>
    simp only
    have hcount : (mapFind (mapSet w1.bitdb.mapFileUseCount strFile
        ((mapFind w1.bitdb.mapFileUseCount strFile).getD 0 + 1)) strFile).getD 0
        = (mapFind w.bitdb.mapFileUseCount strFile).getD 0 + 1 := by
      simp [mapFind_mapSet, o6]
    by_cases hcached : ∃ pdb, mapFind w1.bitdb.mapDb strFile = some (some pdb)
    · obtain ⟨pdb, hdb⟩ := hcached
      refine ⟨l0, ?_⟩
      simp only [CDBEnv.getDb, CDBEnv.IncUseCount, hdb, o1, o3, o4, o5, hs, CDBEnv.GetFileCount,
        hcount, true_and]
      exact ⟨fun P h1 _ _ _ => hl0 P h1, Or.inl ⟨_, rfl, trivial⟩⟩
    · have hnone : (CDBEnv.getDb (w1.bitdb.IncUseCount strFile) strFile).1 = none := by
        unfold CDBEnv.getDb CDBEnv.IncUseCount
        simp only
        cases hdb : mapFind w1.bitdb.mapDb strFile with
        | none => rfl
        | some slot =>
          cases slot with
          | none => rfl
          | some pdb => exact absurd ⟨pdb, hdb⟩ hcached
      have hcnt2 : ((CDBEnv.getDb (w1.bitdb.IncUseCount strFile) strFile).2).mapFileUseCount
          = mapSet w1.bitdb.mapFileUseCount strFile
              ((mapFind w1.bitdb.mapFileUseCount strFile).getD 0 + 1) := by
        unfold CDBEnv.getDb CDBEnv.IncUseCount
        simp only
        split <;> rfl
      simp only [hnone]
      by_cases ha : b.db_alloc = true
      · simp only [ha, Bool.not_true, Bool.false_eq_true, if_false]
        generalize hw4 : World.setDb _ strFile (some _) = w4
        have w4calls : w4.calls = w.calls ++ l0 ++ [.db_new strFile true] := by
          rw [← hw4]; simp [World.setDb, World.log, o1]
        have w4files : w4.files = w.files := by rw [← hw4]; simp [World.setDb, World.log, o3]
        have w4shut : w4.fShutdown = false := by rw [← hw4]; simp [World.setDb, World.log, o4, hs]
        have w4log : w4.dblogsize = w.dblogsize := by rw [← hw4]; simp [World.setDb, World.log, o5]
        have w4cnt : w4.bitdb.mapFileUseCount = mapSet w1.bitdb.mapFileUseCount strFile
              ((mapFind w1.bitdb.mapFileUseCount strFile).getD 0 + 1) := by
          rw [← hw4]; simp [World.setDb, World.log, hcnt2]
        obtain ⟨lr, r1, r2⟩ := Create_retry_frame b retry_counter
          (if w4.bitdb.fMockDb = true then none else some strFile) nFlags retry_counter.toNat 0 w4
        generalize hrt : CDBEnv.Create.retry b retry_counter
          (if w4.bitdb.fMockDb = true then none else some strFile) nFlags 0 retry_counter.toNat w4
            = rt at r1
        obtain ⟨res, w5⟩ := rt
        simp only at r1
        have hP : ∀ P : DbCall → Prop, (∀ ret, P (.env_open ret)) → (∀ ok, P (.db_new strFile ok)) →
            (∀ fl ret, P (.db_open none fl ret)) → (∀ fl ret, P (.db_open (some strFile) fl ret)) →
            ∀ c ∈ l0 ++ [.db_new strFile true] ++ lr, P c := by
          intro P h1 h2 h3 h4 c hc
          simp only [List.mem_append, List.mem_singleton] at hc
          rcases hc with (hc | hc) | hc
          · exact hl0 P h1 c hc
          · rw [hc]; exact h2 _
          · obtain ⟨ret, rfl⟩ := r2 c hc
            by_cases hm : w4.bitdb.fMockDb = true
            · simp only [hm, if_true]; exact h3 _ _
            · simp only [hm, if_false]; exact h4 _ _
        refine ⟨l0 ++ [.db_new strFile true] ++ lr, ?_⟩
        cases res with
        | none =>
          simp only [r1, w4calls, w4files, w4shut, w4log, List.append_assoc, true_and]
          refine ⟨by simpa [List.append_assoc] using hP, Or.inl ⟨_, rfl, ?_⟩⟩
          simp [CDBEnv.GetFileCount, w4cnt, hcount]
        | some ret =>
          simp only
          have hw6 : ((w5.setDb strFile none).calls = w.calls ++ (l0 ++ [.db_new strFile true] ++ lr))
              ∧ (w5.setDb strFile none).files = w.files
              ∧ (w5.setDb strFile none).fShutdown = false
              ∧ (w5.setDb strFile none).dblogsize = w.dblogsize := by
            simp [World.setDb, r1, w4calls, w4files, w4shut, w4log]
          obtain ⟨q1, q2, q3, q4⟩ := hw6
          cases hd : (w5.setDb strFile none).bitdb.DecUseCount strFile with
          | ret env => exact ⟨q1, hP, q2, q3, q4, Or.inr (Or.inl ⟨_, rfl⟩)⟩
          | throw e => exact ⟨q1, hP, q2, q3, q4, Or.inr (Or.inr rfl)⟩
          | abort => exact ⟨q1, hP, q2, q3, q4, Or.inr (Or.inr rfl)⟩
          | crash => exact ⟨q1, hP, q2, q3, q4, Or.inr (Or.inr rfl)⟩
      · refine ⟨l0 ++ [.db_new strFile false], ?_⟩
        simp only [ha, Bool.not_false, if_true]
        simp only [World.log, o1, o3, o4, o5, hs, List.append_assoc, true_and]
        refine ⟨?_, Or.inr (Or.inl ⟨_, rfl⟩)⟩
        intro P h1 h2 _ _ c hc
        rcases List.mem_append.mp hc with hc | hc
        · exact hl0 P h1 c hc
        · rw [List.mem_singleton.mp hc]; exact h2 _

/-- `CDB db(strFile, "r")`: the constructor is `Create(strFile, DB_THREAD)` and nothing else. -/
theorem construct_r (b : Backend) (retry_counter : Int) (CLIENT_VERSION : Nat) (strFile : String)
    (w : World) :
    CDB.construct b retry_counter CLIENT_VERSION strFile "r" w
      = match CDBEnv.Create b retry_counter strFile DB_THREAD w with
        | (.ret pdb, w1) =>
          (.ret { pdb := pdb, strFile := strFile, activeTxn := none, fReadOnly := true }, w1)
        | (.throw e, w1) => (.throw e, w1)
        | (.abort, w1) => (.abort, w1)
        | (.crash, w1) => (.crash, w1) := by
  unfold CDB.construct
  have h1 : "r".toList.contains '+' = false := by decide
  have h2 : "r".toList.contains 'w' = false := by decide
  have h3 : "r".toList.contains 'c' = false := by decide
  simp only [h1, h2, h3, Bool.not_false, Bool.and_self, Bool.false_eq_true, if_false,
    Bool.false_and]

/-- The loop of `Rewrite` when the cursor read fails: it ends, successfully only on
    `DB_NOTFOUND`. -/
theorem Rewrite_loop_read_error (b : Backend) (ver : Nat) (pszSkip : Option Bytes) (copy : Db)
    (n i pos : Nat) (f : String) (w : World) (h : b.cursor_get pos ≠ 0) :
    CDB.Rewrite.loop b ver pszSkip copy (n + 1) i (.cdb ⟨f, pos⟩) w
      = some (.ret (decide (b.cursor_get pos = DB_NOTFOUND)),
          w.log (.cursor_get f (b.cursor_get pos))) := by
  unfold CDB.Rewrite.loop
  have hnf : DB_NOTFOUND ≠ 0 := by decide
  by_cases h2 : b.cursor_get pos = DB_NOTFOUND
  · simp [IDB.ReadAtCursor, IDB.ReadAtCursor.cdb, h2, hnf]
  · simp [IDB.ReadAtCursor, IDB.ReadAtCursor.cdb, h, h2]

/-- The loop of `Rewrite` past the last record: it ends successfully. -/
theorem Rewrite_loop_end (b : Backend) (ver : Nat) (pszSkip : Option Bytes) (copy : Db)
    (n i pos : Nat) (f : String) (w : World) (h : b.cursor_get pos = 0)
    (hg : (w.records f)[pos]? = none) :
    CDB.Rewrite.loop b ver pszSkip copy (n + 1) i (.cdb ⟨f, pos⟩) w
      = some (.ret true, w.log (.cursor_get f DB_NOTFOUND)) := by
  unfold CDB.Rewrite.loop
  simp [IDB.ReadAtCursor, IDB.ReadAtCursor.cdb, h, hg]

/-- The loop of `Rewrite` on a record that passes the skip test: nothing is written. -/
theorem Rewrite_loop_skip (b : Backend) (ver : Nat) (pszSkip : Option Bytes) (copy : Db)
    (n i pos : Nat) (f : String) (w : World) (k v : Bytes) (h : b.cursor_get pos = 0)
    (hg : (w.records f)[pos]? = some (k, v)) (hs : CDB.Rewrite.skip pszSkip k = true) :
    CDB.Rewrite.loop b ver pszSkip copy (n + 1) i (.cdb ⟨f, pos⟩) w
      = CDB.Rewrite.loop b ver pszSkip copy n (i + 1) (.cdb ⟨f, pos + 1⟩)
          (w.log (.cursor_get f 0)) := by
  conv_lhs => unfold CDB.Rewrite.loop
  have hnf : (0 : Int) ≠ DB_NOTFOUND := by decide
  simp [IDB.ReadAtCursor, IDB.ReadAtCursor.cdb, h, hg, hs, hnf]

/-- The loop of `Rewrite` on a record that is copied. -/
theorem Rewrite_loop_put (b : Backend) (ver : Nat) (pszSkip : Option Bytes) (copy : Db)
    (n i pos : Nat) (f : String) (w : World) (k v : Bytes) (h : b.cursor_get pos = 0)
    (hg : (w.records f)[pos]? = some (k, v)) (hs : CDB.Rewrite.skip pszSkip k = false) :
    CDB.Rewrite.loop b ver pszSkip copy (n + 1) i (.cdb ⟨f, pos⟩) w
      = if (Db.put_NOOVERWRITE (b.db_put i) copy k
              (if CDB.Rewrite.isVersion k then serializeInt ver else v)
              (w.log (.cursor_get f 0))).1 > 0
        then some (.ret false, (Db.put_NOOVERWRITE (b.db_put i) copy k
              (if CDB.Rewrite.isVersion k then serializeInt ver else v)
              (w.log (.cursor_get f 0))).2)
        else CDB.Rewrite.loop b ver pszSkip copy n (i + 1) (.cdb ⟨f, pos + 1⟩)
            (Db.put_NOOVERWRITE (b.db_put i) copy k
              (if CDB.Rewrite.isVersion k then serializeInt ver else v)
              (w.log (.cursor_get f 0))).2 := by
  conv_lhs => unfold CDB.Rewrite.loop
  have hnf : (0 : Int) ≠ DB_NOTFOUND := by decide
  simp [IDB.ReadAtCursor, IDB.ReadAtCursor.cdb, h, hg, hs, hnf]

/-- The log does not change what the files hold. -/
theorem records_log (w : World) (c : DbCall) (f : String) : (w.log c).records f = w.records f := rfl

/-- `put` with `DB_NOOVERWRITE` on the replacement: what it leaves alone and what it logs. -/
theorem put_frame (inj : Int) (copy : Db) (k v : Bytes) (w : World) :
    (Db.put_NOOVERWRITE inj copy k v w).2.bitdb = w.bitdb
    ∧ (Db.put_NOOVERWRITE inj copy k v w).2.fShutdown = w.fShutdown
    ∧ (Db.put_NOOVERWRITE inj copy k v w).2.dblogsize = w.dblogsize
    ∧ (∀ g, g ≠ copy.strFile →
        mapFind (Db.put_NOOVERWRITE inj copy k v w).2.files g = mapFind w.files g)
    ∧ (Db.put_NOOVERWRITE inj copy k v w).2.calls
        = w.calls ++ [.db_put copy.strFile k v (Db.put_NOOVERWRITE inj copy k v w).1]
    ∧ (mapFind w.files copy.strFile ≠ none →
        mapFind (Db.put_NOOVERWRITE inj copy k v w).2.files copy.strFile ≠ none) := by
  unfold Db.put_NOOVERWRITE
  split_ifs <;> simp [World.log, mapFind_mapSet]
  intro g hg; simp [hg]

/-- The copy loop of `Rewrite` ends; it touches no file but the replacement, and it ends with
    `fSuccess` exactly when none of its reads and puts failed in the way the code checks. -/
theorem Rewrite_loop_frame (b : Backend) (ver : Nat) (pszSkip : Option Bytes) (copy : Db)
    (f : String) (hne : f ≠ copy.strFile) :
    ∀ (n pos : Nat) (w : World), (w.records f).length ≤ pos + n →
    ∃ r w' l, CDB.Rewrite.loop b ver pszSkip copy (n + 1) pos (.cdb ⟨f, pos⟩) w = some (.ret r, w')
      ∧ w'.bitdb = w.bitdb ∧ w'.fShutdown = w.fShutdown ∧ w'.dblogsize = w.dblogsize
      ∧ (∀ g, g ≠ copy.strFile → mapFind w'.files g = mapFind w.files g)
      ∧ w'.calls = w.calls ++ l
      ∧ (r = true → ∀ c ∈ l, DbCall.failedStep copy.strFile c = false)
      ∧ (r = false → ∃ c ∈ l, DbCall.failedStep copy.strFile c = true)
      ∧ (mapFind w.files copy.strFile ≠ none → mapFind w'.files copy.strFile ≠ none) := by
  have hnf : (decide ((DB_NOTFOUND : Int) ≠ 0) && decide ((DB_NOTFOUND : Int) ≠ DB_NOTFOUND)) = false := by
    decide
  intro n
  induction n with
  | zero =>
    intro pos w hlen
    by_cases h0 : b.cursor_get pos = 0
    · have hg : (w.records f)[pos]? = none := List.getElem?_eq_none (by omega)
      rw [Rewrite_loop_end b ver pszSkip copy 0 pos pos f w h0 hg]
      refine ⟨true, _, [.cursor_get f DB_NOTFOUND], rfl, rfl, rfl, rfl, fun g _ => rfl, rfl, ?_, ?_,
        fun h => h⟩
      · intro _ c hc
        rw [List.mem_singleton.mp hc]
        exact hnf
      · intro h; exact absurd h (by decide)
    · rw [Rewrite_loop_read_error b ver pszSkip copy 0 pos pos f w h0]
      refine ⟨_, _, [.cursor_get f (b.cursor_get pos)], rfl, rfl, rfl, rfl, fun g _ => rfl, rfl, ?_, ?_,
        fun h => h⟩
      · intro hr c hc
        rw [List.mem_singleton.mp hc]
        simp only [decide_eq_true_eq] at hr
        simp [DbCall.failedStep, hr]
      · intro hr
        simp only [decide_eq_false_iff_not] at hr
        exact ⟨_, List.mem_singleton.mpr rfl, by simp [DbCall.failedStep, h0, hr]⟩
  | succ n ih =>
    intro pos w hlen
    by_cases h0 : b.cursor_get pos = 0
    · cases hg : (w.records f)[pos]? with
      | none =>
        rw [Rewrite_loop_end b ver pszSkip copy (n + 1) pos pos f w h0 hg]
        refine ⟨true, _, [.cursor_get f DB_NOTFOUND], rfl, rfl, rfl, rfl, fun g _ => rfl, rfl, ?_, ?_,
          fun h => h⟩
        · intro _ c hc
          rw [List.mem_singleton.mp hc]
          exact hnf
        · intro h; exact absurd h (by decide)
      | some kv =>
        obtain ⟨k, v⟩ := kv
        have hc0 : DbCall.failedStep copy.strFile (.cursor_get f 0) = false := by
          simp [DbCall.failedStep]
        by_cases hs : CDB.Rewrite.skip pszSkip k = true
        · rw [Rewrite_loop_skip b ver pszSkip copy (n + 1) pos pos f w k v h0 hg hs]
          obtain ⟨r, w', l, e1, e2, e3, e4, e5, e6, e7, e8, e9⟩ :=
            ih (pos + 1) (w.log (.cursor_get f 0)) (by rw [records_log]; omega)
          refine ⟨r, w', .cursor_get f 0 :: l, e1, e2, e3, e4, e5, ?_, ?_, ?_, e9⟩
          · rw [e6]; simp [World.log]
          · intro hr c hc
            rcases List.mem_cons.mp hc with h | h
            · rw [h]; exact hc0
            · exact e7 hr c h
          · intro hr
            obtain ⟨c, hc, hf⟩ := e8 hr
            exact ⟨c, List.mem_cons_of_mem _ hc, hf⟩
        · have hs' : CDB.Rewrite.skip pszSkip k = false := by simpa using hs
          rw [Rewrite_loop_put b ver pszSkip copy (n + 1) pos pos f w k v h0 hg hs']
          obtain ⟨p1, p2, p3, p4, p5, p6⟩ := put_frame (b.db_put pos) copy k
            (if CDB.Rewrite.isVersion k then serializeInt ver else v) (w.log (.cursor_get f 0))
          generalize Db.put_NOOVERWRITE (b.db_put pos) copy k
            (if CDB.Rewrite.isVersion k then serializeInt ver else v) (w.log (.cursor_get f 0)) = pr
            at p1 p2 p3 p4 p5 p6
          obtain ⟨ret2, w2⟩ := pr
          simp only at p1 p2 p3 p4 p5 p6
          simp only
          by_cases hret : ret2 > 0
          · simp only [hret, if_true]
            refine ⟨false, w2, [.cursor_get f 0, .db_put copy.strFile k
              (if CDB.Rewrite.isVersion k then serializeInt ver else v) ret2], rfl, p1, p2, p3,
              ?_, ?_, ?_, ?_, p6⟩
            · intro g hg'; rw [p4 g hg']; rfl
            · rw [p5]; simp [World.log]
            · intro h; exact absurd h (by decide)
            · intro _
              exact ⟨.db_put copy.strFile k
                (if CDB.Rewrite.isVersion k then serializeInt ver else v) ret2, by simp,
                by simp [DbCall.failedStep, hret]⟩
          · simp only [hret, if_false]
            have hrec : w2.records f = w.records f := by
              unfold World.records
              rw [p4 f hne]; rfl
            obtain ⟨r, w', l, e1, e2, e3, e4, e5, e6, e7, e8, e9⟩ :=
              ih (pos + 1) w2 (by rw [hrec]; omega)
            refine ⟨r, w', .cursor_get f 0 :: .db_put copy.strFile k
              (if CDB.Rewrite.isVersion k then serializeInt ver else v) ret2 :: l, e1, ?_, ?_, ?_,
              ?_, ?_, ?_, ?_, fun h => e9 (p6 h)⟩
            · rw [e2, p1]; rfl
            · rw [e3, p2]; rfl
            · rw [e4, p3]; rfl
            · intro g hg'; rw [e5 g hg', p4 g hg']; rfl
            · rw [e6, p5]; simp [World.log]
            · intro hr c hc
              rcases List.mem_cons.mp hc with h | h
              · rw [h]; exact hc0
              · rcases List.mem_cons.mp h with h | h
                · rw [h]; simp [DbCall.failedStep]; omega
                · exact e7 hr c h
            · intro hr
              obtain ⟨c, hc, hf⟩ := e8 hr
              exact ⟨c, List.mem_cons_of_mem _ (List.mem_cons_of_mem _ hc), hf⟩
    · rw [Rewrite_loop_read_error b ver pszSkip copy (n + 1) pos pos f w h0]
      refine ⟨_, _, [.cursor_get f (b.cursor_get pos)], rfl, rfl, rfl, rfl, fun g _ => rfl, rfl, ?_, ?_,
        fun h => h⟩
      · intro hr c hc
        rw [List.mem_singleton.mp hc]
        simp only [decide_eq_true_eq] at hr
        simp [DbCall.failedStep, hr]
      · intro hr
        simp only [decide_eq_false_iff_not] at hr
        exact ⟨_, List.mem_singleton.mpr rfl, by simp [DbCall.failedStep, h0, hr]⟩

/-- Membership in a file after inserting a record. -/
theorem mem_insertRecord (f : DbFile) (k v : Bytes) (r : Record) :
    r ∈ insertRecord f k v ↔ r = (k, v) ∨ r ∈ f := by
  induction f with
  | nil => simp [insertRecord]
  | cons e f ih =>
    obtain ⟨k', v'⟩ := e
    unfold insertRecord
    split_ifs
    · simp
    · simp [ih]; tauto

/-- A put of a new key without injected error stores the record in the replacement. -/
theorem put_store (copy : Db) (k v : Bytes) (w : World) (f : String) (hne : f ≠ copy.strFile)
    (hk : k ∉ (w.records copy.strFile).map Prod.fst) :
    (Db.put_NOOVERWRITE 0 copy k v w).1 = 0
    ∧ (Db.put_NOOVERWRITE 0 copy k v w).2.records copy.strFile
        = insertRecord (w.records copy.strFile) k v
    ∧ (Db.put_NOOVERWRITE 0 copy k v w).2.records f = w.records f := by
  unfold Db.put_NOOVERWRITE
  simp only [ne_eq, not_true_eq_false, if_false, hk]
  refine ⟨trivial, ?_, ?_⟩
  · simp [World.records, mapFind_mapSet]
  · simp [World.records, mapFind_mapSet, hne]

/-- The content of the replacement after a copy loop that ended with `fSuccess`, when no read
    reports `DB_NOTFOUND` before the end and no put fails with a negative code: the records it
    had, and each remaining record of the source that the skip test lets pass, the value
    replaced by the version where the version test matches. -/
theorem Rewrite_loop_records (b : Backend) (ver : Nat) (pszSkip : Option Bytes) (copy : Db)
    (f : String) (hne : f ≠ copy.strFile) (hget : ∀ i, b.cursor_get i ≠ DB_NOTFOUND)
    (hput : ∀ i, 0 ≤ b.db_put i) :
    ∀ (m pos : Nat) (w w' : World),
    CDB.Rewrite.loop b ver pszSkip copy m pos (.cdb ⟨f, pos⟩) w = some (.ret true, w') →
    (((w.records f).drop pos).map Prod.fst).Nodup →
    (∀ k ∈ (w.records copy.strFile).map Prod.fst, k ∉ ((w.records f).drop pos).map Prod.fst) →
    ∀ k v', (k, v') ∈ w'.records copy.strFile ↔
      ((k, v') ∈ w.records copy.strFile ∨
        ∃ v, (k, v) ∈ (w.records f).drop pos ∧ CDB.Rewrite.skip pszSkip k = false
          ∧ v' = if CDB.Rewrite.isVersion k then serializeInt ver else v) := by
  intro m
  induction m with
  | zero => intro pos w w' H; simp [CDB.Rewrite.loop] at H
  | succ n ih =>
    intro pos w w' H hnd hfresh k v'
    by_cases h0 : b.cursor_get pos = 0
    · cases hg : (w.records f)[pos]? with
      | none =>
        rw [Rewrite_loop_end b ver pszSkip copy n pos pos f w h0 hg] at H
        simp only [Option.some.injEq, Prod.mk.injEq, true_and] at H
        have hd : (w.records f).drop pos = [] :=
          List.drop_eq_nil_of_le (List.getElem?_eq_none_iff.mp hg)
        rw [← H, records_log, hd]
        simp
      | some kv =>
        obtain ⟨k0, v0⟩ := kv
        obtain ⟨hlt, hget0⟩ := List.getElem?_eq_some_iff.mp hg
        have hd : (w.records f).drop pos = (k0, v0) :: (w.records f).drop (pos + 1) := by
          rw [List.drop_eq_getElem_cons hlt, hget0]
        rw [hd] at hnd hfresh
        simp only [List.map_cons, List.nodup_cons] at hnd
        by_cases hs : CDB.Rewrite.skip pszSkip k0 = true
        · rw [Rewrite_loop_skip b ver pszSkip copy n pos pos f w k0 v0 h0 hg hs] at H
          have := ih (pos + 1) (w.log (.cursor_get f 0)) w' H (by rw [records_log]; exact hnd.2)
            (by
              intro k1 hk1
              rw [records_log] at hk1 ⊢
              exact fun hin => hfresh k1 hk1 (List.mem_cons_of_mem _ hin)) k v'
          rw [this, records_log, records_log, hd]
          constructor
          · rintro (h | ⟨v, h1, h2, h3⟩)
            · exact Or.inl h
            · exact Or.inr ⟨v, List.mem_cons_of_mem _ h1, h2, h3⟩
          · rintro (h | ⟨v, h1, h2, h3⟩)
            · exact Or.inl h
            · rcases List.mem_cons.mp h1 with h | h
              · have : k = k0 := congrArg Prod.fst h
                rw [this, hs] at h2
                exact absurd h2 (by decide)
              · exact Or.inr ⟨v, h, h2, h3⟩
        · have hs' : CDB.Rewrite.skip pszSkip k0 = false := by simpa using hs
          rw [Rewrite_loop_put b ver pszSkip copy n pos pos f w k0 v0 h0 hg hs'] at H
          by_cases hinj : b.db_put pos = 0
          · have hk0 : k0 ∉ ((w.log (.cursor_get f 0)).records copy.strFile).map Prod.fst := by
              rw [records_log]
              exact fun hin => hfresh k0 hin (by simp)
            obtain ⟨s1, s2, s3⟩ := put_store copy k0
              (if CDB.Rewrite.isVersion k0 then serializeInt ver else v0)
              (w.log (.cursor_get f 0)) f hne hk0
            rw [hinj] at H
            generalize Db.put_NOOVERWRITE 0 copy k0
              (if CDB.Rewrite.isVersion k0 then serializeInt ver else v0)
              (w.log (.cursor_get f 0)) = pr at H s1 s2 s3
            obtain ⟨ret2, w2⟩ := pr
            simp only at s1 s2 s3 H
            rw [s1] at H
            simp only [gt_iff_lt, lt_self_iff_false, if_false] at H
            rw [records_log] at s2 s3
            have := ih (pos + 1) w2 w' H (by rw [s3]; exact hnd.2)
              (by
                intro k1 hk1
                rw [s3]
                rw [s2] at hk1
                obtain ⟨r1, hr1, hr2⟩ := List.mem_map.mp hk1
                rcases (mem_insertRecord _ _ _ _).mp hr1 with h | h
                · rw [← hr2, h]; exact hnd.1
                · exact fun hin => hfresh k1 (hr2 ▸ List.mem_map_of_mem Prod.fst h)
                    (List.mem_cons_of_mem _ hin)) k v'
            rw [this, s2, s3, mem_insertRecord, hd]
            constructor
            · rintro ((h | h) | ⟨v, h1, h2, h3⟩)
              · refine Or.inr ⟨v0, ?_, ?_, ?_⟩
                · rw [(Prod.mk.injEq _ _ _ _ ▸ h : k = k0 ∧ _).1]; simp
                · rw [(Prod.mk.injEq _ _ _ _ ▸ h : k = k0 ∧ _).1]; exact hs'
                · rw [(Prod.mk.injEq _ _ _ _ ▸ h : k = k0 ∧ _).1]
                  exact (Prod.mk.injEq _ _ _ _ ▸ h : k = k0 ∧ _).2
              · exact Or.inl h
              · exact Or.inr ⟨v, List.mem_cons_of_mem _ h1, h2, h3⟩
            · rintro (h | ⟨v, h1, h2, h3⟩)
              · exact Or.inl (Or.inr h)
              · rcases List.mem_cons.mp h1 with h | h
                · obtain ⟨hk, hv⟩ := Prod.mk.injEq _ _ _ _ ▸ h
                  subst hk hv
                  exact Or.inl (Or.inl (by rw [h3]))
                · exact Or.inr ⟨v, h, h2, h3⟩
          · have hpos : b.db_put pos > 0 := lt_of_le_of_ne (hput pos) (Ne.symm hinj)
            have hput1 : (Db.put_NOOVERWRITE (b.db_put pos) copy k0
                (if CDB.Rewrite.isVersion k0 then serializeInt ver else v0)
                (w.log (.cursor_get f 0))).1 = b.db_put pos := by
              simp [Db.put_NOOVERWRITE, hinj]
            rw [hput1] at H
            simp [hpos] at H
    · rw [Rewrite_loop_read_error b ver pszSkip copy n pos pos f w h0] at H
      simp only [Option.some.injEq, Prod.mk.injEq, Outcome.ret.injEq, decide_eq_true_eq] at H
      exact absurd H.1 (hget pos)

/-- `TempCreate` of the replacement: what it leaves alone, and the failed step it logs when it
    yields no handle. -/
theorem TempCreate_frame (b : Backend) (res : String) (w : World) :
    ∃ l, (CDBEnv.TempCreate b res DB_CREATE w).2.calls = w.calls ++ l
      ∧ (CDBEnv.TempCreate b res DB_CREATE w).2.bitdb = w.bitdb
      ∧ (CDBEnv.TempCreate b res DB_CREATE w).2.fShutdown = w.fShutdown
      ∧ (CDBEnv.TempCreate b res DB_CREATE w).2.dblogsize = w.dblogsize
      ∧ (∀ g, g ≠ res → mapFind (CDBEnv.TempCreate b res DB_CREATE w).2.files g = mapFind w.files g)
      ∧ ((CDBEnv.TempCreate b res DB_CREATE w).1 = none →
          ∃ c ∈ l, DbCall.failedStep res c = true)
      ∧ (∀ copy, (CDBEnv.TempCreate b res DB_CREATE w).1 = some copy →
          copy.strFile = res ∧ (∀ c ∈ l, DbCall.failedStep res c = false)
          ∧ (0 ≤ b.temp_open → mapFind w.files res = none →
              mapFind (CDBEnv.TempCreate b res DB_CREATE w).2.files res = some [])) := by
  unfold CDBEnv.TempCreate
  by_cases ha : b.temp_alloc = true
  · by_cases ho : b.temp_open > 0
    · refine ⟨[.db_new res true, .db_open (some res) DB_CREATE b.temp_open], ?_⟩
      simp [ha, ho, World.log, DbCall.failedStep]
    · by_cases hz : b.temp_open = 0
      · by_cases hm : mapFind w.files res = none
        · refine ⟨[.db_new res true, .db_open (some res) DB_CREATE b.temp_open], ?_⟩
          have hc : hasCreate DB_CREATE = true := by decide
          simp [ha, hz, hm, hc, World.log, DbCall.failedStep, mapFind_mapSet]
          intro g hg; simp [hg]
        · refine ⟨[.db_new res true, .db_open (some res) DB_CREATE b.temp_open], ?_⟩
          simp [ha, hz, hm, World.log, DbCall.failedStep]
      · refine ⟨[.db_new res true, .db_open (some res) DB_CREATE b.temp_open], ?_⟩
        simp [ha, ho, hz, World.log, DbCall.failedStep]
        intro h1 _
        omega
  · refine ⟨[.db_new res false], ?_⟩
    simp [ha, World.log, DbCall.failedStep]

/-- `CDB::Close` touches no file and logs no failed step; on an open handle whose file is held
    it returns. -/
theorem Close_frame (b : Backend) (db : CDB) (w : World) (res : String) :
    ∃ l, (CDB.Close b db w).2.2.calls = w.calls ++ l
      ∧ (∀ c ∈ l, DbCall.failedStep res c = false)
      ∧ (CDB.Close b db w).2.2.files = w.files
      ∧ (CDB.Close b db w).2.2.fShutdown = w.fShutdown
      ∧ (CDB.Close b db w).2.2.bitdb.mapDb = w.bitdb.mapDb
      ∧ ((db.pdb = none ∨ 1 ≤ w.bitdb.GetFileCount db.strFile) → (CDB.Close b db w).1 = .ret ()) := by
  unfold CDB.Close
  cases hp : db.pdb with
  | none => exact ⟨[], by simp⟩
  | some p =>
    simp only
    cases ht : db.activeTxn with
    | none =>
      refine ⟨[.txn_checkpoint (if (if db.fReadOnly = true then 1 else 0) ≠ 0
        then w.dblogsize * 1024 % 2 ^ 32 else 0) (if db.fReadOnly = true then 1 else 0)], ?_⟩
      unfold CDBEnv.DecUseCount CDBEnv.TxnCheckPoint CDBEnv.GetFileCount
      simp only [World.log]
      split_ifs <;> simp [DbCall.failedStep] <;> omega
    | some t =>
      refine ⟨[.txn_abort t b.txn_abort, .txn_checkpoint (if (if db.fReadOnly = true then 1 else 0) ≠ 0
        then w.dblogsize * 1024 % 2 ^ 32 else 0) (if db.fReadOnly = true then 1 else 0)], ?_⟩
      unfold CDBEnv.DecUseCount CDBEnv.TxnCheckPoint CDBEnv.GetFileCount
      simp only [World.log]
      split_ifs <;> simp [DbCall.failedStep] <;> omega

/-- `CloseDb` appends at most the close of the cached handle to the log. -/
theorem CloseDb_calls (strFile : String) (w : World) :
    ∃ l, (CDBEnv.CloseDb strFile w).calls = w.calls ++ l ∧ ∀ c ∈ l, c = DbCall.db_close strFile := by
  unfold CDBEnv.CloseDb
  split
  · exact ⟨[.db_close strFile], by simp [World.setDb, World.log]⟩
  · exact ⟨[], by simp⟩
  · exact ⟨[], by simp [World.setDb]⟩

/-- `CDBEnv::Remove` logs its call and touches no other file. -/
theorem Remove_spec (b : Backend) (f : String) (w : World) :
    (CDBEnv.Remove b f w).2.calls = w.calls ++ [.db_remove f b.db_remove]
    ∧ ∀ g, g ≠ f → mapFind (CDBEnv.Remove b f w).2.files g = mapFind w.files g := by
  unfold CDBEnv.Remove
  by_cases h : b.db_remove = 0
  · simp [h, World.log, mapFind_mapErase]
    intro g hg; simp [hg]
  · simp [h, World.log]

/-- `CDBEnv::Rename` returns whether the backend rename returned `0`; a successful rename puts
    the records of the source under the new name. -/
theorem Rename_spec (b : Backend) (res f : String) (w : World) :
    (CDBEnv.Rename b res f w).1 = decide (b.db_rename = 0)
    ∧ (CDBEnv.Rename b res f w).2.calls = w.calls ++ [.db_rename res f b.db_rename]
    ∧ (b.db_rename = 0 → ∀ recs, mapFind w.files res = some recs →
        mapFind (CDBEnv.Rename b res f w).2.files f = some recs) := by
  unfold CDBEnv.Rename
  by_cases h : b.db_rename = 0
  · cases hr : mapFind w.files res with
    | none => simp [h, World.log, hr]
    | some recs => simp [h, World.log, hr, mapFind_mapSet]
  · simp [h, World.log]

/-- The end of `Rewrite` on an open handle whose file is held: it returns; entered with
    `fSuccess` false it returns `false` and touches no file; entered with `fSuccess` true it
    returns `false` without touching a file when closing the copy fails, and otherwise returns
    the result of the rename, which on success puts the records of the replacement under the
    name of the original. -/
theorem Rewrite_finish_spec (b : Backend) (f : String) (copy : Option Db) (db : CDB)
    (fSuccess : Bool) (w : World) (hf : db.strFile = f)
    (hc : 1 ≤ w.bitdb.GetFileCount f) (hcopy : fSuccess = true → copy ≠ none) :
    ∃ r w' l, CDB.Rewrite.finish b f copy db fSuccess w = (.ret r, w')
      ∧ w'.calls = w.calls ++ l
      ∧ (fSuccess = false → r = false ∧ w'.files = w.files)
      ∧ (fSuccess = true → b.copy_close ≠ 0 →
          r = false ∧ w'.files = w.files)
      ∧ (fSuccess = true → b.copy_close = 0 →
          (∀ c ∈ l, DbCall.failedStep (f ++ ".rewrite") c = false)
          ∧ r = decide (b.db_rename = 0)
          ∧ ∀ recs, mapFind w.files (f ++ ".rewrite") = some recs → b.db_rename = 0 →
              mapFind w'.files f = some recs)
      ∧ (r = true → b.db_rename = 0) := by
  obtain ⟨lc, c1, c2, c3, c4, c5, c6⟩ := Close_frame b db w (f ++ ".rewrite")
  have hret : (CDB.Close b db w).1 = .ret () := c6 (Or.inr (hf ▸ hc))
  unfold CDB.Rewrite.finish
  generalize hcl : CDB.Close b db w = cl at c1 c3 c4 c5 hret
  obtain ⟨o, db1, w1⟩ := cl
  simp only at c1 c3 c4 c5 hret
  subst hret
  cases fSuccess with
  | false =>
    simp only [Bool.false_eq_true, if_false]
    exact ⟨false, w1, lc, rfl, c1, fun _ => ⟨rfl, c3⟩, fun h => absurd h (by decide),
      fun h => absurd h (by decide), fun h => absurd h (by decide)⟩
  | true =>
    simp only [if_true]
    obtain ⟨cp, hcp⟩ := Option.ne_none_iff_exists'.mp (hcopy rfl)
    subst hcp
    simp only
    obtain ⟨ld, d1, d2⟩ := CloseDb_calls f w1
    obtain ⟨k1, k2, k3, k4, k5, k6, k7, k8⟩ := CloseDb_frame f w1
    by_cases hcc : b.copy_close = 0
    · have hne := rewrite_name_ne f
      obtain ⟨m1, m2⟩ := Remove_spec b f ((CDBEnv.CloseDb f w1).log (.copy_close cp.strFile b.copy_close))
      obtain ⟨n1, n2, n3⟩ := Rename_spec b (f ++ ".rewrite") f
        (CDBEnv.Remove b f ((CDBEnv.CloseDb f w1).log (.copy_close cp.strFile b.copy_close))).2
      refine ⟨decide (b.db_rename = 0), (CDBEnv.Rename b (f ++ ".rewrite") f (CDBEnv.Remove b f
        ((CDBEnv.CloseDb f w1).log (.copy_close cp.strFile b.copy_close))).2).2,
        lc ++ ld ++ [.copy_close cp.strFile b.copy_close,
        .db_remove f b.db_remove, .db_rename (f ++ ".rewrite") f b.db_rename], ?_, ?_, ?_, ?_, ?_,
        fun h => of_decide_eq_true h⟩
      · simp only [hcc, ne_eq, not_true_eq_false, if_false, ← n1]
      · rw [n2, m1]; simp [World.log, d1, c1]
      · intro h; exact absurd h (by decide)
      · intro _ h; exact absurd hcc h
      · intro _ _
        refine ⟨?_, rfl, ?_⟩
        · intro c hc'
          simp only [List.mem_append, List.mem_cons, List.mem_singleton, List.not_mem_nil,
            or_false] at hc'
          rcases hc' with (h | h) | h | h | h
          · exact c2 c h
          · rw [d2 c h]; rfl
          · rw [h]; simp [DbCall.failedStep, hcc]
          · rw [h]; rfl
          · rw [h]; rfl
        · intro recs hrecs hrn
          refine n3 hrn recs ?_
          rw [m2 _ hne]
          simp [World.log, k2, c3, hrecs]
    · simp only [hcc, ne_eq, not_false_eq_true, if_true]
      refine ⟨false, _, lc ++ ld ++ [.copy_close cp.strFile b.copy_close], rfl, ?_, ?_, ?_, ?_,
        fun h => absurd h (by decide)⟩
      · simp [World.log, d1, c1]
      · intro h; exact absurd h (by decide)
      · intro _ _; exact ⟨rfl, by simp [World.log, k2, c3]⟩
      · intro _ h; exact h.elim

/-- `GetIteCursor` on an open handle: it logs the `cursor` call and yields a cursor at the
    start of the file exactly when the call returned `0`. -/
theorem GetIteCursor_open (b : Backend) (db : CDB) (w : World) (hp : db.pdb ≠ none) :
    CDB.GetIteCursor b db w
      = (if b.db_cursor ≠ 0 then DbIterator.null else .cdb ⟨db.strFile, 0⟩,
          w.log (.db_cursor db.strFile b.db_cursor)) := by
  obtain ⟨p, hp'⟩ := Option.ne_none_iff_exists'.mp hp
  unfold CDB.GetIteCursor
  simp only [hp']
  split_ifs <;> rfl

/-- The copy block of `Rewrite` on an open handle whose file is held: it returns; when a step
    failed in a way the code checks, it returns `false` and the original file is as it was; and
    when it returns `true` with no overlooked failure, no stale replacement and no repeated key
    in the original, the file holds exactly the records the skip test lets pass, with the
    version written where the version test matches. -/
theorem Rewrite_copy_spec (b : Backend) (ver : Nat) (f : String) (pszSkip : Option Bytes)
    (db : CDB) (w : World) (hp : db.pdb ≠ none) (hf : db.strFile = f)
    (hc : 1 ≤ w.bitdb.GetFileCount f) :
    ∃ r w' l, CDB.Rewrite.copy b ver f pszSkip db w = some (.ret r, w')
      ∧ w'.calls = w.calls ++ l
      ∧ ((∃ c ∈ l, DbCall.failedStep (f ++ ".rewrite") c = true) →
          r = false ∧ mapFind w'.files f = mapFind w.files f)
      ∧ (r = true → b.noOverlookedFailure → mapFind w.files (f ++ ".rewrite") = none →
          ((w.records f).map Prod.fst).Nodup →
          ∀ k v', (k, v') ∈ w'.records f ↔
            ∃ v, (k, v) ∈ w.records f ∧ CDB.Rewrite.skip pszSkip k = false
              ∧ v' = if CDB.Rewrite.isVersion k then serializeInt ver else v)
      ∧ (r = true → b.db_rename = 0) := by
  have hne := rewrite_name_ne f
  obtain ⟨lt, t1, t2, t3, t4, t5, t6, t7⟩ := TempCreate_frame b (f ++ ".rewrite") w
  unfold CDB.Rewrite.copy
  generalize CDBEnv.TempCreate b (f ++ ".rewrite") DB_CREATE w = t at t1 t2 t3 t4 t5 t6 t7
  obtain ⟨tc, wt⟩ := t
  simp only at t1 t2 t3 t4 t5 t6 t7
  simp only [GetIteCursor_open b db wt hp, hf]
  have hcw : ∀ w5 : World, w5.bitdb = wt.bitdb → 1 ≤ w5.bitdb.GetFileCount f := by
    intro w5 h5; rw [h5, t2]; exact hc
  have hfw : mapFind (wt.log (.db_cursor f b.db_cursor)).files f = mapFind w.files f :=
    t5 f (Ne.symm hne)
  cases tc with
  | none =>
    simp only
    obtain ⟨c, hc1, hc2⟩ := t6 rfl
    obtain ⟨r, w', l, f1, f2, f3, f4, f5, f6⟩ := Rewrite_finish_spec b f none db false
      (wt.log (.db_cursor f b.db_cursor)) hf (hcw _ rfl) (fun h => absurd h (by decide))
    refine ⟨r, w', lt ++ [.db_cursor f b.db_cursor] ++ l, by rw [f1], ?_, ?_, ?_, f6⟩
    · rw [f2]; simp [World.log, t1]
    · intro _
      exact ⟨(f3 rfl).1, by rw [(f3 rfl).2]; exact hfw⟩
    · intro hr; rw [(f3 rfl).1] at hr; exact absurd hr (by decide)
  | some copy =>
    obtain ⟨tn, tl, tf⟩ := t7 copy rfl
    simp only
    by_cases hcz : b.db_cursor = 0
    · simp only [hcz, ne_eq, not_true_eq_false, if_false, DbIterator.is_ok, if_true]
      obtain ⟨rl, w5, ll, l1, l2, l3, l4, l5, l6, l7, l8, l9⟩ :=
        Rewrite_loop_frame b ver pszSkip copy f (by rw [tn]; exact Ne.symm hne)
          ((wt.log (.db_cursor f 0)).records f).length 0 (wt.log (.db_cursor f 0)) (by omega)
      rw [l1]
      simp only
      obtain ⟨r, w', l, f1, f2, f3, f4, f5, f6⟩ := Rewrite_finish_spec b f (some copy) db rl w5 hf
        (hcw _ l2) (fun _ => by simp)
      have hw5f : mapFind w5.files f = mapFind w.files f := by
        rw [l5 f (by rw [tn]; exact Ne.symm hne)]
        exact t5 f (Ne.symm hne)
      refine ⟨r, w', lt ++ [.db_cursor f 0] ++ ll ++ l, by rw [f1], ?_, ?_, ?_, f6⟩
      · rw [f2, l6]; simp [World.log, t1]
      · rintro ⟨c, hc1, hc2⟩
        cases rl with
        | false => exact ⟨(f3 rfl).1, by rw [(f3 rfl).2]; exact hw5f⟩
        | true =>
          by_cases hcc : b.copy_close = 0
          · exfalso
            simp only [List.mem_append, List.mem_singleton] at hc1
            rcases hc1 with ((h | h) | h) | h
            · rw [tl c h] at hc2; exact absurd hc2 (by decide)
            · rw [h] at hc2; simp [DbCall.failedStep] at hc2
            · rw [tn] at l7; rw [l7 rfl c h] at hc2; exact absurd hc2 (by decide)
            · rw [(f5 rfl hcc).1 c h] at hc2; exact absurd hc2 (by decide)
          · exact ⟨(f4 rfl hcc).1, by rw [(f4 rfl hcc).2]; exact hw5f⟩
      · intro hr hb hfresh hnd
        obtain ⟨b1, b2, b3, b4⟩ := hb
        cases rl with
        | false => rw [(f3 rfl).1] at hr; exact absurd hr (by decide)
        | true =>
          by_cases hcc : b.copy_close = 0
          · obtain ⟨g1, g2, g3⟩ := f5 rfl hcc
            have hrn : b.db_rename = 0 := by
              rw [hr] at g2
              simpa using g2.symm
            have hres0 : mapFind (wt.log (.db_cursor f 0)).files (f ++ ".rewrite") = some [] :=
              tf b1 hfresh
            have hsome : mapFind w5.files (f ++ ".rewrite") ≠ none := by
              rw [tn] at l9
              exact l9 (by rw [hres0]; simp)
            obtain ⟨recs, hrecs⟩ := Option.ne_none_iff_exists'.mp hsome
            have hfinal := g3 recs hrecs hrn
            have hrec0 : (wt.log (.db_cursor f 0)).records f = w.records f := by
              unfold World.records
              rw [show mapFind (wt.log (.db_cursor f 0)).files f = mapFind w.files f from
                t5 f (Ne.symm hne)]
            have hL2 := Rewrite_loop_records b ver pszSkip copy f (by rw [tn]; exact Ne.symm hne)
              b3 b4 _ 0 (wt.log (.db_cursor f 0)) w5 l1
              (by rw [hrec0]; simpa using hnd)
              (by
                intro k hk
                rw [tn] at hk
                unfold World.records at hk
                rw [hres0] at hk
                simp at hk)
            intro k v'
            have e1 : w'.records f = w5.records copy.strFile := by
              unfold World.records
              rw [hfinal, tn, hrecs]
            rw [e1, hL2 k v', hrec0]
            have e2 : (wt.log (.db_cursor f 0)).records copy.strFile = [] := by
              unfold World.records
              rw [tn, hres0]; rfl
            rw [e2]
            simp
          · rw [(f4 rfl hcc).1] at hr; exact absurd hr (by decide)
    · simp only [hcz, ne_eq, not_false_eq_true, if_true, DbIterator.is_ok, Bool.false_eq_true,
        if_false]
      obtain ⟨r, w', l, f1, f2, f3, f4, f5, f6⟩ := Rewrite_finish_spec b f (some copy) db true
        (wt.log (.db_cursor f b.db_cursor)) hf (hcw _ rfl) (fun _ => by simp)
      refine ⟨r, w', lt ++ [.db_cursor f b.db_cursor] ++ l, by rw [f1], ?_, ?_, ?_, f6⟩
      · rw [f2]; simp [World.log, t1]
      · rintro ⟨c, hc1, hc2⟩
        by_cases hcc : b.copy_close = 0
        · exfalso
          simp only [List.mem_append, List.mem_singleton] at hc1
          rcases hc1 with (h | h) | h
          · rw [tl c h] at hc2; exact absurd hc2 (by decide)
          · rw [h] at hc2; simp [DbCall.failedStep] at hc2
          · rw [(f5 rfl hcc).1 c h] at hc2; exact absurd hc2 (by decide)
        · exact ⟨(f4 rfl hcc).1, by rw [(f4 rfl hcc).2]; exact hfw⟩
      · intro _ hb
        exact absurd hb.2.1 hcz

/-- The body of `Rewrite` on a file found unused, outside shutdown: it comes to an end; when a
    step failed in a way the code checks, it returns `false` with the original file as it was;
    when it returns `true` (no overlooked failure, no stale replacement, no repeated key), the
    file holds exactly the records the skip test lets pass, with the version written where the
    version test matches. -/
theorem Rewrite_compact_spec (b : Backend) (rc : Int) (ver : Nat) (f : String)
    (pszSkip : Option Bytes) (w : World) (hshut : w.fShutdown = false) :
    ∃ o w' l, CDB.Rewrite.compact b rc ver f pszSkip w = some (o, w')
      ∧ w'.calls = w.calls ++ l
      ∧ ((∃ c ∈ l, DbCall.failedStep (f ++ ".rewrite") c = true) →
          o = .ret false ∧ mapFind w'.files f = mapFind w.files f)
      ∧ (o = .ret true → b.noOverlookedFailure → mapFind w.files (f ++ ".rewrite") = none →
          ((w.records f).map Prod.fst).Nodup →
          ∀ k v', (k, v') ∈ w'.records f ↔
            ∃ v, (k, v) ∈ w.records f ∧ CDB.Rewrite.skip pszSkip k = false
              ∧ v' = if CDB.Rewrite.isVersion k then serializeInt ver else v)
      ∧ (o = .ret true → b.db_rename = 0) := by
  have hne := rewrite_name_ne f
  have hne' : ¬ f = f ++ ".rewrite" := fun h => hne h.symm
  obtain ⟨ld, d1, d2⟩ := CloseDb_calls f w
  obtain ⟨k1, k2, k3, k4, k5, k6, k7, k8⟩ := CloseDb_frame f w
  -- the state before `CDB db(strFile, "r")`
  obtain ⟨w3, hw3, l3, q1, q2, q3, q4, q5⟩ : ∃ w3 : World,
      w3 = { CDBEnv.CheckpointLSN f (CDBEnv.CloseDb f w) with
        bitdb := (CDBEnv.CheckpointLSN f (CDBEnv.CloseDb f w)).bitdb.EraseFileCount f }
      ∧ ∃ l3, w3.calls = w.calls ++ l3
        ∧ (∀ c ∈ l3, DbCall.failedStep (f ++ ".rewrite") c = false)
        ∧ w3.files = w.files ∧ w3.fShutdown = false ∧ w3.bitdb.GetFileCount f = 0 := by
    refine ⟨_, rfl, ?_⟩
    unfold CDBEnv.CheckpointLSN
    by_cases hm : (CDBEnv.CloseDb f w).bitdb.fMockDb = true
    · refine ⟨ld ++ [.txn_checkpoint 0 0], ?_, ?_, ?_, ?_, ?_⟩
      · simp [World.log, hm, d1]
      · intro c hc'
        rcases List.mem_append.mp hc' with h | h
        · rw [d2 c h]; rfl
        · rw [List.mem_singleton.mp h]; rfl
      · simp [World.log, hm, k2]
      · simp [World.log, hm, k1, hshut]
      · simp [World.log, hm, CDBEnv.EraseFileCount, CDBEnv.GetFileCount, mapFind_mapErase]
    · refine ⟨ld ++ [.txn_checkpoint 0 0, .lsn_reset f], ?_, ?_, ?_, ?_, ?_⟩
      · simp [World.log, hm, d1]
      · intro c hc'
        simp only [List.mem_append, List.mem_cons, List.mem_singleton, List.not_mem_nil,
          or_false] at hc'
        rcases hc' with h | h | h
        · rw [d2 c h]; rfl
        · rw [h]; rfl
        · rw [h]; rfl
      · simp [World.log, hm, k2]
      · simp [World.log, hm, k1, hshut]
      · simp [World.log, hm, CDBEnv.EraseFileCount, CDBEnv.GetFileCount, mapFind_mapErase]
  unfold CDB.Rewrite.compact
  simp only [← hw3, construct_r]
  obtain ⟨l4, r1, r2, r3, r4, r5, r6⟩ := Create_spec b rc f DB_THREAD w3 q4
  have hl4 : ∀ c ∈ l4, DbCall.failedStep (f ++ ".rewrite") c = false :=
    r2 (fun c => DbCall.failedStep (f ++ ".rewrite") c = false) (fun _ => rfl)
      (fun ok => by simp [DbCall.failedStep, hne'])
      (fun _ _ => by simp [DbCall.failedStep])
      (fun _ _ => by simp [DbCall.failedStep, hne'])
  have hl34 : ∀ c ∈ l3 ++ l4, DbCall.failedStep (f ++ ".rewrite") c = false := by
    intro c hc'
    rcases List.mem_append.mp hc' with h | h
    · exact q2 c h
    · exact hl4 c h
  have hnofail : ¬ ∃ c ∈ l3 ++ l4, DbCall.failedStep (f ++ ".rewrite") c = true := by
    rintro ⟨c, hc1, hc2⟩
    rw [hl34 c hc1] at hc2
    exact absurd hc2 (by decide)
  generalize CDBEnv.Create b rc f DB_THREAD w3 = cr at r1 r3 r4 r5 r6
  obtain ⟨o4, w4⟩ := cr
  simp only at r1 r3 r4 r5 r6
  rcases r6 with ⟨pdb, h1, h2⟩ | ⟨e, h1⟩ | h1
  · subst h1
    simp only
    obtain ⟨r, w', l, s1, s2, s3, s4, s5⟩ := Rewrite_copy_spec b ver f pszSkip
      { pdb := some pdb, strFile := f, activeTxn := none, fReadOnly := true } w4
      (by simp) rfl (by rw [h2, q5]; norm_num)
    refine ⟨.ret r, w', l3 ++ l4 ++ l, s1, ?_, ?_, ?_, fun h => s5 (by simpa using h)⟩
    · rw [s2, r1, q1]; simp
    · rintro ⟨c, hc1, hc2⟩
      rcases List.mem_append.mp hc1 with h | h
      · exact absurd ⟨c, h, hc2⟩ hnofail
      · obtain ⟨t1, t2⟩ := s3 ⟨c, h, hc2⟩
        exact ⟨by rw [t1], by rw [t2, r3, q3]⟩
    · intro hr hb hfresh hnd
      have hr' : r = true := by simpa using hr
      have hrec : w4.records f = w.records f := by
        unfold World.records; rw [r3, q3]
      have := s4 hr' hb (by rw [r3, q3]; exact hfresh) (by rw [hrec]; exact hnd)
      intro k v'
      rw [this k v', hrec]
  · subst h1
    refine ⟨.throw e, w4, l3 ++ l4, rfl, by rw [r1, q1]; simp, fun h => absurd h hnofail, ?_,
      fun h => absurd h (by simp)⟩
    intro h; exact absurd h (by simp)
  · subst h1
    refine ⟨.abort, w4, l3 ++ l4, rfl, by rw [r1, q1]; simp, fun h => absurd h hnofail, ?_,
      fun h => absurd h (by simp)⟩
    intro h; exact absurd h (by simp)

/-- `Rewrite` starts the compaction at the first poll that finds shutdown clear and the file
    unused. -/
theorem Rewrite_eligible (b : Backend) (rc : Int) (ver : Nat) (f : String)
    (pszSkip : Option Bytes) (w : World) (polls : List World) (hshut : w.fShutdown = false)
    (helig : w.bitdb.ExistsFileCount f = false ∨ w.bitdb.GetFileCount f = 0) :
    CDB.Rewrite b rc ver f pszSkip (w :: polls) = CDB.Rewrite.compact b rc ver f pszSkip w := by
  unfold CDB.Rewrite
  rcases helig with h | h <;> simp [hshut, h]

/-- `strlen` of a byte string without NUL is its length. -/
theorem strlen_eq_length (p : Bytes) (hp : ∀ c ∈ p, c ≠ 0) : strlen p = p.length := by
  induction p with
  | nil => rfl
  | cons c p ih =>
    have hc : c ≠ 0 := hp c (by simp)
    simp [strlen, hc, ih (fun d hd => hp d (List.mem_cons_of_mem _ hd))]

/-- `strncmp` against a NUL-free string of length at least `n` yields `0` exactly when the
    other string has `n` bytes too and the first `n` bytes agree. -/
theorem strncmp_eq_zero_iff (n : Nat) :
    ∀ (k p : Bytes), (∀ c ∈ p, c ≠ 0) → n ≤ p.length →
      (strncmp k p n = 0 ↔ n ≤ k.length ∧ k.take n = p.take n) := by
  induction n with
  | zero => intro k p _ _; simp [strncmp]
  | succ n ih =>
    intro k p hp hn
    cases p with
    | nil => simp at hn
    | cons c p =>
      have hc : c ≠ 0 := hp c (by simp)
      cases k with
      | nil =>
        have : ¬ (0 : Nat) = c := fun h => hc h.symm
        simp [strncmp, this]
        exact_mod_cast hc
      | cons a k =>
        by_cases hac : a = c
        · subst hac
          have := ih k p (fun d hd => hp d (List.mem_cons_of_mem _ hd)) (by simpa using hn)
          simp [strncmp, hc, this]
        · simp [strncmp, hac]
          omega

/-- The skip test of `Rewrite` with a NUL-free prefix: it holds exactly when the key starts
    with the prefix or the prefix starts with the key. -/
theorem Rewrite_skip_iff (psz k : Bytes) (hp : ∀ c ∈ psz, c ≠ 0) :
    CDB.Rewrite.skip (some psz) k = true ↔ psz <+: k ∨ k <+: psz := by
  unfold CDB.Rewrite.skip
  simp only [decide_eq_true_eq, strlen_eq_length psz hp]
  rw [strncmp_eq_zero_iff _ k psz hp (Nat.min_le_right _ _)]
  simp only [Nat.min_le_left, true_and]
  rcases Nat.le_total psz.length k.length with h | h
  · rw [Nat.min_eq_right h, List.take_length]
    constructor
    · intro e
      exact Or.inl (List.prefix_iff_eq_take.mpr e.symm)
    · rintro (e | e)
      · exact (List.prefix_iff_eq_take.mp e).symm
      · have hl := e.length_le
        have : k = psz := e.eq_of_length (le_antisymm hl h)
        rw [this, List.take_length]
  · rw [Nat.min_eq_left h, List.take_length]
    constructor
    · intro e
      exact Or.inr (List.prefix_iff_eq_take.mpr e)
    · rintro (e | e)
      · have hl := e.length_le
        have : psz = k := e.eq_of_length (le_antisymm hl h)
        rw [this, List.take_length]
      · exact List.prefix_iff_eq_take.mp e

/-- The version test of `Rewrite` holds exactly for the keys that start with the 8 bytes of the
    serialized string `version`. -/
theorem Rewrite_isVersion_iff (k : Bytes) :
    CDB.Rewrite.isVersion k = true ↔ versionKey <+: k := by
  unfold CDB.Rewrite.isVersion
  simp only [decide_eq_true_eq]
  rw [strncmp_eq_zero_iff 8 k versionKey (by decide) (by decide)]
  have h8 : versionKey.take 8 = versionKey := by decide
  have hl : versionKey.length = 8 := by decide
  rw [h8]
  constructor
  · rintro ⟨_, e⟩
    exact List.prefix_iff_eq_take.mpr (by rw [hl]; exact e.symm)
  · intro e
    refine ⟨hl ▸ e.length_le, ?_⟩
    have := List.prefix_iff_eq_take.mp e
    rw [hl] at this
    exact this.symm

/-- What a `Rewrite` that returned `true` leaves under the name of the original, when no
    failure was overlooked, no stale replacement lay around and the original had no repeated
    key. -/
theorem Rewrite_success_records (b : Backend) (rc : Int) (ver : Nat) (f : String)
    (pszSkip : Option Bytes) (w : World) (polls : List World) (hshut : w.fShutdown = false)
    (helig : w.bitdb.ExistsFileCount f = false ∨ w.bitdb.GetFileCount f = 0)
    (hb : b.noOverlookedFailure) (hfresh : mapFind w.files (f ++ ".rewrite") = none)
    (hnd : ((w.records f).map Prod.fst).Nodup)
    (hret : (CDB.Rewrite b rc ver f pszSkip (w :: polls)).map Prod.fst = some (.ret true)) :
    ∃ w', CDB.Rewrite b rc ver f pszSkip (w :: polls) = some (.ret true, w')
      ∧ ∀ k v', (k, v') ∈ w'.records f ↔
          ∃ v, (k, v) ∈ w.records f ∧ CDB.Rewrite.skip pszSkip k = false
            ∧ v' = if CDB.Rewrite.isVersion k then serializeInt ver else v := by
  rw [Rewrite_eligible b rc ver f pszSkip w polls hshut helig] at hret ⊢
  obtain ⟨o, w', l, h1, _, _, h4, _⟩ := Rewrite_compact_spec b rc ver f pszSkip w hshut
  rw [h1] at hret
  simp only [Option.map_some', Option.some.injEq] at hret
  subst hret
  exact ⟨w', h1, h4 rfl hb hfresh hnd⟩

/-- C2, as amended: a `Rewrite` that returned `true` (no overlooked failure, no stale
    replacement, no repeated key) omits a record of the original exactly when the skip test
    `strncmp(key, pszSkip, min(key.size(), strlen(pszSkip))) == 0` holds for its key, and adds no
    key; for a NUL-free prefix the test holds exactly when the key starts with the prefix or the
    prefix starts with the key, and without a prefix it never holds. -/
theorem Rewrite_omits_by_skip_test (b : Backend) (rc : Int) (ver : Nat) (f : String)
    (pszSkip : Option Bytes) (w : World) (polls : List World) (hshut : w.fShutdown = false)
    (helig : w.bitdb.ExistsFileCount f = false ∨ w.bitdb.GetFileCount f = 0)
    (hb : b.noOverlookedFailure) (hfresh : mapFind w.files (f ++ ".rewrite") = none)
    (hnd : ((w.records f).map Prod.fst).Nodup)
    (hret : (CDB.Rewrite b rc ver f pszSkip (w :: polls)).map Prod.fst = some (.ret true)) :
    ∃ w', CDB.Rewrite b rc ver f pszSkip (w :: polls) = some (.ret true, w')
      ∧ (∀ k v, (k, v) ∈ w.records f →
          (k ∉ (w'.records f).map Prod.fst ↔ CDB.Rewrite.skip pszSkip k = true))
      ∧ (∀ k, k ∈ (w'.records f).map Prod.fst → k ∈ (w.records f).map Prod.fst)
      ∧ (∀ psz k : Bytes, (∀ c ∈ psz, c ≠ 0) →
          (CDB.Rewrite.skip (some psz) k = true ↔ psz <+: k ∨ k <+: psz))
      ∧ ∀ k, CDB.Rewrite.skip none k = false := by
  obtain ⟨w', h1, h2⟩ := Rewrite_success_records b rc ver f pszSkip w polls hshut helig hb hfresh
    hnd hret
  refine ⟨w', h1, ?_, ?_, fun psz k hp => Rewrite_skip_iff psz k hp, fun _ => rfl⟩
  · intro k v hkv
    constructor
    · intro hnot
      by_contra hs
      have hs' : CDB.Rewrite.skip pszSkip k = false := by simpa using hs
      exact hnot (List.mem_map.mpr ⟨(k, _), (h2 k _).mpr ⟨v, hkv, hs', rfl⟩, rfl⟩)
    · intro hs hin
      obtain ⟨⟨k', v'⟩, hmem, hk⟩ := List.mem_map.mp hin
      simp only at hk
      subst hk
      obtain ⟨_, _, hs', _⟩ := (h2 k' v').mp hmem
      rw [hs] at hs'
      exact absurd hs' (by decide)
  · intro k hin
    obtain ⟨⟨k', v'⟩, hmem, hk⟩ := List.mem_map.mp hin
    simp only at hk
    subst hk
    obtain ⟨v, hv, _, _⟩ := (h2 k' v').mp hmem
    exact List.mem_map.mpr ⟨(k', v), hv, rfl⟩

/-- Witness of `Rewrite_omits_by_skip_test`: `wallet.dat` rewritten with the prefix `skip`. -/
theorem Rewrite_omits_by_skip_test_witness :
    ∃ w', CDB.Rewrite {} 10 70000 "wallet.dat" (some [115, 107, 105, 112]) [rewriteWorld]
        = some (.ret true, w')
      ∧ (∀ k v, (k, v) ∈ rewriteWorld.records "wallet.dat" →
          (k ∉ (w'.records "wallet.dat").map Prod.fst
            ↔ CDB.Rewrite.skip (some [115, 107, 105, 112]) k = true)) :=
  have h := Rewrite_omits_by_skip_test {} 10 70000 "wallet.dat" (some [115, 107, 105, 112])
    rewriteWorld [] rfl (Or.inl (by decide))
    ⟨by decide, rfl, fun _ => (by decide : (0 : Int) ≠ DB_NOTFOUND), fun _ => le_refl (0 : Int)⟩ (by decide) (by decide) (by decide)
  h.imp fun _ h' => ⟨h'.1, h'.2.1⟩

/-- C2 fails as stated: with the prefix `skip`, the record with key `sk` is omitted from the
    replacement although its key does not start with the prefix. -/
theorem Rewrite_short_key_counterexample :
    ([115, 107], [9]) ∈ rewriteWorld.records "wallet.dat"
    ∧ ¬ ([115, 107, 105, 112] <+: [115, 107])
    ∧ (CDB.Rewrite {} 10 70000 "wallet.dat" (some [115, 107, 105, 112]) [rewriteWorld]).map
        (fun r => (r.1, (r.2.records "wallet.dat").map Prod.fst))
      = some (.ret true, [versionKey, versionKey ++ [1], [97], [98]]) :=
  ⟨by decide, by decide, by decide⟩

/-- C3, as amended: a `Rewrite` that returned `true` (no overlooked failure, no stale
    replacement, no repeated key) holds, for every record of the original that the skip test
    lets pass, exactly one record under that key: with the original value, unless the key
    starts with the 8 bytes of the serialized string `version`, in which case the value is the
    serialized current version. -/
theorem Rewrite_copies_with_version (b : Backend) (rc : Int) (ver : Nat) (f : String)
    (pszSkip : Option Bytes) (w : World) (polls : List World) (hshut : w.fShutdown = false)
    (helig : w.bitdb.ExistsFileCount f = false ∨ w.bitdb.GetFileCount f = 0)
    (hb : b.noOverlookedFailure) (hfresh : mapFind w.files (f ++ ".rewrite") = none)
    (hnd : ((w.records f).map Prod.fst).Nodup)
    (hret : (CDB.Rewrite b rc ver f pszSkip (w :: polls)).map Prod.fst = some (.ret true)) :
    ∃ w', CDB.Rewrite b rc ver f pszSkip (w :: polls) = some (.ret true, w')
      ∧ (∀ k v, (k, v) ∈ w.records f → CDB.Rewrite.skip pszSkip k = false →
          ∀ v', (k, v') ∈ w'.records f ↔
            v' = if versionKey <+: k then serializeInt ver else v) := by
  obtain ⟨w', h1, h2⟩ := Rewrite_success_records b rc ver f pszSkip w polls hshut helig hb hfresh
    hnd hret
  refine ⟨w', h1, ?_⟩
  intro k v hkv hs v'
  have hver : (if CDB.Rewrite.isVersion k = true then serializeInt ver else v)
      = if versionKey <+: k then serializeInt ver else v := by
    by_cases hv : versionKey <+: k
    · simp [hv, (Rewrite_isVersion_iff k).mpr hv]
    · have : ¬ CDB.Rewrite.isVersion k = true := fun h => hv ((Rewrite_isVersion_iff k).mp h)
      simp [hv, this]
  rw [h2 k v', ← hver]
  constructor
  · rintro ⟨v0, hv0, _, he⟩
    have : v0 = v := by
      by_contra hne
      have hne' : (k, v0) ≠ (k, v) := fun h => hne (congrArg Prod.snd h)
      have hnd' := hnd
      rw [List.nodup_map_iff_inj_on (List.Nodup.of_map _ hnd)] at hnd'
      exact hne' (hnd' _ hv0 _ hkv rfl)
    rw [he, this]
  · intro he
    exact ⟨v, hkv, hs, he⟩

/-- Witness of `Rewrite_copies_with_version`: `wallet.dat` rewritten without a prefix. -/
theorem Rewrite_copies_with_version_witness :
    ∃ w', CDB.Rewrite {} 10 70000 "wallet.dat" none [rewriteWorld] = some (.ret true, w')
      ∧ (∀ k v, (k, v) ∈ rewriteWorld.records "wallet.dat" →
          CDB.Rewrite.skip none k = false →
          ∀ v', (k, v') ∈ w'.records "wallet.dat" ↔
            v' = if versionKey <+: k then serializeInt 70000 else v) :=
  Rewrite_copies_with_version {} 10 70000 "wallet.dat" none rewriteWorld [] rfl
    (Or.inl (by decide)) ⟨by decide, rfl, fun _ => (by decide : (0 : Int) ≠ DB_NOTFOUND), fun _ => le_refl (0 : Int)⟩
    (by decide) (by decide) (by decide)

/-- C3 fails as stated: the record whose key is the version key followed by one more byte is
    not the version record, yet its value `[5]` is replaced by the serialized version. -/
theorem Rewrite_version_prefix_counterexample :
    (versionKey ++ [1], [5]) ∈ rewriteWorld.records "wallet.dat"
    ∧ versionKey ++ [1] ≠ versionKey
    ∧ (CDB.Rewrite {} 10 70000 "wallet.dat" none [rewriteWorld]).map
        (fun r => (r.1, (r.2.records "wallet.dat").filter (fun e => e.1 = versionKey ++ [1])))
      = some (.ret true, [(versionKey ++ [1], serializeInt 70000)])
    ∧ serializeInt 70000 ≠ [5] :=
  ⟨by decide, by decide, by decide, by decide⟩

/-! ## `CLevelDB::ScanBatch` -/

/-- Replaying a batch with one more operation at its end. -/
theorem Iterate_append (needle : Bytes) (ops : WriteBatch) (op : BatchOp) (st : Bool × Bytes × Bool) :
    CBatchScanner.Iterate needle (ops ++ [op]) st
      = CBatchScanner.Iterate needle [op] (CBatchScanner.Iterate needle ops st) := by
  induction ops generalizing st with
  | nil => rfl
  | cons o ops ih => cases o <;> simp [CBatchScanner.Iterate, ih]

/-- The last operation on a key after one more operation was recorded. -/
theorem lastOpOn_append (ops : WriteBatch) (op : BatchOp) (key : Bytes) :
    WriteBatch.lastOpOn (ops ++ [op]) key
      = if op.key = key then some op else WriteBatch.lastOpOn ops key := by
  unfold WriteBatch.lastOpOn
  by_cases h : op.key = key <;> simp [List.filter_append, h]

/-- The scanner ends in the state given by the last operation on the needle. -/
theorem Iterate_lastOpOn (needle value : Bytes) (ops : WriteBatch) :
    match WriteBatch.lastOpOn ops needle with
    | none => CBatchScanner.Iterate needle ops (false, value, false) = (false, value, false)
    | some (.Put _ v) => CBatchScanner.Iterate needle ops (false, value, false) = (true, v, false)
    | some (.Delete _) =>
      ∃ v, CBatchScanner.Iterate needle ops (false, value, false) = (true, v, true) := by
  induction ops using List.reverseRecOn with
  | nil => simp [WriteBatch.lastOpOn, CBatchScanner.Iterate]
  | append_singleton ops op ih =>
    rw [lastOpOn_append, Iterate_append]
    cases op with
    | Put k v =>
      by_cases h : k = needle
      · simp [BatchOp.key, h, CBatchScanner.Iterate]
      · simp only [BatchOp.key, h, if_false, CBatchScanner.Iterate]
        exact ih
    | Delete k =>
      by_cases h : k = needle
      · simp [BatchOp.key, h, CBatchScanner.Iterate]
      · simp only [BatchOp.key, h, if_false, CBatchScanner.Iterate]
        exact ih

/-- C11: with an Active batch whose replay succeeds, `CLevelDB::ScanBatch` reports the last
    operation recorded for the key: found, not deleted and the put value after a put; found and
    deleted after a delete; not found, not deleted and the value output untouched when the batch
    holds no operation on the key.  After a write of `v2` under the key inside the transaction
    it reports found with `v2`. -/
theorem ScanBatch_reports_last_op (b : Backend) (db : CLevelDB) (batch : WriteBatch)
    (key value : Bytes) (deleted : Bool) (pdb : LevelStore) (v2 : Bytes)
    (hb : db.activeBatch = some batch) (hok : b.iterate_ok = true) :
    (match WriteBatch.lastOpOn batch key with
      | some (.Put _ v) => CLevelDB.ScanBatch b db key value deleted = .ret (true, v, false)
      | some (.Delete _) => ∃ v, CLevelDB.ScanBatch b db key value deleted = .ret (true, v, true)
      | none => CLevelDB.ScanBatch b db key value deleted = .ret (false, value, false))
    ∧ CLevelDB.ScanBatch b (CLevelDB.Write db pdb key v2).2.1 key value deleted
        = .ret (true, v2, false) := by
  constructor
  · have h := Iterate_lastOpOn key value batch
    simp only [CLevelDB.ScanBatch, hb, hok]
    cases hl : WriteBatch.lastOpOn batch key with
    | none => simpa [hl] using h
    | some op =>
      cases op with
      | Put k v => simpa [hl] using h
      | Delete k => simpa [hl] using h
  · have h := Iterate_lastOpOn key value (batch ++ [.Put key v2])
    rw [lastOpOn_append] at h
    simpa [CLevelDB.ScanBatch, CLevelDB.Write, hb, hok, BatchOp.key] using h

/-- C11 at a batch that puts `[1]`, deletes `[1]`, and puts `[3]`: key `[1]` is reported deleted,
    key `[3]` found, key `[5]` absent, and a write of `[7]` under `[1]` is seen at once. -/
theorem ScanBatch_reports_last_op_witness :
    WriteBatch.lastOpOn [.Put [1] [2], .Delete [1], .Put [3] [4]] [1] = some (.Delete [1])
    ∧ CLevelDB.ScanBatch {} { sampleLevelDB with
          activeBatch := some [.Put [1] [2], .Delete [1], .Put [3] [4]] } [1] [9] false
        = .ret (true, [2], true)
    ∧ CLevelDB.ScanBatch {} (CLevelDB.Write { sampleLevelDB with
          activeBatch := some [.Put [1] [2], .Delete [1], .Put [3] [4]] } [] [1] [7]).2.1 [1] [9] false
        = .ret (true, [7], false) :=
  ⟨by decide, by decide,
    (ScanBatch_reports_last_op {} { sampleLevelDB with
      activeBatch := some [.Put [1] [2], .Delete [1], .Put [3] [4]] }
      [.Put [1] [2], .Delete [1], .Put [3] [4]] [1] [9] false [] [7] rfl rfl).2⟩

/-! ## `IDB::ReadAtCursor` on a LevelDB iterator -/

/-- Every call on an exhausted LevelDB iterator reports `DB_NOTFOUND` and keeps the buffers. -/
theorem calls_exhausted (b : Backend) (bufs : List (Bytes × Bytes)) (w : World) :
    IDB.ReadAtCursor.calls b (.ldb { rest := [] }) bufs w
      = bufs.map (fun kv => (DB_NOTFOUND, kv.1, kv.2)) := by
  induction bufs generalizing w with
  | nil => rfl
  | cons kv bufs ih =>
    obtain ⟨k, v⟩ := kv
    simp [IDB.ReadAtCursor.calls, IDB.ReadAtCursor, IDB.ReadAtCursor.ldb, ih]

/-- C12: once `IDB::ReadAtCursor` has returned `DB_NOTFOUND` on a LevelDB iterator, every later
    call on that iterator returns `DB_NOTFOUND` and leaves the caller's key and value buffers
    as they were. -/
theorem ReadAtCursor_notfound_stays (b : Backend) (ite : LevelIterator) (ssKey ssValue : Bytes)
    (w : World) (ite1 : DbIterator) (ssKey1 ssValue1 : Bytes) (w1 : World)
    (h : IDB.ReadAtCursor b (.ldb ite) ssKey ssValue w
          = (.ret (DB_NOTFOUND, ite1, ssKey1, ssValue1), w1))
    (bufs : List (Bytes × Bytes)) (w2 : World) :
    IDB.ReadAtCursor.calls b ite1 bufs w2 = bufs.map (fun kv => (DB_NOTFOUND, kv.1, kv.2)) := by
  have hnf : (0 : Int) ≠ DB_NOTFOUND := by decide
  have h1 : ite1 = .ldb { rest := [] } := by
    obtain ⟨rest⟩ := ite
    cases rest with
    | nil =>
      simp [IDB.ReadAtCursor, IDB.ReadAtCursor.ldb] at h
      exact h.1.1.symm
    | cons r rest =>
      obtain ⟨k, v⟩ := r
      cases rest with
      | nil =>
        simp [IDB.ReadAtCursor, IDB.ReadAtCursor.ldb] at h
        exact h.1.1.symm
      | cons r2 rest =>
        simp [IDB.ReadAtCursor, IDB.ReadAtCursor.ldb, hnf] at h
  rw [h1]
  exact calls_exhausted b bufs w2

/-- C12 on an iterator standing on its last record: the call that reads it reports
    `DB_NOTFOUND`, and so do the two calls after it, with their buffers kept. -/
theorem ReadAtCursor_notfound_stays_witness :
    IDB.ReadAtCursor {} (.ldb { rest := [([9], [8])] }) [] [] sampleWorld
        = (.ret (DB_NOTFOUND, .ldb { rest := [] }, [9], [8]), sampleWorld)
    ∧ IDB.ReadAtCursor.calls {} (.ldb { rest := [] }) [([1], [2]), ([3], [4])] sampleWorld
        = [(DB_NOTFOUND, [1], [2]), (DB_NOTFOUND, [3], [4])] :=
  ⟨by decide,
    ReadAtCursor_notfound_stays {} { rest := [([9], [8])] } [] [] sampleWorld
      (.ldb { rest := [] }) [9] [8] sampleWorld (by decide) [([1], [2]), ([3], [4])] sampleWorld⟩

/-! ## The `CDB` constructor and the version record -/

/-- `CDBEnv::Create` touches no file. -/
theorem Create_files (b : Backend) (retry_counter : Int) (strFile : String) (nFlags : Nat)
    (w : World) : (CDBEnv.Create b retry_counter strFile nFlags w).2.files = w.files := by
  obtain ⟨l0, -, -, o3, -⟩ := Open_frame b w.dataDir w
  unfold CDBEnv.Create
  generalize CDBEnv.Open b w.dataDir w = op at o3
  obtain ⟨ok, w1⟩ := op
  simp only at o3
  cases ok with
  | false => simp only; split <;> exact o3
  | true =>
    simp only
    split
    · exact o3
    · by_cases ha : b.db_alloc = true
      · simp only [ha, Bool.not_true, Bool.false_eq_true, if_false]
        generalize hw4 : World.setDb _ strFile (some _) = w4
        have w4files : w4.files = w.files := by rw [← hw4]; simp [World.setDb, World.log, o3]
        obtain ⟨lr, r1, -⟩ := Create_retry_frame b retry_counter
          (if w4.bitdb.fMockDb = true then none else some strFile) nFlags retry_counter.toNat 0 w4
        generalize CDBEnv.Create.retry b retry_counter
          (if w4.bitdb.fMockDb = true then none else some strFile) nFlags 0 retry_counter.toNat w4
            = rt at r1
        obtain ⟨res, w5⟩ := rt
        simp only at r1
        cases res with
        | none => simp [r1, w4files]
        | some ret =>
          simp only
          have : (w5.setDb strFile none).files = w.files := by simp [World.setDb, r1, w4files]
          split <;> simpa using this
      · simp [ha, World.log, o3]

/-- An `int` written to a stream is read back. -/
theorem unserializeInt_serializeInt (n : Nat) (h : n < 2 ^ 31) :
    unserializeInt (serializeInt n) = some (n : Int) := by
  simp only [serializeInt, unserializeInt]
  have e : n % 256 + 256 * (n / 256 % 256) + 65536 * (n / 65536 % 256)
      + 16777216 * (n / 16777216 % 256) = n := by omega
  rw [e]
  have h2 : n < 2147483648 := by omega
  simp [h2]

/-- A record inserted under a new key is found under it. -/
theorem lookup_insertRecord (f : DbFile) (k v : Bytes) (h : k ∉ f.map Prod.fst) :
    (insertRecord f k v).lookup k = some v := by
  induction f with
  | nil => simp [insertRecord, List.lookup]
  | cons r f ih =>
    obtain ⟨k', v'⟩ := r
    simp only [List.map_cons, List.mem_cons, not_or] at h
    unfold insertRecord
    split
    · simp [List.lookup]
    · have hne : (k == k') = false := by simpa using h.1
      simp [List.lookup, hne, ih h.2]


/-- Lookup of the key just assigned. -/
theorem mapFind_mapSet_self {β : Type} (m : StdMap β) (k : String) (v : β) :
    mapFind (mapSet m k v) k = some v := by
  rw [mapFind_mapSet]; simp

/-- C13: constructing a `CDB` in create mode (mode string with `c`) on a file without a version
    record, when the registry hands out a handle, writes the version record with
    `CLIENT_VERSION` by itself (one put, after the calls of `Create`), whatever the read-only
    flag derived from the mode string is, and leaves that flag as derived; `ReadVersion` on the
    new handle then yields `CLIENT_VERSION`. -/
theorem construct_writes_version (b : Backend) (retry_counter : Int) (CLIENT_VERSION : Nat)
    (pszFile pszMode : String) (w : World) (pdb : Db)
    (hc : pszMode.toList.contains 'c' = true)
    (hv : versionKey ∉ (w.records pszFile).map Prod.fst)
    (hver : CLIENT_VERSION < 2 ^ 31)
    (hcr : (CDBEnv.Create b retry_counter pszFile (DB_THREAD + DB_CREATE) w).1 = .ret (some pdb)) :
    ∃ db w2, CDB.construct b retry_counter CLIENT_VERSION pszFile pszMode w = (.ret db, w2)
      ∧ db.pdb = some pdb
      ∧ db.fReadOnly = (!pszMode.toList.contains '+' && !pszMode.toList.contains 'w')
      ∧ w2.records pszFile = insertRecord (w.records pszFile) versionKey (serializeInt CLIENT_VERSION)
      ∧ w2.calls = (CDBEnv.Create b retry_counter pszFile (DB_THREAD + DB_CREATE) w).2.calls
          ++ [.db_put pszFile versionKey (serializeInt CLIENT_VERSION) 0]
      ∧ CDB.ReadVersion db w2 = (true, (CLIENT_VERSION : Int)) := by
  have hf := Create_files b retry_counter pszFile (DB_THREAD + DB_CREATE) w
  unfold CDB.construct
  simp only [hc, if_true]
  generalize CDBEnv.Create b retry_counter pszFile (DB_THREAD + DB_CREATE) w = cr at hcr hf
  obtain ⟨o, w1⟩ := cr
  simp only at hcr hf
  subst hcr
  have hrec : w1.records pszFile = w.records pszFile := by simp [World.records, hf]
  have hd : decide (versionKey ∈ (w.records pszFile).map Prod.fst) = false := by simpa using hv
  simp only [CDB.Exists, Option.isSome_some, hrec, hd, Bool.true_and, Bool.not_false, if_true,
    CDB.WriteVersion, CDB.Write, hv, if_false, Bool.false_eq_true]
  refine ⟨_, _, rfl, rfl, rfl, ?_, rfl, ?_⟩
  · simp [World.records, mapFind_mapSet_self]
  · have hl := lookup_insertRecord (w.records pszFile) versionKey (serializeInt CLIENT_VERSION) hv
    simp only [World.records] at hl
    simp [CDB.ReadVersion, CDB.Read, World.records, mapFind_mapSet_self, hl,
      unserializeInt_serializeInt _ hver]


/-- C13 for mode `"cr"` (create, read-only) on a node without `wallet.dat`: the handle is
    read-only, and the file holds the version record afterwards. -/
theorem construct_writes_version_witness :
    "cr".toList.contains 'c' = true
    ∧ versionKey ∉ (freshWorld.records "wallet.dat").map Prod.fst
    ∧ (CDB.construct {} 10 70000 "wallet.dat" "cr" freshWorld).1
        = .ret { pdb := some { strFile := "wallet.dat", nFlags := 33 }, strFile := "wallet.dat",
                 activeTxn := none, fReadOnly := true }
    ∧ ∃ db w2, CDB.construct {} 10 70000 "wallet.dat" "cr" freshWorld = (.ret db, w2)
      ∧ db.pdb = some { strFile := "wallet.dat", nFlags := 33 }
      ∧ db.fReadOnly = (!"cr".toList.contains '+' && !"cr".toList.contains 'w')
      ∧ w2.records "wallet.dat"
          = insertRecord (freshWorld.records "wallet.dat") versionKey (serializeInt 70000)
      ∧ w2.calls = (CDBEnv.Create {} 10 "wallet.dat" (DB_THREAD + DB_CREATE) freshWorld).2.calls
          ++ [.db_put "wallet.dat" versionKey (serializeInt 70000) 0]
      ∧ CDB.ReadVersion db w2 = (true, ((70000 : Nat) : Int)) :=
  ⟨by decide, by decide, by decide,
    construct_writes_version {} 10 70000 "wallet.dat" "cr" freshWorld
      { strFile := "wallet.dat", nFlags := 33 } (by decide) (by decide) (by norm_num) (by decide)⟩

/-! ## The polling loop of `CDB::Rewrite` -/

/-- C14: `CDB::Rewrite` keeps polling while the shutdown flag is clear and the file is in use.
    At the first poll that finds the shutdown flag set it returns `false` with the state as
    polled; at the first poll that finds the flag clear and the use count absent or zero it runs
    the compaction on that state.  Conversely every result of `Rewrite` arises in one of these
    two ways. -/
theorem Rewrite_polls (b : Backend) (rc : Int) (ver : Nat) (f : String) (pszSkip : Option Bytes)
    (pre : List World)
    (hpre : ∀ u ∈ pre, u.fShutdown = false ∧ u.bitdb.ExistsFileCount f = true
      ∧ u.bitdb.GetFileCount f ≠ 0) :
    CDB.Rewrite b rc ver f pszSkip pre = none
    ∧ (∀ w post, w.fShutdown = true →
        CDB.Rewrite b rc ver f pszSkip (pre ++ w :: post) = some (.ret false, w))
    ∧ (∀ w post, w.fShutdown = false →
        (w.bitdb.ExistsFileCount f = false ∨ w.bitdb.GetFileCount f = 0) →
        CDB.Rewrite b rc ver f pszSkip (pre ++ w :: post)
          = CDB.Rewrite.compact b rc ver f pszSkip w)
    ∧ (∀ polls r, CDB.Rewrite b rc ver f pszSkip polls = some r →
        ∃ pre1 w post, polls = pre1 ++ w :: post
          ∧ (∀ u ∈ pre1, u.fShutdown = false ∧ u.bitdb.ExistsFileCount f = true
              ∧ u.bitdb.GetFileCount f ≠ 0)
          ∧ ((w.fShutdown = true ∧ r = (.ret false, w))
            ∨ (w.fShutdown = false
                ∧ (w.bitdb.ExistsFileCount f = false ∨ w.bitdb.GetFileCount f = 0)
                ∧ CDB.Rewrite.compact b rc ver f pszSkip w = some r))) := by
  refine ⟨?_, ?_, ?_, ?_⟩
  · induction pre with
    | nil => rfl
    | cons u pre ih =>
      obtain ⟨h1, h2, h3⟩ := hpre u (List.mem_cons_self _ _)
      simp only [CDB.Rewrite, h1, h2, h3, Bool.false_eq_true, if_false, Bool.not_true,
        Bool.false_or, decide_False]
      exact ih (fun v hv => hpre v (List.mem_cons_of_mem _ hv))
  · intro w post hw
    induction pre with
    | nil => simp [CDB.Rewrite, hw]
    | cons u pre ih =>
      obtain ⟨h1, h2, h3⟩ := hpre u (List.mem_cons_self _ _)
      simp only [List.cons_append, CDB.Rewrite, h1, h2, h3, Bool.false_eq_true, if_false,
        Bool.not_true, Bool.false_or, decide_False]
      exact ih (fun v hv => hpre v (List.mem_cons_of_mem _ hv))
  · intro w post hw he
    induction pre with
    | nil =>
      rcases he with he | he <;> simp [CDB.Rewrite, hw, he]
    | cons u pre ih =>
      obtain ⟨h1, h2, h3⟩ := hpre u (List.mem_cons_self _ _)
      simp only [List.cons_append, CDB.Rewrite, h1, h2, h3, Bool.false_eq_true, if_false,
        Bool.not_true, Bool.false_or, decide_False]
      exact ih (fun v hv => hpre v (List.mem_cons_of_mem _ hv))
  · intro polls
    induction polls with
    | nil => intro r h; simp [CDB.Rewrite] at h
    | cons u polls ih =>
      intro r h
      by_cases h1 : u.fShutdown = true
      · refine ⟨[], u, polls, rfl, by simp, Or.inl ⟨h1, ?_⟩⟩
        simp [CDB.Rewrite, h1] at h
        exact h.symm
      · have h1f : u.fShutdown = false := by simpa using h1
        by_cases h2 : u.bitdb.ExistsFileCount f = false ∨ u.bitdb.GetFileCount f = 0
        · refine ⟨[], u, polls, rfl, by simp, Or.inr ⟨h1f, h2, ?_⟩⟩
          rcases h2 with h2 | h2 <;> simpa [CDB.Rewrite, h1f, h2] using h
        · simp only [not_or, Bool.not_eq_false] at h2
          simp only [CDB.Rewrite, h1f, h2.1, h2.2, Bool.false_eq_true, if_false, Bool.not_true,
            Bool.false_or, decide_False] at h
          obtain ⟨pre1, w, post, e1, e2, e3⟩ := ih r h
          refine ⟨u :: pre1, w, post, by simp [e1], ?_, e3⟩
          intro v hv
          rcases List.mem_cons.mp hv with hv | hv
          · rw [hv]; exact ⟨h1f, h2.1, h2.2⟩
          · exact e2 v hv


/-- C14 on `wallet.dat`: a poll that finds the file held keeps `Rewrite` polling; when the next
    poll finds the shutdown flag set, `Rewrite` returns `false` and the state is as polled. -/
theorem Rewrite_polls_witness :
    (∀ u ∈ [sampleWorld], u.fShutdown = false ∧ u.bitdb.ExistsFileCount "wallet.dat" = true
      ∧ u.bitdb.GetFileCount "wallet.dat" ≠ 0)
    ∧ CDB.Rewrite {} 10 70000 "wallet.dat" none [sampleWorld] = none
    ∧ CDB.Rewrite {} 10 70000 "wallet.dat" none
        ([sampleWorld] ++ { sampleWorld with fShutdown := true } :: [])
        = some (.ret false, { sampleWorld with fShutdown := true }) :=
  ⟨by decide,
    (Rewrite_polls {} 10 70000 "wallet.dat" none [sampleWorld] (by decide)).1,
    (Rewrite_polls {} 10 70000 "wallet.dat" none [sampleWorld] (by decide)).2.1
      { sampleWorld with fShutdown := true } [] rfl⟩

/-! ## `CDBEnv::RemoveDb` -/

/-- C15, as the code has it: `CDBEnv::RemoveDb` never looks at the use count.  It closes the
    cached handle of the file if there is one, leaves the handle slot null, calls `dbremove`,
    returns whether that call returned `0` (the file is then gone, otherwise all files are as
    before), and leaves the use-count table as it was; the result and the effect on handle
    cache and files are the same whatever the use-count table holds. -/
theorem RemoveDb_ignores_use_count (b : Backend) (strFile : String) (w : World) :
    (CDBEnv.RemoveDb b strFile w).1 = decide (b.env_dbremove = 0)
    ∧ mapFind (CDBEnv.RemoveDb b strFile w).2.bitdb.mapDb strFile = some none
    ∧ (CDBEnv.RemoveDb b strFile w).2.bitdb.mapFileUseCount = w.bitdb.mapFileUseCount
    ∧ (CDBEnv.RemoveDb b strFile w).2.files
        = (if b.env_dbremove = 0 then mapErase w.files strFile else w.files)
    ∧ (∀ d, mapFind w.bitdb.mapDb strFile = some (some d) →
        DbCall.db_close strFile ∈ (CDBEnv.RemoveDb b strFile w).2.calls)
    ∧ DbCall.env_dbremove strFile b.env_dbremove ∈ (CDBEnv.RemoveDb b strFile w).2.calls
    ∧ ∀ m : StdMap Int,
        (CDBEnv.RemoveDb b strFile { w with bitdb := { w.bitdb with mapFileUseCount := m } }).1
          = (CDBEnv.RemoveDb b strFile w).1
        ∧ (CDBEnv.RemoveDb b strFile
            { w with bitdb := { w.bitdb with mapFileUseCount := m } }).2.bitdb.mapDb
          = (CDBEnv.RemoveDb b strFile w).2.bitdb.mapDb
        ∧ (CDBEnv.RemoveDb b strFile
            { w with bitdb := { w.bitdb with mapFileUseCount := m } }).2.files
          = (CDBEnv.RemoveDb b strFile w).2.files := by
  obtain ⟨-, c2, -, -, -, c6, -, c8⟩ := CloseDb_frame strFile w
  have hm := mapFind_CloseDb strFile w strFile
  simp only [if_true] at hm
  have hind : ∀ m : StdMap Int,
      (CDBEnv.CloseDb strFile { w with bitdb := { w.bitdb with mapFileUseCount := m } }).bitdb.mapDb
        = (CDBEnv.CloseDb strFile w).bitdb.mapDb
      ∧ (CDBEnv.CloseDb strFile { w with bitdb := { w.bitdb with mapFileUseCount := m } }).files
        = (CDBEnv.CloseDb strFile w).files := by
    intro m
    unfold CDBEnv.CloseDb
    simp only
    split <;> simp [World.setDb, World.log]
  unfold CDBEnv.RemoveDb
  by_cases h : b.env_dbremove = 0
  · simp only [h, if_true, decide_True, World.log, c2, c6, hm, true_and]
    refine ⟨fun d hd => ?_, by simp, fun m => ⟨(hind m).1, by rw [(hind m).2, c2]⟩⟩
    exact List.mem_append_left _ (c8 d hd)
  · simp only [h, if_false, decide_False, World.log, c2, c6, hm, true_and]
    refine ⟨fun d hd => ?_, by simp, fun m => ⟨(hind m).1, (hind m).2.trans c2⟩⟩
    exact List.mem_append_left _ (c8 d hd)

/-- C15 on `wallet.dat`, held once with a cached handle, when `dbremove` fails (code 2):
    the handle is closed all the same, `RemoveDb` returns `false`, and the file stays. -/
theorem RemoveDb_ignores_use_count_witness :
    mapFind sampleWorld.bitdb.mapDb "wallet.dat"
        = some (some { strFile := "wallet.dat", nFlags := 32 })
    ∧ (CDBEnv.RemoveDb { env_dbremove := 2 } "wallet.dat" sampleWorld).1 = false
    ∧ DbCall.db_close "wallet.dat"
        ∈ (CDBEnv.RemoveDb { env_dbremove := 2 } "wallet.dat" sampleWorld).2.calls
    ∧ (CDBEnv.RemoveDb { env_dbremove := 2 } "wallet.dat" sampleWorld).2.files = sampleWorld.files :=
  ⟨by decide, by decide,
    (RemoveDb_ignores_use_count { env_dbremove := 2 } "wallet.dat" sampleWorld).2.2.2.2.1
      { strFile := "wallet.dat", nFlags := 32 } (by decide),
    by decide⟩

/-- C15 fails as stated: `wallet.dat` is held once (use count 1), and `RemoveDb` still closes
    its cached handle and removes the file. -/
theorem RemoveDb_in_use_counterexample :
    sampleWorld.bitdb.GetFileCount "wallet.dat" = 1
    ∧ mapFind sampleWorld.bitdb.mapDb "wallet.dat"
        = some (some { strFile := "wallet.dat", nFlags := 32 })
    ∧ mapFind sampleWorld.files "wallet.dat" = some [([97], [1]), ([98], [2])]
    ∧ (CDBEnv.RemoveDb {} "wallet.dat" sampleWorld).1 = true
    ∧ mapFind (CDBEnv.RemoveDb {} "wallet.dat" sampleWorld).2.bitdb.mapDb "wallet.dat" = some none
    ∧ mapFind (CDBEnv.RemoveDb {} "wallet.dat" sampleWorld).2.files "wallet.dat" = none
    ∧ (CDBEnv.RemoveDb {} "wallet.dat" sampleWorld).2.calls
        = [.db_close "wallet.dat", .env_dbremove "wallet.dat" 0] :=
  ⟨by decide, by decide, by decide, by decide, by decide, by decide, by decide⟩


/-! ## Cached handles and use counts -/

/-- The invariant reads only the two maps. -/
theorem tracked_congr (e1 e2 : CDBEnv) (h1 : e2.mapFileUseCount = e1.mapFileUseCount)
    (h2 : e2.mapDb = e1.mapDb) (h : e1.handlesTracked) : e2.handlesTracked := by
  unfold CDBEnv.handlesTracked at *
  rw [h1, h2]; exact h

/-- `IncUseCount` keeps the invariant and leaves the file tracked. -/
theorem tracked_Inc (env : CDBEnv) (f : String) (h : env.handlesTracked) :
    (env.IncUseCount f).handlesTracked
    ∧ (mapFind (env.IncUseCount f).mapFileUseCount f).isSome = true := by
  unfold CDBEnv.handlesTracked CDBEnv.IncUseCount at *
  simp only [mapFind_mapSet]
  refine ⟨⟨fun g n hg => ?_, fun g d hg => ?_⟩, by simp⟩
  · by_cases e : g = f
    · simp only [e, if_true, Option.some.injEq] at hg
      cases hm : mapFind env.mapFileUseCount f with
      | none => simp [hm] at hg; omega
      | some m =>
        have := h.1 f m hm
        simp [hm] at hg; omega
    · simp only [e, if_false] at hg
      exact h.1 g n hg
  · by_cases e : g = f
    · simp [e]
    · simp only [e, if_false]
      exact h.2 g d hg

/-- Clearing a handle slot keeps the invariant. -/
theorem tracked_setNone (env : CDBEnv) (f : String) (h : env.handlesTracked) :
    ({ env with mapDb := mapSet env.mapDb f none } : CDBEnv).handlesTracked := by
  unfold CDBEnv.handlesTracked at *
  simp only [mapFind_mapSet]
  refine ⟨h.1, fun g d hg => ?_⟩
  by_cases e : g = f
  · simp [e] at hg
  · simp only [e, if_false] at hg
    exact h.2 g d hg

/-- Caching a handle for a tracked file keeps the invariant. -/
theorem tracked_setSome (env : CDBEnv) (f : String) (pdb : Db) (h : env.handlesTracked)
    (hf : (mapFind env.mapFileUseCount f).isSome = true) :
    ({ env with mapDb := mapSet env.mapDb f (some pdb) } : CDBEnv).handlesTracked := by
  unfold CDBEnv.handlesTracked at *
  simp only [mapFind_mapSet]
  refine ⟨h.1, fun g d hg => ?_⟩
  by_cases e : g = f
  · rw [e]; exact hf
  · simp only [e, if_false] at hg
    exact h.2 g d hg

/-- `getDb` keeps the invariant and the use-count table. -/
theorem tracked_getDb (env : CDBEnv) (f : String) (h : env.handlesTracked) :
    (env.getDb f).2.handlesTracked
    ∧ (env.getDb f).2.mapFileUseCount = env.mapFileUseCount
    ∧ (∀ d, (env.getDb f).1 = some d → mapFind (env.getDb f).2.mapDb f = some (some d)) := by
  unfold CDBEnv.getDb
  cases hm : mapFind env.mapDb f with
  | none => exact ⟨tracked_setNone env f h, rfl, fun d hd => by simp at hd⟩
  | some slot => exact ⟨h, rfl, fun d hd => by simp at hd; simp [hm, hd]⟩

/-- A `DecUseCount` that returns keeps the invariant. -/
theorem tracked_Dec (env env1 : CDBEnv) (f : String) (h : env.handlesTracked)
    (hd : env.DecUseCount f = .ret env1) : env1.handlesTracked := by
  unfold CDBEnv.DecUseCount at hd
  simp only at hd
  split at hd
  · simp at hd
  · rename_i hn
    simp only [Outcome.ret.injEq] at hd
    subst hd
    unfold CDBEnv.handlesTracked at *
    simp only [mapFind_mapSet]
    refine ⟨fun g n hg => ?_, fun g d hg => ?_⟩
    · by_cases e : g = f
      · simp only [e, if_true, Option.some.injEq] at hg
        omega
      · simp only [e, if_false] at hg
        exact h.1 g n hg
    · by_cases e : g = f
      · simp [e]
      · simp only [e, if_false]
        exact h.2 g d hg

/-- Erasing the use-count entry of a file without cached handle keeps the invariant. -/
theorem tracked_erase (env : CDBEnv) (f : String) (h : env.handlesTracked)
    (hf : mapFind env.mapDb f = some none) :
    ({ env with mapFileUseCount := mapErase env.mapFileUseCount f } : CDBEnv).handlesTracked := by
  unfold CDBEnv.handlesTracked at *
  simp only [mapFind_mapErase]
  refine ⟨fun g n hg => ?_, fun g d hg => ?_⟩
  · by_cases e : g = f
    · simp [e] at hg
    · simp only [e, if_false] at hg
      exact h.1 g n hg
  · by_cases e : g = f
    · rw [e, hf] at hg; simp at hg
    · simp only [e, if_false]
      exact h.2 g d hg

/-- `CDBEnv::CloseDb` keeps the invariant. -/
theorem tracked_CloseDb (f : String) (w : World) (h : w.bitdb.handlesTracked) :
    (CDBEnv.CloseDb f w).bitdb.handlesTracked := by
  unfold CDBEnv.CloseDb
  split
  · exact tracked_setNone w.bitdb f h
  · exact h
  · exact tracked_setNone w.bitdb f h

/-- `CDB::Close` keeps the invariant. -/
theorem tracked_Close (b : Backend) (db : CDB) (w : World) (h : w.bitdb.handlesTracked) :
    (CDB.Close b db w).2.2.bitdb.handlesTracked := by
  unfold CDB.Close
  cases db.pdb with
  | none => exact h
  | some d =>
    simp only
    generalize hw2 : CDBEnv.TxnCheckPoint _ _ _ = w2
    have hb : w2.bitdb = w.bitdb := by
      rw [← hw2]
      cases db.activeTxn <;> rfl
    cases hd : w2.bitdb.DecUseCount db.strFile with
    | ret env =>
      simp only
      rw [hb] at hd
      exact tracked_Dec _ _ _ h hd
    | throw e => simp only; rw [hb]; exact h
    | abort => simp only; rw [hb]; exact h
    | crash => simp only; rw [hb]; exact h

/-- `CDBEnv::EnvShutdown` keeps the invariant. -/
theorem tracked_EnvShutdown (b : Backend) (w : World) (h : w.bitdb.handlesTracked) :
    (CDBEnv.EnvShutdown b w).2.bitdb.handlesTracked := by
  unfold CDBEnv.EnvShutdown
  by_cases h1 : w.bitdb.fDbEnvInit = true
  · by_cases h2 : w.bitdb.fMockDb = true
    · simp only [h1, h2, World.log, Bool.not_true, Bool.false_eq_true, if_false]
      exact tracked_congr w.bitdb _ rfl rfl h
    · by_cases h3 : b.env_remove > 0
      · simp only [h1, h2, h3, World.log, Bool.not_true, Bool.false_eq_true, if_false,
          Bool.not_false, if_true]
        exact tracked_congr w.bitdb _ rfl rfl h
      · simp only [h1, h2, h3, World.log, Bool.not_true, Bool.false_eq_true, if_false,
          Bool.not_false, if_true]
        exact tracked_congr w.bitdb _ rfl rfl h
  · simp only [h1, Bool.not_false, if_true]
    exact h

/-- The loop of `CDBEnv::Flush` keeps the invariant. -/
theorem tracked_Flush_loop (l : List (String × Int)) :
    ∀ w : World, w.bitdb.handlesTracked → (CDBEnv.Flush.loop l w).2.bitdb.handlesTracked := by
  induction l with
  | nil => intro w h; exact h
  | cons e l ih =>
    obtain ⟨f, n⟩ := e
    intro w h
    unfold CDBEnv.Flush.loop
    by_cases hn : n = 0
    · simp only [hn, if_true]
      have h1 := tracked_CloseDb f w h
      have h1f := mapFind_CloseDb f w f
      simp only [if_true] at h1f
      cases hc : IsChainFile f with
      | ret fChain =>
        simp only
        apply ih
        generalize hw3 : (if (!fChain || ((CDBEnv.CloseDb f w).log (.txn_checkpoint 0 0)).bitdb.fDetachDB) = true
          then (if (!((CDBEnv.CloseDb f w).log (.txn_checkpoint 0 0)).bitdb.fMockDb) = true
            then ((CDBEnv.CloseDb f w).log (.txn_checkpoint 0 0)).log (.lsn_reset f)
            else (CDBEnv.CloseDb f w).log (.txn_checkpoint 0 0))
          else (CDBEnv.CloseDb f w).log (.txn_checkpoint 0 0)) = w3
        have hb : w3.bitdb = (CDBEnv.CloseDb f w).bitdb := by
          rw [← hw3]
          split
          · split <;> rfl
          · rfl
        simp only
        rw [hb]
        exact tracked_erase _ f h1 h1f
      | throw e => exact h1
      | abort => exact h1
      | crash => exact h1
    · simp only [hn, if_false]
      exact ih w h

/-- `CDBEnv::Flush` keeps the invariant. -/
theorem tracked_Flush (b : Backend) (fs : Bool) (w : World) (h : w.bitdb.handlesTracked) :
    (CDBEnv.Flush b fs w).2.bitdb.handlesTracked := by
  unfold CDBEnv.Flush
  by_cases h1 : w.bitdb.fDbEnvInit = true
  · simp only [h1, Bool.not_true, Bool.false_eq_true, if_false]
    have hl := tracked_Flush_loop w.bitdb.mapFileUseCount w h
    generalize CDBEnv.Flush.loop w.bitdb.mapFileUseCount w = r at hl
    obtain ⟨o, w1⟩ := r
    cases o with
    | ret u =>
      simp only
      split
      · split
        · exact tracked_EnvShutdown b _ (tracked_congr w1.bitdb _ rfl rfl hl)
        · exact hl
      · exact hl
    | throw e => exact hl
    | abort => exact hl
    | crash => exact hl
  · simp only [h1, Bool.not_false, if_true]
    exact h

/-- `CDBEnv::Create` keeps the invariant, on every path. -/
theorem tracked_Create (b : Backend) (rc : Int) (f : String) (nFlags : Nat) (w : World)
    (h : w.bitdb.handlesTracked) : (CDBEnv.Create b rc f nFlags w).2.bitdb.handlesTracked := by
  obtain ⟨l0, -, -, -, -, -, o6, o7, -⟩ := Open_frame b w.dataDir w
  unfold CDBEnv.Create
  generalize CDBEnv.Open b w.dataDir w = op at o6 o7
  obtain ⟨ok, w1⟩ := op
  simp only at o6 o7
  have h1 : w1.bitdb.handlesTracked := tracked_congr w.bitdb _ o6 o7 h
  cases ok with
  | false => simp only; split <;> exact h1
  | true =>
    simp only
    obtain ⟨i1, i2⟩ := tracked_Inc w1.bitdb f h1
    obtain ⟨g1, g2, g3⟩ := tracked_getDb (w1.bitdb.IncUseCount f) f i1
    have g4 : (mapFind ((w1.bitdb.IncUseCount f).getDb f).2.mapFileUseCount f).isSome = true := by
      rw [g2]; exact i2
    split
    · exact g1
    · by_cases ha : b.db_alloc = true
      · simp only [ha, Bool.not_true, Bool.false_eq_true, if_false]
        generalize hw4 : World.setDb _ f (some _) = w4
        have w4t : w4.bitdb.handlesTracked := by
          rw [← hw4]
          exact tracked_setSome _ f _ g1 g4
        obtain ⟨lr, r1, -⟩ := Create_retry_frame b rc
          (if w4.bitdb.fMockDb = true then none else some f) nFlags rc.toNat 0 w4
        generalize CDBEnv.Create.retry b rc
          (if w4.bitdb.fMockDb = true then none else some f) nFlags 0 rc.toNat w4 = rt at r1
        obtain ⟨res, w5⟩ := rt
        simp only at r1
        have w5t : w5.bitdb.handlesTracked := by rw [r1]; exact w4t
        cases res with
        | none => exact w5t
        | some ret =>
          simp only
          have w6t : (w5.setDb f none).bitdb.handlesTracked := tracked_setNone _ f w5t
          cases hd : (w5.setDb f none).bitdb.DecUseCount f with
          | ret env => exact tracked_Dec _ _ _ w6t hd
          | throw e => exact w6t
          | abort => exact w6t
          | crash => exact w6t
      · simp only [ha, Bool.not_false, if_true]
        exact g1

/-- Every registry call keeps the invariant. -/
theorem tracked_run (b : Backend) (rc : Int) (c : RegistryCall) (w : World)
    (h : w.bitdb.handlesTracked) : (c.run b rc w).2.bitdb.handlesTracked := by
  cases c with
  | Create f n =>
    have ht := tracked_Create b rc f n w h
    simp only [RegistryCall.run]
    generalize CDBEnv.Create b rc f n w = r at ht
    obtain ⟨o, w1⟩ := r
    cases o <;> exact ht
  | Close db => exact tracked_Close b db w h
  | CloseDb f => exact tracked_CloseDb f w h
  | Flush fs => exact tracked_Flush b fs w h

/-- Every sequence of registry calls keeps the invariant. -/
theorem tracked_runAll (rc : Int) (calls : List (Backend × RegistryCall)) :
    ∀ w : World, w.bitdb.handlesTracked → (RegistryCall.runAll rc calls w).bitdb.handlesTracked := by
  induction calls with
  | nil => intro w h; exact h
  | cons bc calls ih =>
    obtain ⟨b, c⟩ := bc
    intro w h
    have h1 := tracked_run b rc c w h
    unfold RegistryCall.runAll
    generalize c.run b rc w = r at h1
    obtain ⟨o, w1⟩ := r
    cases o with
    | ret u => exact ih w1 h1
    | throw e => exact ih w1 h1
    | abort => exact h1
    | crash => exact h1

/-- C16, as the code has it: in every registry state reached from the empty registry by a
    sequence of `CDBEnv::Create`, `CDB::Close`, `CDBEnv::CloseDb` and `CDBEnv::Flush` calls,
    every file whose cached handle is non-null has an entry in the use-count table, and its use
    count is not negative. -/
theorem registry_handles_tracked (retry_counter : Int) (calls : List (Backend × RegistryCall))
    (w : World) (hdb : w.bitdb.mapDb = []) (hcount : w.bitdb.mapFileUseCount = [])
    (f : String) (d : Db)
    (hf : mapFind (RegistryCall.runAll retry_counter calls w).bitdb.mapDb f = some (some d)) :
    (RegistryCall.runAll retry_counter calls w).bitdb.ExistsFileCount f = true
    ∧ 0 ≤ (RegistryCall.runAll retry_counter calls w).bitdb.GetFileCount f := by
  have h0 : w.bitdb.handlesTracked := by
    unfold CDBEnv.handlesTracked
    rw [hdb, hcount]
    exact ⟨fun g n hg => by simp [mapFind] at hg, fun g d hg => by simp [mapFind] at hg⟩
  obtain ⟨t1, t2⟩ := tracked_runAll retry_counter calls w h0
  have h2 := t2 f d hf
  refine ⟨h2, ?_⟩
  unfold CDBEnv.GetFileCount
  cases hm : mapFind (RegistryCall.runAll retry_counter calls w).bitdb.mapFileUseCount f with
  | none => simp
  | some n => simpa using t1 f n hm

/-- C16 at `Create("wallet.dat")` followed by `Close`: the handle is still cached, the file is
    tracked. -/
theorem registry_handles_tracked_witness :
    freshWorld.bitdb.mapDb = [] ∧ freshWorld.bitdb.mapFileUseCount = []
    ∧ (RegistryCall.runAll 10 [({}, .Create "wallet.dat" 32), ({}, .Close sampleCDB)]
        freshWorld).bitdb.ExistsFileCount "wallet.dat" = true
    ∧ 0 ≤ (RegistryCall.runAll 10 [({}, .Create "wallet.dat" 32), ({}, .Close sampleCDB)]
        freshWorld).bitdb.GetFileCount "wallet.dat" :=
  ⟨rfl, rfl,
    registry_handles_tracked 10 [({}, .Create "wallet.dat" 32), ({}, .Close sampleCDB)]
      freshWorld rfl rfl "wallet.dat" { strFile := "wallet.dat", nFlags := 32 } (by decide)⟩

/-- C16 fails as stated: after `Create("wallet.dat")` and the `Close` of the handle obtained,
    the handle of `wallet.dat` is still cached (non-null) while its use count is `0`. -/
theorem registry_close_counterexample :
    mapFind (RegistryCall.runAll 10
        [({}, .Create "wallet.dat" 32),
         ({}, .Close { pdb := some { strFile := "wallet.dat", nFlags := 32 },
                       strFile := "wallet.dat", activeTxn := none, fReadOnly := false })]
        freshWorld).bitdb.mapDb "wallet.dat" = some (some { strFile := "wallet.dat", nFlags := 32 })
    ∧ (RegistryCall.runAll 10
        [({}, .Create "wallet.dat" 32),
         ({}, .Close { pdb := some { strFile := "wallet.dat", nFlags := 32 },
                       strFile := "wallet.dat", activeTxn := none, fReadOnly := false })]
        freshWorld).bitdb.GetFileCount "wallet.dat" = 0 :=
  ⟨by decide, by decide⟩


/-! ## `CDBEnv::Verify` and `CDBEnv::Salvage` -/

/-- `count` is zero exactly for the keys `find` does not find. -/
theorem mapCount_eq_zero_iff {β : Type} (m : StdMap β) (k : String) :
    mapCount m k = 0 ↔ mapFind m k = none := by
  induction m with
  | nil => simp [mapCount, mapFind]
  | cons e m ih =>
    obtain ⟨k', v⟩ := e
    by_cases h : k' = k
    · simp [mapCount, mapFind, h]
    · simp only [mapCount, mapFind, h, if_false] at ih ⊢
      simpa [List.filter_cons, h] using ih

/-- C17: when the asserted precondition holds (the use-count table has no entry for the file),
    `CDBEnv::Verify` returns `VERIFY_OK` exactly when `Db::verify` returns `0`, and then the
    callback is not run (the state is that after the verify call, whatever callback was given).
    When `Db::verify` fails, a supplied callback is applied once, to the file name and
    `fOnlyKeys = false`, and the result is `RECOVER_OK` if it reports success and
    `RECOVER_FAIL` if not; without a callback the result is `RECOVER_FAIL`. -/
theorem Verify_result (b : Backend) (strFile : String)
    (recoverFunc : Option (String → Bool → World → Bool × World)) (w : World)
    (hpre : mapCount w.bitdb.mapFileUseCount strFile = 0) :
    ((CDBEnv.Verify b strFile recoverFunc w).1 = .ret .VERIFY_OK ↔ b.db_verify = 0)
    ∧ (b.db_verify = 0 → CDBEnv.Verify b strFile recoverFunc w
          = (.ret .VERIFY_OK, w.log (.db_verify strFile 0 b.db_verify)))
    ∧ (b.db_verify ≠ 0 → ∀ fn, recoverFunc = some fn →
        CDBEnv.Verify b strFile recoverFunc w
          = (.ret (if (fn strFile false (w.log (.db_verify strFile 0 b.db_verify))).1
                    then .RECOVER_OK else .RECOVER_FAIL),
              (fn strFile false (w.log (.db_verify strFile 0 b.db_verify))).2))
    ∧ (b.db_verify ≠ 0 → recoverFunc = none →
        CDBEnv.Verify b strFile recoverFunc w
          = (.ret .RECOVER_FAIL, w.log (.db_verify strFile 0 b.db_verify))) := by
  unfold CDBEnv.Verify
  simp only [hpre, ne_eq, not_true_eq_false, if_false]
  by_cases h : b.db_verify = 0
  · exact ⟨⟨fun _ => h, fun _ => by simp only [h, if_true]⟩, fun _ => by simp only [h, if_true],
      fun hn => absurd h hn, fun hn => absurd h hn⟩
  · simp only [h, if_false, false_iff, not_false_eq_true, true_implies, false_implies, true_and]
    refine ⟨?_, ?_, ?_⟩
    · cases recoverFunc with
      | none => simp
      | some fn =>
        simp only
        split <;> simp
    · intro fn hfn; subst hfn; rfl
    · intro hn; subst hn; rfl


/-- C17 on a file whose verification fails, with a callback that reports success and leaves a
    mark in the call log: the result is `RECOVER_OK` and the mark is there once. -/
theorem Verify_result_witness :
    mapCount freshWorld.bitdb.mapFileUseCount "wallet.dat" = 0
    ∧ CDBEnv.Verify { db_verify := 1 } "wallet.dat"
        (some (fun _ fOnlyKeys w => (!fOnlyKeys, w.log .log_archive))) freshWorld
        = (.ret .RECOVER_OK,
            (freshWorld.log (.db_verify "wallet.dat" 0 1)).log .log_archive) :=
  ⟨by decide,
    (Verify_result { db_verify := 1 } "wallet.dat"
      (some (fun _ fOnlyKeys w => (!fOnlyKeys, w.log .log_archive))) freshWorld
      (by decide)).2.2.1 (by decide) _ rfl⟩

/-- C18, as the code has it: the precondition asserted by `CDBEnv::Verify` and
    `CDBEnv::Salvage` is that the use-count table has no entry for the file.  Both die on the
    assertion exactly when the file has an entry, so in particular whenever its use count is
    `>= 1`; without an entry neither does. -/
theorem Verify_Salvage_precondition (b : Backend) (ParseHex : String → Bytes) (strFile : String)
    (recoverFunc : Option (String → Bool → World → Bool × World)) (fAggressive : Bool)
    (vResult : List KeyValPair) (w : World) :
    ((CDBEnv.Verify b strFile recoverFunc w).1 = .abort ↔ w.bitdb.ExistsFileCount strFile = true)
    ∧ ((∃ w1, CDBEnv.Salvage b ParseHex strFile fAggressive vResult w = some (.abort, w1))
        ↔ w.bitdb.ExistsFileCount strFile = true)
    ∧ (1 ≤ w.bitdb.GetFileCount strFile →
        CDBEnv.Verify b strFile recoverFunc w = (.abort, w)
        ∧ CDBEnv.Salvage b ParseHex strFile fAggressive vResult w = some (.abort, w)) := by
  have hc := mapCount_eq_zero_iff w.bitdb.mapFileUseCount strFile
  unfold CDBEnv.ExistsFileCount CDBEnv.GetFileCount CDBEnv.Verify CDBEnv.Salvage
  cases hm : mapFind w.bitdb.mapFileUseCount strFile with
  | none =>
    have h0 : mapCount w.bitdb.mapFileUseCount strFile = 0 := hc.mpr hm
    simp only [h0, ne_eq, not_true_eq_false, if_false, Option.isSome_none, Bool.false_eq_true,
      iff_false, Option.getD_none]
    refine ⟨?_, ?_, fun h => absurd h (by decide)⟩
    · by_cases hv : b.db_verify = 0
      · simp [hv]
      · simp only [hv, if_false]
        cases recoverFunc <;> simp
    · rintro ⟨w1, h⟩
      by_cases hv : b.db_verify = 0
      · simp only [hv, not_true_eq_false, if_false] at h
        split at h
        · simp at h
        · split at h <;> simp at h
      · simp [hv] at h
  | some n =>
    have h0 : mapCount w.bitdb.mapFileUseCount strFile ≠ 0 := fun e => by
      rw [hc.mp e] at hm; simp at hm
    simp only [h0, ne_eq, not_false_eq_true, if_true, Option.isSome_some, iff_true, true_and,
      implies_true, and_true]
    exact ⟨w, rfl⟩

/-- C18 on `wallet.dat` held once: `Verify` and `Salvage` die on their assertion. -/
theorem Verify_Salvage_precondition_witness :
    1 ≤ sampleWorld.bitdb.GetFileCount "wallet.dat"
    ∧ CDBEnv.Verify {} "wallet.dat" none sampleWorld = (.abort, sampleWorld)
    ∧ CDBEnv.Salvage {} (fun _ => []) "wallet.dat" false [] sampleWorld
        = some (.abort, sampleWorld) :=
  ⟨by decide,
    (Verify_Salvage_precondition {} (fun _ => []) "wallet.dat" none false [] sampleWorld).2.2
      (by decide)⟩

/-- C18 fails as stated: after `Create("wallet.dat")` and `Close` (acquired, released, not yet
    flushed) the use count of the file is `0`, and `Verify` and `Salvage` still die on their
    assertion. -/
theorem Verify_released_file_counterexample :
    (RegistryCall.runAll 10 [({}, .Create "wallet.dat" 32), ({}, .Close sampleCDB)]
        freshWorld).bitdb.GetFileCount "wallet.dat" = 0
    ∧ (CDBEnv.Verify {} "wallet.dat" none
        (RegistryCall.runAll 10 [({}, .Create "wallet.dat" 32), ({}, .Close sampleCDB)]
          freshWorld)).1 = .abort
    ∧ CDBEnv.Salvage {} (fun _ => []) "wallet.dat" false []
        (RegistryCall.runAll 10 [({}, .Create "wallet.dat" 32), ({}, .Close sampleCDB)] freshWorld)
        = some (.abort,
            RegistryCall.runAll 10 [({}, .Create "wallet.dat" 32), ({}, .Close sampleCDB)]
              freshWorld) :=
  ⟨by decide, by decide, rfl⟩


/-- The text of two runs of lines, one after the other. -/
theorem dumpText_append (xs ys : List String) : dumpText (xs ++ ys) = dumpText xs ++ dumpText ys := by
  induction xs with
  | nil => rfl
  | cons x xs ih => simp [dumpText, ih]

/-- A dump has at least one character per line. -/
theorem length_le_dumpText (xs : List String) : xs.length ≤ (dumpText xs).length := by
  induction xs with
  | nil => simp [dumpText]
  | cons x xs ih => simp only [dumpText, List.length_cons, List.length_append]; omega

/-- Splitting a text that starts with a line. -/
theorem splitLine_line (l rest : List Char) (h : '\n' ∉ l) :
    splitLine (l ++ '\n' :: rest) = (l, some rest) := by
  induction l with
  | nil => simp [splitLine]
  | cons c l ih =>
    simp only [List.mem_cons, not_or] at h
    have hc : ¬ c = '\n' := fun e => h.1 e.symm
    simp [splitLine, hc, ih h.2]

/-- `getline` on a good stream that starts with a line yields the line. -/
theorem getline_line (l : String) (rest : List Char) (str : String) (h : '\n' ∉ l.data) :
    IStream.getline { buf := l.data ++ '\n' :: rest, eofbit := false, failbit := false } str
      = ({ buf := rest, eofbit := false, failbit := false }, l) := by
  simp [IStream.getline, splitLine_line _ _ h]

/-- The first loop of `Salvage` stops right after the line `HEADER=END`. -/
theorem Salvage_header_spec (hs : List String) :
    ∀ (fuel : Nat) (strLine : String) (rest : List Char),
    (∀ h ∈ hs, '\n' ∉ h.data ∧ h ≠ "HEADER=END") → strLine ≠ "HEADER=END" →
    hs.length + 2 ≤ fuel →
    CDBEnv.Salvage.header fuel
        { buf := dumpText hs ++ ("HEADER=END".data ++ '\n' :: rest), eofbit := false,
          failbit := false } strLine
      = some { buf := rest, eofbit := false, failbit := false } := by
  induction hs with
  | nil =>
    intro fuel strLine rest _ hne hfuel
    obtain ⟨n, rfl⟩ : ∃ n, fuel = n + 2 := ⟨fuel - 2, by omega⟩
    have hnl : '\n' ∉ "HEADER=END".data := by decide
    have hg := getline_line "HEADER=END" rest strLine hnl
    simp only [dumpText, List.nil_append]
    unfold CDBEnv.Salvage.header
    simp only [hne, Bool.not_false, Bool.true_and, bne_iff_ne, ne_eq, not_false_eq_true, if_true]
    rw [hg]
    simp [CDBEnv.Salvage.header]
  | cons h hs ih =>
    intro fuel strLine rest hh hne hfuel
    obtain ⟨n, rfl⟩ : ∃ n, fuel = n + 1 := ⟨fuel - 1, by omega⟩
    obtain ⟨h1, h2⟩ := hh h (List.mem_cons_self _ _)
    have hg := getline_line h (dumpText hs ++ ("HEADER=END".data ++ '\n' :: rest)) strLine h1
    have e : dumpText (h :: hs) ++ ("HEADER=END".data ++ '\n' :: rest)
        = h.data ++ '\n' :: (dumpText hs ++ ("HEADER=END".data ++ '\n' :: rest)) := by
      simp [dumpText]
    rw [e]
    unfold CDBEnv.Salvage.header
    simp only [hne, Bool.not_false, Bool.true_and, bne_iff_ne, ne_eq, not_false_eq_true, if_true]
    rw [hg]
    exact ih n h rest (fun x hx => hh x (List.mem_cons_of_mem _ hx)) h2 (by simp at hfuel; omega)

/-- The second loop of `Salvage` appends the pairs before the line `DATA=END`, in order. -/
theorem Salvage_data_spec (ParseHex : String → Bytes) (pairs : List (String × String)) :
    ∀ (fuel : Nat) (keyHex valueHex : String) (vResult : List KeyValPair) (rest : List Char),
    (∀ p ∈ pairs, '\n' ∉ p.1.data ∧ '\n' ∉ p.2.data ∧ p.1 ≠ "DATA=END") →
    keyHex ≠ "DATA=END" → pairs.length + 2 ≤ fuel →
    CDBEnv.Salvage.data ParseHex fuel
        { buf := dumpText (pairLines pairs) ++ ("DATA=END".data ++ '\n' :: rest), eofbit := false,
          failbit := false } keyHex valueHex vResult
      = some (vResult ++ pairs.map (fun p => (ParseHex p.1, ParseHex p.2))) := by
  induction pairs with
  | nil =>
    intro fuel keyHex valueHex vResult rest _ hne hfuel
    obtain ⟨n, rfl⟩ : ∃ n, fuel = n + 2 := ⟨fuel - 2, by omega⟩
    have hnl : '\n' ∉ "DATA=END".data := by decide
    have hg := getline_line "DATA=END" rest keyHex hnl
    simp only [pairLines, dumpText, List.nil_append]
    unfold CDBEnv.Salvage.data
    simp only [hne, Bool.not_false, Bool.true_and, bne_iff_ne, ne_eq, not_false_eq_true, if_true]
    rw [hg]
    simp [CDBEnv.Salvage.data]
  | cons p pairs ih =>
    obtain ⟨k, v⟩ := p
    intro fuel keyHex valueHex vResult rest hh hne hfuel
    obtain ⟨n, rfl⟩ : ∃ n, fuel = n + 1 := ⟨fuel - 1, by omega⟩
    obtain ⟨h1, h2, h3⟩ := hh (k, v) (List.mem_cons_self _ _)
    simp only at h1 h2 h3
    have hg := getline_line k
      (v.data ++ '\n' :: (dumpText (pairLines pairs) ++ ("DATA=END".data ++ '\n' :: rest))) keyHex h1
    have hg2 := getline_line v
      (dumpText (pairLines pairs) ++ ("DATA=END".data ++ '\n' :: rest)) valueHex h2
    have e : dumpText (pairLines ((k, v) :: pairs)) ++ ("DATA=END".data ++ '\n' :: rest)
        = k.data ++ '\n' :: (v.data ++ '\n' ::
            (dumpText (pairLines pairs) ++ ("DATA=END".data ++ '\n' :: rest))) := by
      simp [pairLines, dumpText]
    rw [e]
    unfold CDBEnv.Salvage.data
    simp only [hne, Bool.not_false, Bool.true_and, bne_iff_ne, ne_eq, not_false_eq_true, if_true]
    rw [hg]
    simp only [h3, not_false_eq_true, if_true]
    rw [hg2]
    simp only
    rw [ih n k v _ rest (fun x hx => hh x (List.mem_cons_of_mem _ hx)) h3 (by simp at hfuel; omega)]
    simp

/-- C19: for a dump made of header lines, the line `HEADER=END`, `n >= 0` pairs of a key line
    and a value line, and the line `DATA=END` (every line ended by a newline), and a file
    without use-count entry (the asserted precondition): when `Db::verify` returns `0`,
    `CDBEnv::Salvage` returns `true` and appends to `vResult` exactly the `n` pairs, in dump
    order, each as `ParseHex` of the key line and `ParseHex` of the value line; when
    `Db::verify` fails it returns `false` and `vResult` is as it was. -/
theorem Salvage_parses_dump (b : Backend) (ParseHex : String → Bytes) (strFile : String)
    (fAggressive : Bool) (vResult : List KeyValPair) (w : World)
    (hs : List String) (pairs : List (String × String))
    (hpre : mapCount w.bitdb.mapFileUseCount strFile = 0)
    (hh : ∀ h ∈ hs, '\n' ∉ h.data ∧ h ≠ "HEADER=END")
    (hp : ∀ p ∈ pairs, '\n' ∉ p.1.data ∧ '\n' ∉ p.2.data ∧ p.1 ≠ "DATA=END")
    (hdump : b.verify_dump.data
      = dumpText (hs ++ ["HEADER=END"] ++ pairLines pairs ++ ["DATA=END"])) :
    (b.db_verify = 0 →
      CDBEnv.Salvage b ParseHex strFile fAggressive vResult w
        = some (.ret (true, vResult ++ pairs.map (fun p => (ParseHex p.1, ParseHex p.2))),
            w.log (.db_verify strFile
              (if fAggressive then DB_SALVAGE + DB_AGGRESSIVE else DB_SALVAGE) 0)))
    ∧ (b.db_verify ≠ 0 →
      CDBEnv.Salvage b ParseHex strFile fAggressive vResult w
        = some (.ret (false, vResult),
            w.log (.db_verify strFile
              (if fAggressive then DB_SALVAGE + DB_AGGRESSIVE else DB_SALVAGE) b.db_verify))) := by
  constructor
  · intro h0
    have e : dumpText (hs ++ ["HEADER=END"] ++ pairLines pairs ++ ["DATA=END"])
        = dumpText hs ++ ("HEADER=END".data ++ '\n' ::
            (dumpText (pairLines pairs) ++ ("DATA=END".data ++ '\n' :: []))) := by
      simp [dumpText_append, dumpText]
    have hlen := length_le_dumpText (hs ++ ["HEADER=END"] ++ pairLines pairs ++ ["DATA=END"])
    have hpl : ∀ ps : List (String × String), ps.length ≤ (pairLines ps).length := by
      intro ps
      induction ps with
      | nil => simp [pairLines]
      | cons p ps ih => obtain ⟨k, v⟩ := p; simp only [pairLines, List.length_cons]; omega
    have hpl2 := hpl pairs
    simp only [List.length_append, List.length_singleton] at hlen
    have h1 := Salvage_header_spec hs (b.verify_dump.data.length + 2) ""
      (dumpText (pairLines pairs) ++ ("DATA=END".data ++ '\n' :: [])) hh (by decide)
      (by rw [hdump]; omega)
    have h2 := Salvage_data_spec ParseHex pairs (b.verify_dump.data.length + 2) "" "" vResult []
      hp (by decide) (by rw [hdump]; omega)
    unfold CDBEnv.Salvage
    simp only [hpre, h0, ne_eq, not_true_eq_false, if_false]
    rw [hdump, e] at *
    rw [h1]
    simp only
    rw [h2]
  · intro h0
    unfold CDBEnv.Salvage
    simp only [hpre, h0, ne_eq, not_true_eq_false, not_false_eq_true, if_false, if_true]

/-- C19 on a dump with one header line and two pairs, salvaged aggressively into a result
    that already holds one pair. -/
theorem Salvage_parses_dump_witness :
    mapCount freshWorld.bitdb.mapFileUseCount "wallet.dat" = 0
    ∧ ({ verify_dump := "VERSION=3\nHEADER=END\n01\n02\n0a\n0b\nDATA=END\n" } : Backend).verify_dump.data
        = dumpText (["VERSION=3"] ++ ["HEADER=END"] ++ pairLines [("01", "02"), ("0a", "0b")]
            ++ ["DATA=END"])
    ∧ CDBEnv.Salvage { verify_dump := "VERSION=3\nHEADER=END\n01\n02\n0a\n0b\nDATA=END\n" }
        (fun s => s.data.map Char.toNat) "wallet.dat" true [([7], [8])] freshWorld
        = some (.ret (true, [([7], [8]), ([48, 49], [48, 50]), ([48, 97], [48, 98])]),
            freshWorld.log (.db_verify "wallet.dat" 65 0)) :=
  ⟨by decide, by decide,
    (Salvage_parses_dump { verify_dump := "VERSION=3\nHEADER=END\n01\n02\n0a\n0b\nDATA=END\n" }
      (fun s => s.data.map Char.toNat) "wallet.dat" true [([7], [8])] freshWorld
      ["VERSION=3"] [("01", "02"), ("0a", "0b")] (by decide) (by decide) (by decide)
      (by decide)).1 rfl⟩


/-! ## `Open` of the environment managers -/

/-- A `CLevelDBEnv::Open` that returns `true` leaves the environment initialized. -/
theorem LevelOpen_ret_init (b : Backend) (p : String) (shut : Bool) (env : CLevelDBEnv)
    (h : (CLevelDBEnv.Open b p shut env).1 = .ret true) :
    (CLevelDBEnv.Open b p shut env).2.fLevelDbEnvInit = true := by
  unfold CLevelDBEnv.Open at h ⊢
  by_cases h1 : env.fLevelDbEnvInit = true
  · simp [h1]
  · by_cases h2 : shut = true
    · simp [h1, h2] at h
    · simp only [h1, h2, if_false] at h ⊢
      generalize CLevelDBEnv.Open.loop b p env.instances 0 _ = r at h ⊢
      obtain ⟨o, env1⟩ := r
      cases o <;> simp_all

/-- C20: for `CDBEnv` and `CLevelDBEnv`, `Open` on an initialized environment returns `true`
    and changes nothing, whatever the shutdown flag is; `Open` on an environment not yet
    initialized while the shutdown flag is set returns `false` and changes nothing.  Hence an
    `Open` after an `Open` that succeeded or that found the shutdown flag set has the result
    and the final state of the first alone, whatever path is passed and whatever the backend
    would answer; for `CDBEnv` a second `Open` that gets the same answers as the first yields the
    same result and environment in every case. -/
theorem Open_idempotent (b b2 : Backend) (p p2 : String) (w : World)
    (shut shut2 : Bool) (env : CLevelDBEnv) :
    (w.bitdb.fDbEnvInit = true → CDBEnv.Open b p w = (true, w))
    ∧ (w.bitdb.fDbEnvInit = false → w.fShutdown = true → CDBEnv.Open b p w = (false, w))
    ∧ ((CDBEnv.Open b p w).1 = true ∨ w.fShutdown = true →
        CDBEnv.Open b2 p2 (CDBEnv.Open b p w).2 = CDBEnv.Open b p w)
    ∧ ((CDBEnv.Open b p (CDBEnv.Open b p w).2).1 = (CDBEnv.Open b p w).1
        ∧ (CDBEnv.Open b p (CDBEnv.Open b p w).2).2.bitdb = (CDBEnv.Open b p w).2.bitdb)
    ∧ (env.fLevelDbEnvInit = true → CLevelDBEnv.Open b p shut env = (.ret true, env))
    ∧ (env.fLevelDbEnvInit = false → shut = true →
        CLevelDBEnv.Open b p shut env = (.ret false, env))
    ∧ ((CLevelDBEnv.Open b p shut env).1 = .ret true →
        CLevelDBEnv.Open b2 p2 shut2 (CLevelDBEnv.Open b p shut env).2
          = CLevelDBEnv.Open b p shut env)
    ∧ (shut = true →
        CLevelDBEnv.Open b2 p2 shut (CLevelDBEnv.Open b p shut env).2
          = CLevelDBEnv.Open b p shut env) := by
  refine ⟨?_, ?_, ?_, ?_, ?_, ?_, ?_, ?_⟩
  · intro h; simp [CDBEnv.Open, h]
  · intro h1 h2; simp [CDBEnv.Open, h1, h2]
  · intro h
    unfold CDBEnv.Open
    by_cases h1 : w.bitdb.fDbEnvInit = true
    · simp [h1]
    · by_cases h2 : w.fShutdown = true
      · simp [h1, h2]
      · have h3 : (CDBEnv.Open b p w).1 = true := by
          rcases h with h | h
          · exact h
          · exact absurd h h2
        unfold CDBEnv.Open at h3
        by_cases h4 : b.dir_create = true
        · by_cases h5 : b.env_open = 0
          · simp [h1, h2, h4, h5, World.log]
          · simp [h1, h2, h4, h5] at h3
        · simp [h1, h2, h4] at h3
  · unfold CDBEnv.Open
    by_cases h1 : w.bitdb.fDbEnvInit = true
    · simp [h1]
    · by_cases h2 : w.fShutdown = true
      · simp [h1, h2]
      · by_cases h4 : b.dir_create = true
        · by_cases h5 : b.env_open = 0
          · simp [h1, h2, h4, h5, World.log]
          · simp [h1, h2, h4, h5, World.log]
        · simp [h1, h2, h4]
  · intro h; simp [CLevelDBEnv.Open, h]
  · intro h1 h2; simp [CLevelDBEnv.Open, h1, h2]
  · intro h
    have hi := LevelOpen_ret_init b p shut env h
    generalize CLevelDBEnv.Open b p shut env = r at h hi
    obtain ⟨o, env1⟩ := r
    simp only at h hi
    subst h
    simp [CLevelDBEnv.Open, hi]
  · intro h
    by_cases h1 : env.fLevelDbEnvInit = true
    · simp [CLevelDBEnv.Open, h1]
    · simp [CLevelDBEnv.Open, h1, h]


/-- C20 on environments not yet opened: the first `Open` initializes them, a second `Open`
    with another path changes nothing, and the path stays that of the first. -/
theorem Open_idempotent_witness :
    (CDBEnv.Open {} "/data" closedWorld).1 = true
    ∧ CDBEnv.Open {} "/other" (CDBEnv.Open {} "/data" closedWorld).2
        = CDBEnv.Open {} "/data" closedWorld
    ∧ (CDBEnv.Open {} "/data" closedWorld).2.bitdb.pathEnv = "/data"
    ∧ (CLevelDBEnv.Open {} "/data" false sampleLevelEnv).1 = .ret true
    ∧ CLevelDBEnv.Open {} "/other" true (CLevelDBEnv.Open {} "/data" false sampleLevelEnv).2
        = CLevelDBEnv.Open {} "/data" false sampleLevelEnv :=
  ⟨by decide,
    (Open_idempotent {} {} "/data" "/other" closedWorld false true sampleLevelEnv).2.2.1
      (Or.inl (by decide)),
    by decide, by decide,
    (Open_idempotent {} {} "/data" "/other" closedWorld false true sampleLevelEnv).2.2.2.2.2.2.1
      (by decide)⟩

/-! ## `CSqliteDBEnv::Open` -/

/-- `insert` keeps what is found and adds the rest. -/
theorem mapFind_mapInsert {β : Type} (m : StdMap β) (k : String) (v : β) (f : String) :
    mapFind (mapInsert m k v) f
      = match mapFind m f with
        | some o => some o
        | none => if f = k then some v else none := by
  unfold mapInsert
  cases hk : mapFind m k with
  | none =>
    simp only [Option.isSome_none, Bool.false_eq_true, if_false, mapFind_mapSet]
    by_cases h : f = k
    · subst h; simp [hk]
    · simp only [h, if_false]
      cases mapFind m f <;> rfl
  | some o =>
    simp only [Option.isSome_some, if_true]
    cases hf : mapFind m f with
    | none =>
      have : f ≠ k := fun e => by rw [e, hk] at hf; simp at hf
      simp [this]
    | some o2 => rfl

/-- The loop of `CSqliteDBEnv::Open` when every SQLite call succeeds. -/
theorem SqliteOpen_loop_spec (b : Backend) (p : String)
    (hok : ∀ i, b.sql_alloc i = true ∧ b.sql_open i = true
      ∧ (b.sql_table_exists i = true ∨ b.sql_create i = true)) (l : List String) :
    ∀ (i : Nat) (env : CSqliteDBEnv),
    ∃ env1 added, CSqliteDBEnv.Open.loop b p l i env = (.ret (), env1)
      ∧ env1.calls = env.calls ++ added
      ∧ (∀ ite ∈ l, SqlCall.sqlite3_open (p ++ "/" ++ ite) ∈ added)
      ∧ env1.pathEnv = env.pathEnv
      ∧ env1.instances = env.instances
      ∧ (∀ f, mapFind env1.sqlobj f
          = match mapFind env.sqlobj f with
            | some o => some o
            | none => if f ∈ l then some { psql := some (p ++ "/" ++ f) } else none)
      ∧ ((∀ ite ∈ l, (mapFind env.sqlobj ite).isSome = true) → env1.sqlobj = env.sqlobj) := by
  induction l with
  | nil => intro i env; exact ⟨env, [], rfl, by simp, by simp, rfl, rfl, fun f => by
      cases mapFind env.sqlobj f <;> simp, fun _ => rfl⟩
  | cons ite l ih =>
    intro i env
    obtain ⟨h1, h2, h3⟩ := hok i
    unfold CSqliteDBEnv.Open.loop
    simp only [h1, h2, Bool.not_true, Bool.false_eq_true, if_false]
    have key : ∀ env3 : CSqliteDBEnv, ∀ pre : List SqlCall,
        env3.calls = env.calls ++ (SqlCall.sqlite3_open (p ++ "/" ++ ite) :: pre) →
        env3.pathEnv = env.pathEnv → env3.instances = env.instances →
        env3.sqlobj = mapInsert env.sqlobj ite { psql := some (p ++ "/" ++ ite) } →
        ∃ env1 added, CSqliteDBEnv.Open.loop b p l (i + 1) env3 = (.ret (), env1)
          ∧ env1.calls = env.calls ++ added
          ∧ (∀ x ∈ ite :: l, SqlCall.sqlite3_open (p ++ "/" ++ x) ∈ added)
          ∧ env1.pathEnv = env.pathEnv
          ∧ env1.instances = env.instances
          ∧ (∀ f, mapFind env1.sqlobj f
              = match mapFind env.sqlobj f with
                | some o => some o
                | none => if f ∈ ite :: l then some { psql := some (p ++ "/" ++ f) } else none)
          ∧ ((∀ x ∈ ite :: l, (mapFind env.sqlobj x).isSome = true) →
              env1.sqlobj = env.sqlobj) := by
      intro env3 pre c1 c2 c3 c4
      obtain ⟨env1, added, e1, e2, e3, e4, e5, e6, e7⟩ := ih (i + 1) env3
      refine ⟨env1, SqlCall.sqlite3_open (p ++ "/" ++ ite) :: pre ++ added, e1, ?_, ?_,
        by rw [e4, c2], by rw [e5, c3], ?_, ?_⟩
      · rw [e2, c1]; simp
      · intro x hx
        rcases List.mem_cons.mp hx with hx | hx
        · rw [hx]; simp
        · exact List.mem_append_right _ (e3 x hx)
      · intro f
        rw [e6 f, c4, mapFind_mapInsert]
        cases hf : mapFind env.sqlobj f with
        | some o => rfl
        | none =>
          by_cases hfi : f = ite
          · subst hfi; simp
          · simp [hfi]
      · intro hall
        have hi : (mapFind env.sqlobj ite).isSome = true := hall ite (List.mem_cons_self _ _)
        have c5 : env3.sqlobj = env.sqlobj := by rw [c4]; simp [mapInsert, hi]
        rw [e7 (fun x hx => by rw [c5]; exact hall x (List.mem_cons_of_mem _ hx)), c5]
    by_cases ht : b.sql_table_exists i = true
    · simp only [ht, Bool.true_eq_false, if_false]
      exact key _ [SqlCall.table_exists ite] (by simp) rfl rfl rfl
    · have hc : b.sql_create i = true := by
        rcases h3 with h3 | h3
        · exact absurd h3 ht
        · exact h3
      have htf : b.sql_table_exists i = false := by simpa using ht
      simp only [htf, hc, if_true, Bool.not_true, Bool.false_eq_true, if_false]
      exact key _ [SqlCall.table_exists ite, SqlCall.create_table ite] (by simp) rfl rfl rfl

/-- `CSqliteDBEnv::Open` in general: it keeps no initialized flag and does not read the
    shutdown flag.  Whatever the flag and whatever is already open, when every SQLite call
    succeeds it opens the file of every configured instance (again) and returns `true`; an
    instance that already has an entry keeps it, so the connection opened for it is stored
    nowhere, and on an environment whose instances are all open the instance table is left as
    it was. -/
theorem SqliteOpen_not_guarded (b : Backend) (p : String) (shut : Bool) (env : CSqliteDBEnv)
    (hok : ∀ i, b.sql_alloc i = true ∧ b.sql_open i = true
      ∧ (b.sql_table_exists i = true ∨ b.sql_create i = true)) :
    CSqliteDBEnv.Open b p shut env = CSqliteDBEnv.Open b p (!shut) env
    ∧ ∃ env1 added, CSqliteDBEnv.Open b p shut env = (.ret true, env1)
      ∧ env1.calls = env.calls ++ added
      ∧ (∀ ite ∈ env.instances, SqlCall.sqlite3_open (p ++ "/" ++ ite) ∈ added)
      ∧ env1.pathEnv = p
      ∧ env1.instances = env.instances
      ∧ (∀ f, mapFind env1.sqlobj f
          = match mapFind env.sqlobj f with
            | some o => some o
            | none => if f ∈ env.instances then some { psql := some (p ++ "/" ++ f) } else none)
      ∧ ((∀ ite ∈ env.instances, (mapFind env.sqlobj ite).isSome = true) →
          env1.sqlobj = env.sqlobj) := by
  refine ⟨rfl, ?_⟩
  obtain ⟨env1, added, e1, e2, e3, e4, e5, e6, e7⟩ :=
    SqliteOpen_loop_spec b p hok env.instances 0 { env with pathEnv := p }
  refine ⟨env1, added, ?_, e2, e3, e4, e5, e6, e7⟩
  simp only [CSqliteDBEnv.Open, e1]

/-- `SqliteOpen_not_guarded` on an environment whose instance `walletsql` is open: `Open`
    returns `true`, opens the file once more, and the instance table is as before. -/
theorem SqliteOpen_not_guarded_witness :
    (∀ i, ({ sql_table_exists := fun _ => true } : Backend).sql_alloc i = true
      ∧ ({ sql_table_exists := fun _ => true } : Backend).sql_open i = true
      ∧ (({ sql_table_exists := fun _ => true } : Backend).sql_table_exists i = true
        ∨ ({ sql_table_exists := fun _ => true } : Backend).sql_create i = true))
    ∧ ∃ env1 added,
      CSqliteDBEnv.Open { sql_table_exists := fun _ => true } "/data" false sampleSqliteEnv
        = (.ret true, env1)
      ∧ env1.calls = sampleSqliteEnv.calls ++ added
      ∧ (∀ ite ∈ sampleSqliteEnv.instances, SqlCall.sqlite3_open ("/data" ++ "/" ++ ite) ∈ added)
      ∧ env1.pathEnv = "/data"
      ∧ env1.instances = sampleSqliteEnv.instances
      ∧ (∀ f, mapFind env1.sqlobj f
          = match mapFind sampleSqliteEnv.sqlobj f with
            | some o => some o
            | none =>
              if f ∈ sampleSqliteEnv.instances then some { psql := some ("/data" ++ "/" ++ f) }
              else none)
      ∧ ((∀ ite ∈ sampleSqliteEnv.instances,
            (mapFind sampleSqliteEnv.sqlobj ite).isSome = true) →
          env1.sqlobj = sampleSqliteEnv.sqlobj) :=
  ⟨fun _ => ⟨rfl, rfl, Or.inl rfl⟩,
    (SqliteOpen_not_guarded { sql_table_exists := fun _ => true } "/data" false sampleSqliteEnv
      (fun _ => ⟨rfl, rfl, Or.inl rfl⟩)).2⟩

/-- C21, the code on an environment that is already open: `CSqliteDBEnv::Open` has neither
    the guard on an initialized flag nor the guard on the shutdown flag that `CDBEnv::Open` and
    `CLevelDBEnv::Open` begin with.  With the shutdown flag set it opens
    `/data/walletsql` again and returns `true`; `insert` keeps the entry of the first
    connection, so the second one is stored nowhere: after `Open`, `Open`, `EnvShutdown` the
    log holds two `sqlite3_open` calls and one `sqlite3_close`. -/
theorem SqliteOpen_twice_leaks :
    CSqliteDBEnv.Open { sql_table_exists := fun _ => true } "/data" false freshSqliteEnv
      = (.ret true, { sampleSqliteEnv with
          calls := [.sqlite3_open "/data/walletsql", .table_exists "walletsql"] })
    ∧ mapFind sampleSqliteEnv.sqlobj "walletsql" = some { psql := some "/data/walletsql" }
    ∧ CSqliteDBEnv.Open { sql_table_exists := fun _ => true } "/data" true sampleSqliteEnv
      = (.ret true, { sampleSqliteEnv with
          calls := [.sqlite3_open "/data/walletsql", .table_exists "walletsql"] })
    ∧ (CSqliteDBEnv.Open { sql_table_exists := fun _ => true } "/data" true
        (CSqliteDBEnv.Open { sql_table_exists := fun _ => true } "/data" false
          freshSqliteEnv).2).2.EnvShutdown.calls
      = [.sqlite3_open "/data/walletsql", .table_exists "walletsql",
          .sqlite3_open "/data/walletsql", .table_exists "walletsql",
          .sqlite3_close "walletsql"] :=
  ⟨by decide, by decide, by decide, by decide⟩

/-! ## `CDBEnv::Flush` at shutdown -/

/-- A map is empty exactly when no key is found in it. -/
theorem isEmpty_iff_mapFind {β : Type} (m : StdMap β) :
    m.isEmpty = true ↔ ∀ f, mapFind m f = none := by
  cases m with
  | nil => simp [mapFind]
  | cons e m =>
    obtain ⟨k, v⟩ := e
    simp only [List.isEmpty_cons, Bool.false_eq_true, false_iff, not_forall]
    exact ⟨k, by simp [mapFind]⟩

/-- The flush loop leaves the initialized flag alone. -/
theorem Flush_loop_init (l : List (String × Int)) :
    ∀ w : World, (CDBEnv.Flush.loop l w).2.bitdb.fDbEnvInit = w.bitdb.fDbEnvInit := by
  induction l with
  | nil => intro w; rfl
  | cons e l ih =>
    obtain ⟨f, n⟩ := e
    intro w
    obtain ⟨-, -, c3, -⟩ := CloseDb_frame f w
    unfold CDBEnv.Flush.loop
    by_cases hn : n = 0
    · simp only [hn, if_true]
      cases IsChainFile f with
      | ret fChain =>
        simp only
        rw [ih]
        simp only
        split
        · split <;> exact c3
        · exact c3
      | throw e => exact c3
      | abort => exact c3
      | crash => exact c3
    · simp only [hn, if_false]
      exact ih w

/-- `EnvShutdown` on an initialized environment leaves it uninitialized. -/
theorem EnvShutdown_init (b : Backend) (w : World) (h : w.bitdb.fDbEnvInit = true) :
    (CDBEnv.EnvShutdown b w).2.bitdb.fDbEnvInit = false := by
  unfold CDBEnv.EnvShutdown
  by_cases hm : w.bitdb.fMockDb = true
  · simp [World.log, h, hm]
  · by_cases hr : b.env_remove > 0 <;> simp [World.log, h, hm, hr]

/-- C22, as the code has it: `CDBEnv::Flush` never reads its argument.  On an initialized
    environment (use-count table without an unused `blkindex.dat`) the flush pass returns, and
    then the old log segments are archived and the environment is closed (`EnvShutdown`) if and
    only if the global flag `args_bool::fShutdown` is set and every tracked file was unused;
    otherwise the environment stays initialized. -/
theorem Flush_closes_by_global_flag (b : Backend) (fShutdown : Bool) (w : World)
    (hinit : w.bitdb.fDbEnvInit = true)
    (hmap : (mapKeys w.bitdb.mapFileUseCount).Nodup)
    (hchain : mapFind w.bitdb.mapFileUseCount "blkindex.dat" ≠ some 0) :
    CDBEnv.Flush b fShutdown w = CDBEnv.Flush b (!fShutdown) w
    ∧ ∃ w1, CDBEnv.Flush.loop w.bitdb.mapFileUseCount w = (.ret (), w1)
      ∧ w1.bitdb.fDbEnvInit = true
      ∧ CDBEnv.Flush b fShutdown w
          = (if w.fShutdown = true ∧ ∀ e ∈ w.bitdb.mapFileUseCount, e.2 = 0
              then CDBEnv.EnvShutdown b (w1.log .log_archive) else (.ret (), w1))
      ∧ ((CDBEnv.Flush b fShutdown w).2.bitdb.fDbEnvInit = false
          ↔ (w.fShutdown = true ∧ ∀ e ∈ w.bitdb.mapFileUseCount, e.2 = 0)) := by
  refine ⟨rfl, ?_⟩
  have hnot : ("blkindex.dat", (0 : Int)) ∉ w.bitdb.mapFileUseCount :=
    fun h => hchain ((mapFind_eq_some_iff _ hmap _ _).mpr h)
  obtain ⟨w1, e1, e2, -, e4, -⟩ := Flush_loop_spec w.bitdb.mapFileUseCount w hnot
  have hi1 : w1.bitdb.fDbEnvInit = true := by
    have := Flush_loop_init w.bitdb.mapFileUseCount w
    rw [e1] at this
    rw [this, hinit]
  have hempty : w1.bitdb.mapFileUseCount.isEmpty = true
      ↔ ∀ e ∈ w.bitdb.mapFileUseCount, e.2 = 0 := by
    rw [isEmpty_iff_mapFind]
    constructor
    · intro h e he
      obtain ⟨f, n⟩ := e
      have h1 := h f
      rw [e4 f] at h1
      by_cases h0 : (f, (0 : Int)) ∈ w.bitdb.mapFileUseCount
      · have a1 := (mapFind_eq_some_iff _ hmap f 0).mpr h0
        have a2 := (mapFind_eq_some_iff _ hmap f n).mpr he
        rw [a1] at a2
        simpa using a2.symm
      · simp only [h0, if_false] at h1
        rw [(mapFind_eq_some_iff _ hmap f n).mpr he] at h1
        simp at h1
    · intro h f
      rw [e4 f]
      by_cases h0 : (f, (0 : Int)) ∈ w.bitdb.mapFileUseCount
      · simp [h0]
      · simp only [h0, if_false]
        cases hm : mapFind w.bitdb.mapFileUseCount f with
        | none => rfl
        | some n =>
          have hmem := (mapFind_eq_some_iff _ hmap f n).mp hm
          have : n = 0 := h (f, n) hmem
          subst this
          exact absurd hmem h0
  have hflush : CDBEnv.Flush b fShutdown w
      = (if w.fShutdown = true ∧ ∀ e ∈ w.bitdb.mapFileUseCount, e.2 = 0
          then CDBEnv.EnvShutdown b (w1.log .log_archive) else (.ret (), w1)) := by
    unfold CDBEnv.Flush
    simp only [hinit, Bool.not_true, Bool.false_eq_true, if_false, e1, e2, CDBEnv.Close]
    by_cases hs : w.fShutdown = true
    · by_cases he : w1.bitdb.mapFileUseCount.isEmpty = true
      · have rhs : (if w.fShutdown = true ∧ ∀ e ∈ w.bitdb.mapFileUseCount, e.2 = 0
            then CDBEnv.EnvShutdown b (w1.log .log_archive) else (.ret (), w1))
            = CDBEnv.EnvShutdown b (w1.log .log_archive) := if_pos ⟨hs, hempty.mp he⟩
        rw [rhs]
        simp [hs, he]
      · have rhs : (if w.fShutdown = true ∧ ∀ e ∈ w.bitdb.mapFileUseCount, e.2 = 0
            then CDBEnv.EnvShutdown b (w1.log .log_archive) else (.ret (), w1))
            = (.ret (), w1) := if_neg (fun h => he (hempty.mpr h.2))
        rw [rhs]
        simp [hs, he]
    · have rhs : (if w.fShutdown = true ∧ ∀ e ∈ w.bitdb.mapFileUseCount, e.2 = 0
          then CDBEnv.EnvShutdown b (w1.log .log_archive) else (.ret (), w1))
          = (.ret (), w1) := if_neg (fun h => hs h.1)
      rw [rhs]
      simp [hs]
  refine ⟨w1, e1, hi1, hflush, ?_⟩
  rw [hflush]
  by_cases hc : w.fShutdown = true ∧ ∀ e ∈ w.bitdb.mapFileUseCount, e.2 = 0
  · rw [if_pos hc]
    exact ⟨fun _ => hc, fun _ => EnvShutdown_init b _ hi1⟩
  · rw [if_neg hc]
    exact ⟨fun h => by simp [hi1] at h, fun h => absurd h hc⟩

/-- C22 on a node in shutdown whose only tracked file is unused, with `Flush(false)`: the
    environment is closed. -/
theorem Flush_closes_by_global_flag_witness :
    ({ idleWorld with fShutdown := true } : World).bitdb.fDbEnvInit = true
    ∧ (mapKeys ({ idleWorld with fShutdown := true } : World).bitdb.mapFileUseCount).Nodup
    ∧ mapFind ({ idleWorld with fShutdown := true } : World).bitdb.mapFileUseCount "blkindex.dat"
        ≠ some 0
    ∧ CDBEnv.Flush {} false { idleWorld with fShutdown := true }
        = CDBEnv.Flush {} (!false) { idleWorld with fShutdown := true }
    ∧ (CDBEnv.Flush {} false { idleWorld with fShutdown := true }).2.bitdb.fDbEnvInit = false :=
  ⟨by decide, by decide, by decide,
    (Flush_closes_by_global_flag {} false { idleWorld with fShutdown := true }
      (by decide) (by decide) (by decide)).1,
    by decide⟩

/-- C22 fails as stated: `Flush(false)` closes the environment when the global shutdown flag is
    set and every tracked file is unused, and `Flush(true)` leaves it open when the global flag
    is clear. -/
theorem Flush_argument_counterexample :
    (CDBEnv.Flush {} false { idleWorld with fShutdown := true }).2.bitdb.fDbEnvInit = false
    ∧ (CDBEnv.Flush {} false { idleWorld with fShutdown := true }).2.calls
        = [.db_close "wallet.dat", .txn_checkpoint 0 0, .lsn_reset "wallet.dat", .log_archive,
           .env_close 0, .env_remove 0]
    ∧ idleWorld.fShutdown = false
    ∧ (∀ e ∈ idleWorld.bitdb.mapFileUseCount, e.2 = 0)
    ∧ (CDBEnv.Flush {} true idleWorld).2.bitdb.fDbEnvInit = true
    ∧ (CDBEnv.Flush {} true idleWorld).2.calls
        = [.db_close "wallet.dat", .txn_checkpoint 0 0, .lsn_reset "wallet.dat"] :=
  ⟨by decide, by decide, by decide, by decide, by decide, by decide⟩

/-! ## `CDBEnv::EnvShutdown` -/

/-- C23, as the code has it: `CDBEnv::EnvShutdown` on an environment that is not initialized
    does nothing.  On an initialized one it marks it uninitialized and closes it, and it
    removes the environment (`DbEnv(0).remove`) if and only if the environment is not in mock
    mode; it throws when that removal returns a positive code and returns otherwise. -/
theorem EnvShutdown_removes_unless_mock (b : Backend) (w : World) :
    (w.bitdb.fDbEnvInit = false → CDBEnv.EnvShutdown b w = (.ret (), w))
    ∧ (w.bitdb.fDbEnvInit = true →
        (CDBEnv.EnvShutdown b w).2.bitdb.fDbEnvInit = false
        ∧ (CDBEnv.EnvShutdown b w).2.bitdb = { w.bitdb with fDbEnvInit := false }
        ∧ (CDBEnv.EnvShutdown b w).2.files = w.files
        ∧ (CDBEnv.EnvShutdown b w).2.calls
            = w.calls ++ .env_close b.env_close ::
                (if w.bitdb.fMockDb = true then [] else [.env_remove b.env_remove])
        ∧ (DbCall.env_remove b.env_remove ∈ ((CDBEnv.EnvShutdown b w).2.calls.drop w.calls.length)
            ↔ w.bitdb.fMockDb = false)
        ∧ (CDBEnv.EnvShutdown b w).1
            = (if w.bitdb.fMockDb = false ∧ b.env_remove > 0
                then .throw "EnvShutdown database remove failure" else .ret ())) := by
  constructor
  · intro h; simp [CDBEnv.EnvShutdown, h]
  · intro h
    unfold CDBEnv.EnvShutdown
    by_cases hm : w.bitdb.fMockDb = true
    · simp [World.log, h, hm]
    · have hmf : w.bitdb.fMockDb = false := by simpa using hm
      by_cases hr : b.env_remove > 0 <;> simp [World.log, h, hmf, hr]

/-- C23 on the running node (not mock) and on the same node in mock mode. -/
theorem EnvShutdown_removes_unless_mock_witness :
    sampleWorld.bitdb.fDbEnvInit = true
    ∧ sampleWorld.bitdb.fMockDb = false
    ∧ (CDBEnv.EnvShutdown {} sampleWorld).2.calls
        = sampleWorld.calls ++ .env_close 0 ::
            (if sampleWorld.bitdb.fMockDb = true then [] else [.env_remove 0])
    ∧ (CDBEnv.EnvShutdown {} sampleWorld).2.bitdb.fDbEnvInit = false :=
  ⟨by decide, by decide,
    ((EnvShutdown_removes_unless_mock {} sampleWorld).2 (by decide)).2.2.2.1,
    ((EnvShutdown_removes_unless_mock {} sampleWorld).2 (by decide)).1⟩

/-- C23 fails as stated: the environment of the running node is not in mock mode and
    `EnvShutdown` removes it; put in mock mode, it is closed and not removed. -/
theorem EnvShutdown_mock_counterexample :
    sampleWorld.bitdb.fMockDb = false
    ∧ (CDBEnv.EnvShutdown {} sampleWorld).2.calls = [.env_close 0, .env_remove 0]
    ∧ (CDBEnv.EnvShutdown {}
        { sampleWorld with bitdb := { sampleWorld.bitdb with fMockDb := true } }).2.calls
        = [.env_close 0] :=
  ⟨by decide, by decide, by decide⟩

/-! ## Iterators of the relational and the LSM backend -/

/-- C24 at the iterator of the relational backend: `IDB::ReadAtCursor` dispatches with
    `pcursor.is_leveldb() ? ldb() : cdb()`, so the iterator, which holds no cursor, is used as a
    B-tree cursor and the call dies; the code `99999` is not returned. -/
theorem ReadAtCursor_sqlite_iterator (b : Backend) (ssKey ssValue : Bytes) (w : World) :
    IDB.ReadAtCursor b CSqliteDB.GetIteCursor ssKey ssValue w = (.crash, w)
    ∧ ∀ ite1 ssKey1 ssValue1,
        (IDB.ReadAtCursor b CSqliteDB.GetIteCursor ssKey ssValue w).1
          ≠ .ret (99999, ite1, ssKey1, ssValue1) := by
  refine ⟨rfl, fun ite1 k v h => ?_⟩
  simp [IDB.ReadAtCursor, CSqliteDB.GetIteCursor] at h

/-- The calls on a LevelDB iterator standing before `init ++ [last]`: every record is
    delivered in order, the records of `init` with code `0`, the last one with `DB_NOTFOUND`. -/
theorem calls_ldb_all (b : Backend) (w : World) (last : Record) (init : List Record) :
    ∀ bufs : List (Bytes × Bytes), bufs.length = init.length + 1 →
    IDB.ReadAtCursor.calls b (.ldb { rest := init ++ [last] }) bufs w
      = init.map (fun r => ((0 : Int), r.1, r.2)) ++ [(DB_NOTFOUND, last.1, last.2)] := by
  induction init with
  | nil =>
    intro bufs hb
    obtain ⟨k, v⟩ := last
    match bufs, hb with
    | [(bk, bv)], _ =>
      simp [IDB.ReadAtCursor.calls, IDB.ReadAtCursor, IDB.ReadAtCursor.ldb]
  | cons r init ih =>
    intro bufs hb
    obtain ⟨k, v⟩ := r
    match bufs, hb with
    | (bk, bv) :: bufs, hb =>
      have hl : bufs.length = init.length + 1 := by simpa using hb
      simp [IDB.ReadAtCursor.calls, IDB.ReadAtCursor, IDB.ReadAtCursor.ldb, ih bufs hl]

/-- C25 at stores of every size `n >= 1` (`init ++ [last]`): the iterator opened by
    `CLevelDB::GetIteCursor` delivers the records in key order, but the call that delivers the
    last record returns `DB_NOTFOUND`, not `0`; with one record no call returns `0`. -/
theorem ReadAtCursor_last_record_notfound (b : Backend) (w : World) (init : List Record)
    (last : Record) (bufs : List (Bytes × Bytes)) (hlen : bufs.length = init.length + 1)
    (halloc : b.ldb_iter_alloc = true) :
    ∃ ite, CLevelDB.GetIteCursor b (init ++ [last]) = .ret ite
      ∧ IDB.ReadAtCursor.calls b ite bufs w
          = init.map (fun r => ((0 : Int), r.1, r.2)) ++ [(DB_NOTFOUND, last.1, last.2)]
      ∧ ((IDB.ReadAtCursor.calls b ite bufs w).filter (fun r => r.1 = 0)).length = init.length := by
  refine ⟨.ldb { rest := init ++ [last] }, by simp [CLevelDB.GetIteCursor, halloc], ?_, ?_⟩
  · exact calls_ldb_all b w last init bufs hlen
  · rw [calls_ldb_all b w last init bufs hlen]
    have hnf : ¬ DB_NOTFOUND = 0 := by decide
    simp [List.filter_append, hnf, List.filter_map]

/-- C25 on a store with the single record `([1], [2])`: the first call delivers the record
    and returns `DB_NOTFOUND`. -/
theorem ReadAtCursor_last_record_notfound_witness :
    ∃ ite, CLevelDB.GetIteCursor {} ([] ++ [([1], [2])]) = .ret ite
      ∧ IDB.ReadAtCursor.calls {} ite [([], [])] sampleWorld
          = ([] : List Record).map (fun r => ((0 : Int), r.1, r.2)) ++ [(DB_NOTFOUND, [1], [2])]
      ∧ ((IDB.ReadAtCursor.calls {} ite [([], [])] sampleWorld).filter
          (fun r => r.1 = 0)).length = ([] : List Record).length :=
  ReadAtCursor_last_record_notfound {} sampleWorld [] ([1], [2]) [([], [])] rfl rfl

/-! ## `CDBEnv::Salvage` on dumps that end early -/

/-- C26 at a dump that ends after a complete pair, without the line `DATA=END`: `Salvage`
    appends the pair `("01", "02")` and then a second pair, made of an empty key and the value
    line `02` once more (the read at the end of the text clears `keyHex`, and the read after it
    fails and leaves `valueHex` as it was).  At a dump that ends after a key line it appends a
    pair with an empty value. -/
theorem Salvage_truncated_dump :
    CDBEnv.Salvage { verify_dump := "HEADER=END\n01\n02\n" } (fun s => s.data.map Char.toNat)
        "wallet.dat" false [] freshWorld
      = some (.ret (true, [([48, 49], [48, 50]), ([], [48, 50])]),
          freshWorld.log (.db_verify "wallet.dat" 64 0))
    ∧ CDBEnv.Salvage { verify_dump := "HEADER=END\n01\n" } (fun s => s.data.map Char.toNat)
        "wallet.dat" false [] freshWorld
      = some (.ret (true, [([48, 49], [])]), freshWorld.log (.db_verify "wallet.dat" 64 0)) :=
  ⟨rfl, rfl⟩

/-! ## `CLevelDBEnv`: handles after `Open` -/

/-- The loop of `CLevelDBEnv::Open`, when it returns: an instance that had an entry keeps it,
    every other instance of the list gets an open handle. -/
theorem LevelOpen_loop_handles (b : Backend) (p : String) (l : List String) :
    ∀ (i : Nat) (env env1 : CLevelDBEnv), CLevelDBEnv.Open.loop b p l i env = (.ret (), env1) →
    ∀ f, mapFind env1.lobj f
      = match mapFind env.lobj f with
        | some o => some o
        | none => if f ∈ l then some { ptxdb := some (p ++ "/" ++ f) } else none := by
  induction l with
  | nil =>
    intro i env env1 h f
    simp only [CLevelDBEnv.Open.loop, Prod.mk.injEq, true_and] at h
    subst h
    cases mapFind env.lobj f <;> simp
  | cons name l ih =>
    intro i env env1 h f
    unfold CLevelDBEnv.Open.loop at h
    by_cases h1 : b.ldb_dir_create i = true
    · by_cases h2 : b.ldb_alloc i = true
      · by_cases h3 : b.ldb_open i = true
        · simp only [h1, h2, h3, Bool.not_true, Bool.false_eq_true, if_false] at h
          rw [ih (i + 1) _ env1 h f]
          simp only [mapFind_mapInsert]
          cases hf : mapFind env.lobj f with
          | some o => rfl
          | none =>
            by_cases hfi : f = name
            · subst hfi; simp
            · simp [hfi]
        · simp [h1, h2, h3] at h
      · simp [h1, h2] at h
    · simp [h1] at h

/-- The first `Open` of a `CLevelDBEnv` (nothing opened yet), when it returns `true`, leaves
    every configured instance with an open handle. -/
theorem LevelOpen_first_handles (b : Backend) (p : String) (shut : Bool) (env : CLevelDBEnv)
    (hinit : env.fLevelDbEnvInit = false) (hlobj : env.lobj = [])
    (h : (CLevelDBEnv.Open b p shut env).1 = .ret true) :
    ∀ name ∈ env.instances,
      mapFind (CLevelDBEnv.Open b p shut env).2.lobj name
        = some { ptxdb := some (p ++ "/" ++ name) } := by
  intro name hn
  unfold CLevelDBEnv.Open at h ⊢
  by_cases hs : shut = true
  · simp [hinit, hs] at h
  · simp only [hinit, hs, Bool.false_eq_true, if_false] at h ⊢
    generalize hr : CLevelDBEnv.Open.loop b p env.instances 0 _ = r at h ⊢
    obtain ⟨o, env1⟩ := r
    cases o with
    | ret u =>
      have := LevelOpen_loop_handles b p env.instances 0 _ env1 hr name
      simp only [hlobj, mapFind, hn, if_true] at this
      simpa using this
    | throw e => simp at h
    | abort => simp at h
    | crash => simp at h

/-- C27 at `Open`, `EnvShutdown`, `Open`: the first `Open` returns `true` and gives the
    instance `txdb` an open handle; `EnvShutdown` clears the table and leaves
    `fLevelDbEnvInit` set; the second `Open` then returns `true` at once, with no entry for
    `txdb`. -/
theorem LevelOpen_after_EnvShutdown :
    CLevelDBEnv.Open {} "/data" false sampleLevelEnv
      = (.ret true, { sampleLevelEnv with
          fLevelDbEnvInit := true, pathEnv := "/data",
          lobj := [("txdb", { ptxdb := some "/data/txdb" })] })
    ∧ (CLevelDBEnv.Open {} "/data" false
        (CLevelDBEnv.Open {} "/data" false sampleLevelEnv).2.EnvShutdown).1 = .ret true
    ∧ "txdb" ∈ (CLevelDBEnv.Open {} "/data" false
        (CLevelDBEnv.Open {} "/data" false sampleLevelEnv).2.EnvShutdown).2.instances
    ∧ mapFind (CLevelDBEnv.Open {} "/data" false
        (CLevelDBEnv.Open {} "/data" false sampleLevelEnv).2.EnvShutdown).2.lobj "txdb" = none
    ∧ (CLevelDBEnv.Open {} "/data" false sampleLevelEnv).2.EnvShutdown.fLevelDbEnvInit = true :=
  ⟨by decide, by decide, by decide, by decide, by decide⟩

/-! ## `dbparam::IsChainFile` -/

/-- C28, as the code has it: `dbparam::IsChainFile` returns `false` for every name other than
    `blkindex.dat` and dies on its own assertion for `blkindex.dat`; it never returns `true`.
    So `CDBEnv::Flush`, processing an unused file in a non-mock environment with detach mode
    off, resets the log sequence number of every file other than `blkindex.dat`, and for
    `blkindex.dat` dies after the checkpoint, without a reset and with the use-count entry in
    place. -/
theorem IsChainFile_never_true (strFile : String) (rest : List (String × Int)) (w : World)
    (hmock : w.bitdb.fMockDb = false) :
    IsChainFile strFile = (if strFile = "blkindex.dat" then .abort else .ret false)
    ∧ IsChainFile strFile ≠ .ret true
    ∧ (strFile ≠ "blkindex.dat" →
        CDBEnv.Flush.loop ((strFile, 0) :: rest) w
          = CDBEnv.Flush.loop rest
              { (((CDBEnv.CloseDb strFile w).log (.txn_checkpoint 0 0)).log (.lsn_reset strFile)) with
                bitdb := { (CDBEnv.CloseDb strFile w).bitdb with
                  mapFileUseCount := mapErase (CDBEnv.CloseDb strFile w).bitdb.mapFileUseCount
                    strFile } })
    ∧ (strFile = "blkindex.dat" →
        CDBEnv.Flush.loop ((strFile, 0) :: rest) w
          = (.abort, (CDBEnv.CloseDb strFile w).log (.txn_checkpoint 0 0))) := by
  have hm : (CDBEnv.CloseDb strFile w).bitdb.fMockDb = false := by
    rw [(CloseDb_frame strFile w).2.2.2.1, hmock]
  refine ⟨?_, ?_, ?_, ?_⟩
  · unfold IsChainFile
    by_cases h : strFile = "blkindex.dat" <;> simp [h]
  · unfold IsChainFile
    by_cases h : strFile = "blkindex.dat" <;> simp [h]
  · intro h
    simp [CDBEnv.Flush.loop, IsChainFile, h, World.log, hm]
  · intro h
    simp [CDBEnv.Flush.loop, IsChainFile, h, World.log]

/-- C28 on the node whose unused file is `wallet.dat`: the flush pass resets its log
    sequence number. -/
theorem IsChainFile_never_true_witness :
    idleWorld.bitdb.fMockDb = false
    ∧ IsChainFile "wallet.dat" = .ret false
    ∧ (CDBEnv.Flush.loop [("wallet.dat", 0)] idleWorld).2.calls
        = [.db_close "wallet.dat", .txn_checkpoint 0 0, .lsn_reset "wallet.dat"] :=
  ⟨by decide,
    (IsChainFile_never_true "wallet.dat" [] idleWorld (by decide)).1,
    by decide⟩

/-- C28 fails as stated: on `blkindex.dat` the function does not return `true`, it dies on
    its assertion. -/
theorem IsChainFile_assert_counterexample :
    IsChainFile "blkindex.dat" = .abort ∧ IsChainFile "blkindex.dat" ≠ .ret true :=
  ⟨by decide, by decide⟩

/-! ## Stake modifier selection interval -/

/-- The length of section `n`, as the code computes it: the wrapped product divided by
    `189 - 2 n`. -/
theorem Section_value (I n : Nat) (hn : n < 64) :
    GetStakeModifierSelectionIntervalSection I n
      = .ret (((I * 63 % 2 ^ 32 / (189 - 2 * n) : Nat) : Int)) := by
  unfold GetStakeModifierSelectionIntervalSection MODIFIER_INTERVAL_RATIO
  have h1 : ((n : Int) ≥ 0 ∧ (n : Int) < 64) := ⟨by omega, by omega⟩
  simp only [h1, and_self, if_true]
  have e : ((63 + (63 - (n : Int)) * (3 - 1)) % 2 ^ 32).toNat = 189 - 2 * n := by omega
  rw [e]

/-- The loop of `GetStakeModifierSelectionInterval` adds up the sections that are left. -/
theorem Interval_loop (I : Nat) :
    ∀ (k n : Nat) (acc : Int), n + k = 64 → ∀ fuel, k < fuel →
    GetStakeModifierSelectionInterval.loop I fuel n acc
      = some (.ret (acc
          + ∑ j in Finset.range k, ((I * 63 % 2 ^ 32 / (189 - 2 * (n + j)) : Nat) : Int))) := by
  intro k
  induction k with
  | zero =>
    intro n acc hn fuel hf
    obtain ⟨f, rfl⟩ : ∃ f, fuel = f + 1 := ⟨fuel - 1, by omega⟩
    have : ¬ ((n : Int) < 64) := by omega
    simp [GetStakeModifierSelectionInterval.loop, this]
  | succ k ih =>
    intro n acc hn fuel hf
    obtain ⟨f, rfl⟩ : ∃ f, fuel = f + 1 := ⟨fuel - 1, by omega⟩
    have hlt : (n : Int) < 64 := by omega
    unfold GetStakeModifierSelectionInterval.loop
    simp only [hlt, if_true, Section_value I n (by omega)]
    have := ih (n + 1) (acc + ((I * 63 % 2 ^ 32 / (189 - 2 * n) : Nat) : Int)) (by omega) f
      (by omega)
    have hs : ∑ j in Finset.range (k + 1), ((I * 63 % 2 ^ 32 / (189 - 2 * (n + j)) : Nat) : Int)
        = ((I * 63 % 2 ^ 32 / (189 - 2 * n) : Nat) : Int)
          + ∑ j in Finset.range k,
              ((I * 63 % 2 ^ 32 / (189 - 2 * (n + 1 + j)) : Nat) : Int) := by
      rw [Finset.sum_range_succ', add_comm, Nat.add_zero]
      have e : ∀ j ∈ Finset.range k,
          ((I * 63 % 2 ^ 32 / (189 - 2 * (n + (j + 1))) : Nat) : Int)
          = ((I * 63 % 2 ^ 32 / (189 - 2 * (n + 1 + j)) : Nat) : Int) := by
        intro j _
        rw [show n + (j + 1) = n + 1 + j by omega]
      rw [Finset.sum_congr rfl e]
    rw [show ((n : Int) + 1) = ((n + 1 : Nat) : Int) by push_cast; ring, this, hs, add_assoc]

/-- C30, as amended: for every modifier interval `I` (an `unsigned int`) the sections
    `0 <= n < 64` are returned, section `n` being the wrapped product `I * 63 mod 2 ^ 32`
    divided by `189 - 2 n`; they are non-decreasing in `n`, and
    `GetStakeModifierSelectionInterval` returns the sum of the 64 section lengths.  When
    `I * 63 < 2 ^ 32` section 63 has length `I` and section 0 has length
    `I / MODIFIER_INTERVAL_RATIO`; when the product does not fit, section 63 is not `I`. -/
theorem SelectionInterval_sections (I : Nat) :
    (∀ n : Nat, n < 64 →
      GetStakeModifierSelectionIntervalSection I n
        = .ret (((I * 63 % 2 ^ 32 / (189 - 2 * n) : Nat) : Int)))
    ∧ (∀ (n m : Nat) (a c : Int), n ≤ m → m < 64 →
        GetStakeModifierSelectionIntervalSection I n = .ret a →
        GetStakeModifierSelectionIntervalSection I m = .ret c → a ≤ c)
    ∧ GetStakeModifierSelectionInterval I
        = some (.ret (∑ n in Finset.range 64, ((I * 63 % 2 ^ 32 / (189 - 2 * n) : Nat) : Int)))
    ∧ (I * 63 < 2 ^ 32 →
        GetStakeModifierSelectionIntervalSection I 63 = .ret (I : Int)
        ∧ GetStakeModifierSelectionIntervalSection I 0
            = .ret ((I : Int) / MODIFIER_INTERVAL_RATIO)
        ∧ ∀ n : Nat, n < 64 →
            GetStakeModifierSelectionIntervalSection I n
              = .ret ((I : Int) * 63 / (189 - 2 * (n : Int))))
    ∧ (2 ^ 32 ≤ I * 63 → GetStakeModifierSelectionIntervalSection I 63 ≠ .ret (I : Int)) := by
  refine ⟨fun n hn => Section_value I n hn, ?_, ?_, ?_, ?_⟩
  · intro n m a c hnm hm ha hc
    rw [Section_value I n (by omega)] at ha
    rw [Section_value I m hm] at hc
    injection ha with ha
    injection hc with hc
    rw [← ha, ← hc]
    have hd1 : 0 < 189 - 2 * m := by omega
    have hd2 : 189 - 2 * m ≤ 189 - 2 * n := by omega
    exact_mod_cast Nat.div_le_div_left hd2 hd1
  · have := Interval_loop I 64 0 0 rfl 65 (by omega)
    simpa [GetStakeModifierSelectionInterval] using this
  · intro hfit
    have hmod : I * 63 % 2 ^ 32 = I * 63 := Nat.mod_eq_of_lt hfit
    refine ⟨?_, ?_, ?_⟩
    · have := Section_value I 63 (by omega)
      simp only [Nat.cast_ofNat] at this
      rw [this, hmod]
      congr 1
      omega
    · have := Section_value I 0 (by omega)
      simp only [Nat.cast_zero] at this
      rw [this, hmod]
      unfold MODIFIER_INTERVAL_RATIO
      congr 1
      omega
    · intro n hn
      rw [Section_value I n hn, hmod]
      congr 1
      have e : (189 : Int) - 2 * (n : Int) = ((189 - 2 * n : Nat) : Int) := by omega
      rw [e]
      push_cast
      rfl
  · intro hbig h
    have hv := Section_value I 63 (by omega)
    simp only [Nat.cast_ofNat] at hv
    rw [hv] at h
    injection h with h
    omega

/-- C30 for an interval of six hours (21600 seconds). -/
theorem SelectionInterval_sections_witness :
    (63 : Nat) < 64 ∧ 21600 * 63 < 2 ^ 32
    ∧ GetStakeModifierSelectionIntervalSection 21600 63 = .ret 21600
    ∧ GetStakeModifierSelectionIntervalSection 21600 0
        = .ret ((21600 : Int) / MODIFIER_INTERVAL_RATIO)
    ∧ GetStakeModifierSelectionIntervalSection 21600 0 = .ret 7200
    ∧ GetStakeModifierSelectionInterval 21600 = some (.ret 761920) :=
  ⟨by decide, by decide, ((SelectionInterval_sections 21600).2.2.2.1 (by decide)).1,
    ((SelectionInterval_sections 21600).2.2.2.1 (by decide)).2.1, by decide, by decide⟩

/-- C30 fails as stated: for the interval `68174085` the product `68174085 * 63` is
    `2 ^ 32 + 59` and wraps to `59`, so section 63 has length `0`, not `68174085`, and section
    0 has length `0`, not `68174085 / 3 = 22724695`. -/
theorem SelectionInterval_overflow_counterexample :
    (68174085 : Nat) < 2 ^ 32
    ∧ 68174085 * 63 = 2 ^ 32 + 59
    ∧ GetStakeModifierSelectionIntervalSection 68174085 63 = .ret 0
    ∧ GetStakeModifierSelectionIntervalSection 68174085 63 ≠ .ret 68174085
    ∧ GetStakeModifierSelectionIntervalSection 68174085 0 = .ret 0
    ∧ (68174085 : Int) / MODIFIER_INTERVAL_RATIO = 22724695 :=
  ⟨by decide, by decide, by decide, by decide, by decide, by decide⟩

/-! ## `base_uint::GetHex` and `base_uint::SetHex` -/

theorem bytes_length (pn : base_uint) : (base_uint.bytes pn).length = 4 * pn.length := by
  induction pn with
  | nil => rfl
  | cons w pn ih => simp only [base_uint.bytes, List.length_cons, ih]; omega

theorem bytes_lt (pn : base_uint) : ∀ b ∈ base_uint.bytes pn, b < 256 := by
  induction pn with
  | nil => simp [base_uint.bytes]
  | cons w pn ih =>
    intro b hb
    simp only [base_uint.bytes, List.mem_cons] at hb
    rcases hb with h | h | h | h | h
    · omega
    · omega
    · omega
    · omega
    · exact ih b h

theorem ofBytes_bytes (pn : base_uint) (h : ∀ w ∈ pn, w < 2 ^ 32) :
    base_uint.ofBytes (base_uint.bytes pn) = pn := by
  induction pn with
  | nil => rfl
  | cons w pn ih =>
    have hw : w < 2 ^ 32 := h w (List.mem_cons_self _ _)
    simp only [base_uint.bytes, base_uint.ofBytes,
      ih (fun x hx => h x (List.mem_cons_of_mem _ hx))]
    congr 1
    omega

theorem range_map_getD_reverse (l : List Nat) :
    (List.range l.length).map (fun i => l.getD (l.length - i - 1) 0) = l.reverse := by
  apply List.ext_getElem
  · simp
  · intro n h1 h2
    simp only [List.length_map, List.length_range] at h1
    simp only [List.getElem_map, List.getElem_range, List.getElem_reverse]
    rw [List.getD_eq_getElem _ _ (by omega)]
    congr 1
    omega

theorem GetHex_data (pn : base_uint) :
    (base_uint.GetHex pn).data
      = (base_uint.bytes pn).reverse.flatMap (fun b => [hexChar (b / 16), hexChar (b % 16)]) := by
  unfold base_uint.GetHex
  simp only
  rw [← range_map_getD_reverse, bytes_length, List.flatMap_map]

/-- What `SetHex` needs of the digits `GetHex` prints. -/
theorem hexChar_facts : ∀ n, n < 16 →
    phexdigit (hexChar n) = n
    ∧ (phexdigit (hexChar n) ≠ 0 || hexChar n = '0') = true
    ∧ isspace (hexChar n) = false
    ∧ (hexChar n).toLower ≠ 'x'
    ∧ hexChar n ∈ "0123456789abcdef".data := by
  decide

/-- Low and high nibble put together give the byte. -/
theorem nibbles_byte : ∀ a, a < 16 → ∀ c, c < 16 → (a ||| (c <<< 4)) % 256 = a + 16 * c := by
  decide

/-- What `SetHex` does with a character that `SetHex` takes for a digit. -/
theorem digit_facts : ∀ c ∈ "0123456789abcdefABCDEF".data,
    (phexdigit c ≠ 0 || c = '0') = true ∧ isspace c = false ∧ c.toLower ≠ 'x' := by
  decide

/-- The last loop of `SetHex` on the digits of bytes, low nibble first, gives the bytes back. -/
theorem fill_bytes (B : List Nat) :
    ∀ room, (∀ b ∈ B, b < 256) → B.length ≤ room →
    base_uint.SetHex.fill (B.flatMap (fun b => [hexChar (b % 16), hexChar (b / 16)])) room
      = B := by
  induction B with
  | nil => intro room _ _; cases room <;> rfl
  | cons b B ih =>
    intro room hB hlen
    obtain ⟨r, rfl⟩ : ∃ r, room = r + 1 := ⟨room - 1, by simp at hlen; omega⟩
    have hb : b < 256 := hB b (List.mem_cons_self _ _)
    have h1 := (hexChar_facts (b % 16) (by omega)).1
    have h2 := (hexChar_facts (b / 16) (by omega)).1
    have e : (b :: B).flatMap (fun b => [hexChar (b % 16), hexChar (b / 16)])
        = hexChar (b % 16) :: hexChar (b / 16)
            :: B.flatMap (fun b => [hexChar (b % 16), hexChar (b / 16)]) := by
      simp [List.flatMap_cons]
    rw [e, base_uint.SetHex.fill, h1, h2, nibbles_byte _ (by omega) _ (by omega),
      ih r (fun x hx => hB x (List.mem_cons_of_mem _ hx)) (by simp at hlen; omega)]
    congr 1
    omega

/-- Nothing is skipped in front of a text that does not start with a space. -/
theorem dropWhile_isspace_digits (l : List Char) (h : ∀ c ∈ l, isspace c = false) :
    l.dropWhile isspace = l := by
  cases l with
  | nil => rfl
  | cons c l => simp [List.dropWhile, h c (List.mem_cons_self _ _)]

/-- Leading spaces are skipped. -/
theorem dropWhile_isspace_append (ws r : List Char) (hws : ∀ c ∈ ws, isspace c = true) :
    (ws ++ r).dropWhile isspace = r.dropWhile isspace := by
  induction ws with
  | nil => rfl
  | cons c ws ih =>
    simp only [List.cons_append, List.dropWhile, hws c (List.mem_cons_self _ _)]
    exact ih (fun x hx => hws x (List.mem_cons_of_mem _ hx))

/-- `SetHex` on a text of digits: only the last loop does anything. -/
theorem SetHex_digits (WIDTH : Nat) (l : List Char)
    (h : ∀ c ∈ l, (phexdigit c ≠ 0 || c = '0') = true ∧ isspace c = false ∧ c.toLower ≠ 'x') :
    base_uint.SetHex WIDTH (String.mk l)
      = base_uint.ofBytes (base_uint.SetHex.fill l.reverse (WIDTH * 4)
          ++ List.replicate (WIDTH * 4 - (base_uint.SetHex.fill l.reverse (WIDTH * 4)).length) 0) := by
  unfold base_uint.SetHex
  simp only
  rw [dropWhile_isspace_digits l (fun c hc => (h c hc).2.1)]
  have ht := List.takeWhile_eq_self_iff.mpr (fun c hc => (h c hc).1)
  cases l with
  | nil => rfl
  | cons c0 t =>
    cases t with
    | nil => simp only; rw [ht]
    | cons c1 rest =>
      have hx := (h c1 (by simp)).2.2
      simp only [hx, and_false, if_false]
      rw [ht]

/-- The digits of `GetHex`, last digit first: the bytes of `pn` in memory order, low nibble
    first. -/
theorem GetHex_data_reverse (pn : base_uint) :
    (base_uint.GetHex pn).data.reverse
      = (base_uint.bytes pn).flatMap (fun b => [hexChar (b % 16), hexChar (b / 16)]) := by
  rw [GetHex_data, List.reverse_flatMap, List.reverse_reverse]
  rfl

/-- Every character of `GetHex` is `hexChar` of a nibble. -/
theorem GetHex_chars (pn : base_uint) :
    ∀ c ∈ (base_uint.GetHex pn).data, ∃ n, n < 16 ∧ c = hexChar n := by
  intro c hc
  rw [GetHex_data] at hc
  simp only [List.mem_flatMap, List.mem_reverse, List.mem_cons, List.mem_singleton,
    List.not_mem_nil, or_false] at hc
  obtain ⟨b, hb, h | h⟩ := hc
  · exact ⟨b / 16, by have := bytes_lt pn b hb; omega, h⟩
  · exact ⟨b % 16, by omega, h⟩

/-- The round trip: `SetHex` on the text of `GetHex` restores `pn`. -/
theorem SetHex_GetHex (pn : base_uint) (h : ∀ w ∈ pn, w < 2 ^ 32) :
    base_uint.SetHex pn.length (base_uint.GetHex pn) = pn := by
  have hd : ∀ c ∈ (base_uint.GetHex pn).data,
      (phexdigit c ≠ 0 || c = '0') = true ∧ isspace c = false ∧ c.toLower ≠ 'x' := by
    intro c hc
    obtain ⟨n, hn, rfl⟩ := GetHex_chars pn c hc
    obtain ⟨-, f2, f3, f4, -⟩ := hexChar_facts n hn
    exact ⟨f2, f3, f4⟩
  have := SetHex_digits pn.length (base_uint.GetHex pn).data hd
  rw [show String.mk (base_uint.GetHex pn).data = base_uint.GetHex pn from rfl] at this
  rw [this, GetHex_data_reverse,
    fill_bytes _ _ (bytes_lt pn) (by rw [bytes_length]; omega), bytes_length]
  have e : pn.length * 4 - 4 * pn.length = 0 := by omega
  rw [e]
  simp only [List.replicate_zero, List.append_nil]
  exact ofBytes_bytes pn h

/-- The length of the text of `GetHex`: two digits a byte. -/
theorem GetHex_length (pn : base_uint) : (base_uint.GetHex pn).length = 8 * pn.length := by
  have h : ∀ B : List Nat,
      (B.flatMap (fun b => [hexChar (b / 16), hexChar (b % 16)])).length = 2 * B.length := by
    intro B
    induction B with
    | nil => rfl
    | cons b B ih => simp only [List.flatMap_cons, List.length_append, ih, List.length_cons,
        List.length_nil]; omega
  show (base_uint.GetHex pn).data.length = _
  rw [GetHex_data, h, List.length_reverse, bytes_length]
  omega

/-- The bytes of `pn`, read as a little-endian number, give the value of `pn`. -/
theorem bytes_value (pn : base_uint) (h : ∀ w ∈ pn, w < 2 ^ 32) :
    (base_uint.bytes pn).foldr (fun b acc => b + 256 * acc) 0 = base_uint.value pn := by
  induction pn with
  | nil => rfl
  | cons w pn ih =>
    have hw : w < 2 ^ 32 := h w (List.mem_cons_self _ _)
    simp only [base_uint.bytes, List.foldr_cons, base_uint.value,
      ih (fun x hx => h x (List.mem_cons_of_mem _ hx))]
    omega

/-- The text of `GetHex` reads, most significant digit first, as the value of `pn`. -/
theorem hexValue_GetHex (pn : base_uint) (h : ∀ w ∈ pn, w < 2 ^ 32) :
    hexValue (base_uint.GetHex pn) = base_uint.value pn := by
  have key : ∀ (B : List Nat) (acc : Nat), (∀ b ∈ B, b < 256) →
      (B.flatMap (fun b => [hexChar (b / 16), hexChar (b % 16)])).foldl
          (fun acc c => 16 * acc + phexdigit c) acc
        = B.foldl (fun acc b => 256 * acc + b) acc := by
    intro B
    induction B with
    | nil => intro acc _; rfl
    | cons b B ih =>
      intro acc hB
      have hb : b < 256 := hB b (List.mem_cons_self _ _)
      have h1 := (hexChar_facts (b / 16) (by omega)).1
      have h2 := (hexChar_facts (b % 16) (by omega)).1
      simp only [List.flatMap_cons, List.cons_append, List.nil_append, List.foldl_cons, h1, h2]
      rw [ih _ (fun x hx => hB x (List.mem_cons_of_mem _ hx))]
      congr 1
      omega
  unfold hexValue
  rw [GetHex_data, key _ _ (fun b hb => bytes_lt pn b (List.mem_reverse.mp hb)),
    List.foldl_reverse, ← bytes_value pn h]
  congr 1
  funext b acc
  omega

/-- C29: for every `base_uint` of `WIDTH` words (`BITS = 32 * WIDTH`), `GetHex` is a text of
    `BITS / 4 = 8 * WIDTH` lowercase hexadecimal digits that reads, most significant digit
    first, as the value of the object, and `SetHex` on that text restores the object.  Leading
    whitespace and a prefix `0x` or `0X` in front of a text of hexadecimal digits do not change
    what `SetHex` parses. -/
theorem GetHex_SetHex_round_trip (pn : base_uint) (hpn : ∀ w ∈ pn, w < 2 ^ 32)
    (ws : List Char) (hws : ∀ c ∈ ws, isspace c = true)
    (s : String) (hs : ∀ c ∈ s.data, c ∈ "0123456789abcdefABCDEF".data) (WIDTH : Nat) :
    (base_uint.GetHex pn).length = 8 * pn.length
    ∧ (∀ c ∈ (base_uint.GetHex pn).data, c ∈ "0123456789abcdef".data)
    ∧ hexValue (base_uint.GetHex pn) = base_uint.value pn
    ∧ base_uint.SetHex pn.length (base_uint.GetHex pn) = pn
    ∧ base_uint.SetHex WIDTH (String.mk (ws ++ s.data)) = base_uint.SetHex WIDTH s
    ∧ base_uint.SetHex WIDTH (String.mk (ws ++ '0' :: 'x' :: s.data)) = base_uint.SetHex WIDTH s
    ∧ base_uint.SetHex WIDTH (String.mk (ws ++ '0' :: 'X' :: s.data))
        = base_uint.SetHex WIDTH s := by
  have hd : ∀ c ∈ s.data,
      (phexdigit c ≠ 0 || c = '0') = true ∧ isspace c = false ∧ c.toLower ≠ 'x' :=
    fun c hc => digit_facts c (hs c hc)
  have hS := SetHex_digits WIDTH s.data hd
  rw [show String.mk s.data = s from rfl] at hS
  have ht := List.takeWhile_eq_self_iff.mpr (fun c hc => (hd c hc).1)
  refine ⟨GetHex_length pn, ?_, hexValue_GetHex pn hpn, SetHex_GetHex pn hpn, ?_, ?_, ?_⟩
  · intro c hc
    obtain ⟨n, hn, rfl⟩ := GetHex_chars pn c hc
    exact (hexChar_facts n hn).2.2.2.2
  · unfold base_uint.SetHex
    simp only
    rw [dropWhile_isspace_append ws _ hws]
  · rw [hS]
    unfold base_uint.SetHex
    simp only
    rw [dropWhile_isspace_append ws _ hws]
    have h0 : isspace '0' = false := by decide
    have hx : ('x' : Char).toLower = 'x' := by decide
    simp only [List.dropWhile, h0, hx, and_self, if_true]
    rw [ht]
  · rw [hS]
    unfold base_uint.SetHex
    simp only
    rw [dropWhile_isspace_append ws _ hws]
    have h0 : isspace '0' = false := by decide
    have hx : ('X' : Char).toLower = 'x' := by decide
    simp only [List.dropWhile, h0, hx, and_self, if_true]
    rw [ht]

/-- C29 on the 64-bit object with the words `0x12345678` (low) and `0x9abcdef0` (high). -/
theorem GetHex_SetHex_round_trip_witness :
    (∀ w ∈ ([0x12345678, 0x9abcdef0] : base_uint), w < 2 ^ 32)
    ∧ (∀ c ∈ [' ', '\t'], isspace c = true)
    ∧ (∀ c ∈ "9aBC".data, c ∈ "0123456789abcdefABCDEF".data)
    ∧ base_uint.GetHex [0x12345678, 0x9abcdef0] = "9abcdef012345678"
    ∧ base_uint.SetHex 2 (base_uint.GetHex [0x12345678, 0x9abcdef0]) = [0x12345678, 0x9abcdef0]
    ∧ base_uint.SetHex 2 (String.mk ([' ', '\t'] ++ '0' :: 'x' :: "9aBC".data))
        = base_uint.SetHex 2 "9aBC"
    ∧ base_uint.SetHex 2 "9aBC" = [0x9abc, 0] :=
  ⟨by decide, by decide, by decide, by decide,
    (GetHex_SetHex_round_trip [0x12345678, 0x9abcdef0] (by decide) [' ', '\t'] (by decide)
      "9aBC" (by decide) 2).2.2.2.1,
    (GetHex_SetHex_round_trip [0x12345678, 0x9abcdef0] (by decide) [' ', '\t'] (by decide)
      "9aBC" (by decide) 2).2.2.2.2.2.1,
    by decide⟩

end SorachanCoin
